import Mathlib

/-!
# kronosnet: the crypto instance manager of `libknet/crypto.c`

A shallow embedding of `src/libknet/crypto.c`.

* Memory: the slot table `knet_h->crypto_instance[]` is a list of optional
  instances (`none` is the NULL pointer); index 0 is the unused entry in front
  of the slots `1..KNET_MAX_CRYPTO_INSTANCES`.  Reading the array out of
  bounds or dereferencing a NULL pointer has no defined behaviour in C; the
  embedded functions return `none` there.
* Globals: the backend table `crypto_modules_cmds[]`, `errno`, and the record
  of the calls made into code outside `crypto.c` (module loader and backend
  hooks) are fields of `state`.
* External calls: backend hooks are functions stored in `crypto_ops_t`; the
  results of `pthread_rwlock_wrlock`, `load_module` and `malloc` are supplied
  per call.  Hooks receive the handle read-only and report their result, the
  bytes they wrote to `buf_out` and, when they set it, `errno`.
* Constants declared outside `crypto.c` (`KNET_MAX_CRYPTO_INSTANCES`,
  `KNET_CRYPTO_MODEL_ABI`, `WITH_CRYPTO_NSS`, `WITH_CRYPTO_OPENSSL`) are
  parameters.  Logging calls are not modelled.
-/

namespace Knet

/-! ## Constants -/

/-- Value of `EINVAL` in errno.h (Linux). -/
def EINVAL : Nat := 22

/-- Value of `ENOMEM` in errno.h (Linux). -/
def ENOMEM : Nat := 12

/-- Value of `ENOTSUP` in errno.h (Linux), the "not supported" code. -/
def ENOTSUP : Nat := 95

/-- The two log levels `crypto.c` passes to a backend `decrypt`. -/
inductive log_level_t where
  | KNET_LOG_ERR
  | KNET_LOG_DEBUG
deriving DecidableEq

/-! ## Data model -/

/-- Mirror of `struct crypto_instance`: backend index, backend-private state
(an opaque token) and the three sizes the backend reports. -/
structure crypto_instance where
  model : Nat
  model_instance : Nat
  sec_block_size : Nat
  sec_hash_size : Nat
  sec_salt_size : Nat
deriving DecidableEq

/-- The crypto part of `struct knet_handle`. -/
structure knet_handle where
  crypto_instance : List (Option crypto_instance)
  crypto_in_use_config : Nat
  sec_block_size : Nat
  sec_hash_size : Nat
  sec_salt_size : Nat
deriving DecidableEq

/-- Mirror of `struct knet_handle_crypto_cfg`. -/
structure knet_handle_crypto_cfg where
  crypto_model : String
  crypto_cipher_type : String
  crypto_hash_type : String
  private_key : List Nat
  private_key_len : Nat
deriving DecidableEq

/-- What a backend `init` hook leaves behind: return value, `errno` when the
hook set it, and the fields it wrote into the instance it was given. -/
structure init_result where
  ret : Int
  errno : Option Nat
  model_instance : Nat
  sec_block_size : Nat
  sec_hash_size : Nat
  sec_salt_size : Nat

/-- What a backend `crypt`, `cryptv` or `decrypt` hook leaves behind: return
value, the bytes `buf_out[0 .. *buf_out_len)`, and `errno` when the hook set
it. -/
structure crypt_result where
  ret : Int
  buf_out : List Nat
  errno : Option Nat

/-- Mirror of `crypto_ops_t`, the operation table of a backend.  `fini` is
optional (a NULL function pointer is `none`). -/
structure crypto_ops_t where
  abi_ver : Nat
  init : knet_handle → knet_handle_crypto_cfg → init_result
  fini : Option (knet_handle → crypto_instance → Option Nat)
  crypt : knet_handle → crypto_instance → List Nat → crypt_result
  cryptv : knet_handle → crypto_instance → List (List Nat) → crypt_result
  decrypt : knet_handle → crypto_instance → List Nat → log_level_t → crypt_result

/-- Mirror of `crypto_model_t`, one row of `crypto_modules_cmds[]`. -/
structure crypto_model_t where
  model_name : String
  built_in : Nat
  loaded : Nat
  ops : Option crypto_ops_t

/-- A call made by `crypto.c` into the module loader or a backend hook. -/
inductive call_t where
  | load_module (model_name : String)
  | init (model : Nat)
  | fini (model : Nat) (inst : crypto_instance)
  | crypt (config_num : Nat)
  | cryptv (config_num : Nat)
  | decrypt (config_num : Nat) (log_level : log_level_t)
deriving DecidableEq

/-- Everything `crypto.c` reads and writes: the handle, the global backend
table, `errno`, and the calls made so far (oldest first). -/
structure state where
  knet_h : knet_handle
  crypto_modules_cmds : List crypto_model_t
  errno : Nat
  calls : List call_t

/-- The table `crypto_modules_cmds[]` as compiled (crypto.c:27-31); the row
with the NULL name that terminates the C array is the end of the list. -/
def crypto_modules_cmds (WITH_CRYPTO_NSS WITH_CRYPTO_OPENSSL : Nat) : List crypto_model_t :=
  [ { model_name := "nss", built_in := WITH_CRYPTO_NSS, loaded := 0, ops := none },
    { model_name := "openssl", built_in := WITH_CRYPTO_OPENSSL, loaded := 0, ops := none } ]

/-- A handle with `KNET_MAX_CRYPTO_INSTANCES + 1` empty entries, nothing in
use and all sizes zero. -/
def empty_handle (KNET_MAX_CRYPTO_INSTANCES : Nat) : knet_handle :=
  { crypto_instance := List.replicate (KNET_MAX_CRYPTO_INSTANCES + 1) none,
    crypto_in_use_config := 0,
    sec_block_size := 0,
    sec_hash_size := 0,
    sec_salt_size := 0 }

/-! ## crypto_get_model (crypto.c:33-43) -/

/-- The `while` loop of `crypto_get_model`, started at row `idx`. -/
def crypto_get_model_loop : List crypto_model_t → String → Nat → Int
  | [], _, _ => -1
  | row :: rest, model, idx =>
    if row.model_name = model then (idx : Int)
    else crypto_get_model_loop rest model (idx + 1)

/-- Embedding of `crypto_get_model`. -/
def crypto_get_model (tbl : List crypto_model_t) (model : String) : Int :=
  crypto_get_model_loop tbl model 0

/-- The expression `crypto_modules_cmds[inst->model].ops`, with the NULL
pointer and the out-of-bounds read as `none`. -/
def instance_ops (tbl : List crypto_model_t) (inst : crypto_instance) : Option crypto_ops_t :=
  match tbl[inst.model]? with
  | none => none
  | some row => row.ops

/-! ## Send path (crypto.c:49-67) -/

/-- Embedding of `crypto_encrypt_and_sign`: return value, output bytes and
the state after the call. -/
def crypto_encrypt_and_sign (s : state) (buf_in : List Nat) : Option (Int × List Nat × state) :=
  match s.knet_h.crypto_instance[s.knet_h.crypto_in_use_config]? with
  | none => none
  | some none => none
  | some (some inst) =>
    match instance_ops s.crypto_modules_cmds inst with
    | none => none
    | some ops =>
      let r := ops.crypt s.knet_h inst buf_in
      some (r.ret, r.buf_out,
        { s with errno := r.errno.getD s.errno,
                 calls := s.calls ++ [call_t.crypt s.knet_h.crypto_in_use_config] })

/-- Embedding of `crypto_encrypt_and_signv`. -/
def crypto_encrypt_and_signv (s : state) (iov_in : List (List Nat)) :
    Option (Int × List Nat × state) :=
  match s.knet_h.crypto_instance[s.knet_h.crypto_in_use_config]? with
  | none => none
  | some none => none
  | some (some inst) =>
    match instance_ops s.crypto_modules_cmds inst with
    | none => none
    | some ops =>
      let r := ops.cryptv s.knet_h inst iov_in
      some (r.ret, r.buf_out,
        { s with errno := r.errno.getD s.errno,
                 calls := s.calls ++ [call_t.cryptv s.knet_h.crypto_in_use_config] })

/-! ## Receive path (crypto.c:69-120) -/

/-- The counting loop (crypto.c:80-84) over the slot ids in the list. -/
def count_configs (h : knet_handle) : List Nat → Nat → Option Nat
  | [], multiple_configs => some multiple_configs
  | i :: rest, multiple_configs =>
    match h.crypto_instance[i]? with
    | none => none
    | some none => count_configs h rest multiple_configs
    | some (some _) => count_configs h rest (multiple_configs + 1)

/-- The fallback loop (crypto.c:101-117) over the slot ids in the list;
`err` and `buf_out` are those of the last attempt made so far. -/
def decrypt_alternatives (buf_in : List Nat) :
    List Nat → Int → List Nat → state → Option (Int × List Nat × state)
  | [], err, buf_out, s => some (err, buf_out, s)
  | i :: rest, err, buf_out, s =>
    if i = s.knet_h.crypto_in_use_config then
      decrypt_alternatives buf_in rest err buf_out s
    else
      match s.knet_h.crypto_instance[i]? with
      | none => none
      | some none => decrypt_alternatives buf_in rest err buf_out s
      | some (some inst) =>
        match instance_ops s.crypto_modules_cmds inst with
        | none => none
        | some ops =>
          let r := ops.decrypt s.knet_h inst buf_in log_level_t.KNET_LOG_ERR
          let s1 : state :=
            { s with errno := r.errno.getD s.errno,
                     calls := s.calls ++ [call_t.decrypt i log_level_t.KNET_LOG_ERR] }
          if r.ret = 0 then
            some (r.ret, r.buf_out, { s1 with errno := 0 })
          else
            decrypt_alternatives buf_in rest r.ret r.buf_out s1

/-- Embedding of `crypto_authenticate_and_decrypt`: return value, output
bytes and the state after the call. -/
def crypto_authenticate_and_decrypt (KNET_MAX_CRYPTO_INSTANCES : Nat) (s : state)
    (buf_in : List Nat) : Option (Int × List Nat × state) :=
  match count_configs s.knet_h (List.range' 1 KNET_MAX_CRYPTO_INSTANCES) 0 with
  | none => none
  | some multiple_configs =>
    let log_level :=
      if multiple_configs > 1 then log_level_t.KNET_LOG_DEBUG else log_level_t.KNET_LOG_ERR
    match s.knet_h.crypto_instance[s.knet_h.crypto_in_use_config]? with
    | none => none
    | some none => none
    | some (some inst) =>
      match instance_ops s.crypto_modules_cmds inst with
      | none => none
      | some ops =>
        let r := ops.decrypt s.knet_h inst buf_in log_level
        let s1 : state :=
          { s with errno := r.errno.getD s.errno,
                   calls := s.calls ++ [call_t.decrypt s.knet_h.crypto_in_use_config log_level] }
        if r.ret ≠ 0 then
          decrypt_alternatives buf_in (List.range' 1 KNET_MAX_CRYPTO_INSTANCES) r.ret r.buf_out s1
        else
          some (r.ret, r.buf_out, s1)

/-! ## crypto_use_config (crypto.c:122-137) -/

/-- Embedding of `crypto_use_config`. -/
def crypto_use_config (s : state) (config_num : Nat) : Option (Int × state) :=
  match s.knet_h.crypto_instance[config_num]? with
  | none => none
  | some none => some (-1, { s with errno := EINVAL })
  | some (some inst) =>
    some (0, { s with knet_h :=
      { s.knet_h with crypto_in_use_config := config_num,
                      sec_block_size := inst.sec_block_size,
                      sec_hash_size := inst.sec_hash_size,
                      sec_salt_size := inst.sec_salt_size } })

/-! ## crypto_init (crypto.c:139-250) -/

/-- Results of the calls `crypto_init` makes outside the backend hooks:
the return value of `pthread_rwlock_wrlock`, the pointer `load_module`
returns (NULL is `none`) with the `errno` it leaves when it sets one, and
whether `malloc` returns a non-NULL pointer. -/
structure crypto_init_env where
  pthread_rwlock_wrlock : Nat
  load_module : Option crypto_ops_t
  load_module_errno : Option Nat
  malloc : Bool

/-- The failing half of the `out:` label (crypto.c:241-249): the new
instance, if any, is freed and `errno` is set to `savederrno`. -/
def crypto_init_fail (s : state) (savederrno : Nat) : Option (Int × state) :=
  some (-1, { s with errno := savederrno })

/-- The handle writes of the succeeding half of the `out:` label
(crypto.c:217-228). -/
def crypto_init_publish (h : knet_handle) (config_num : Nat) (new : crypto_instance) :
    knet_handle :=
  let h1 : knet_handle :=
    { h with crypto_instance := h.crypto_instance.set config_num (some new) }
  let h2 : knet_handle :=
    if h1.crypto_in_use_config = 0 ∨ h1.crypto_in_use_config = config_num then
      { h1 with sec_block_size := new.sec_block_size,
                sec_hash_size := new.sec_hash_size,
                sec_salt_size := new.sec_salt_size }
    else h1
  if h2.crypto_in_use_config = 0 then { h2 with crypto_in_use_config := config_num } else h2

/-- The succeeding half of the `out:` label (crypto.c:216-240 and 247-249):
publish the new instance, run the `fini` hook of the replaced one when it
has one, and clear `errno`. -/
def crypto_init_success (s : state) (config_num : Nat) (current : Option crypto_instance)
    (new : crypto_instance) : Option (Int × state) :=
  let h1 := crypto_init_publish s.knet_h config_num new
  match current with
  | none => some (0, { s with knet_h := h1, errno := 0 })
  | some cur =>
    match instance_ops s.crypto_modules_cmds cur with
    | none => none
    | some ops =>
      match ops.fini with
      | none => some (0, { s with knet_h := h1, errno := 0 })
      | some _ =>
        some (0, { s with knet_h := h1, errno := 0,
                          calls := s.calls ++ [call_t.fini cur.model cur] })

/-- The new instance after `new->model = model` and a successful backend
`init`, which writes its private state and the three sizes into it. -/
def instance_of_init (model : Nat) (r : init_result) : crypto_instance :=
  { model := model,
    model_instance := r.model_instance,
    sec_block_size := r.sec_block_size,
    sec_hash_size := r.sec_hash_size,
    sec_salt_size := r.sec_salt_size }

/-- The part of `crypto_init` after the lazy load (crypto.c:194-213):
allocate, run the backend `init` hook, and go to `out:`. -/
def crypto_init_instance (s : state) (cfg : knet_handle_crypto_cfg) (config_num : Nat)
    (env : crypto_init_env) (current : Option crypto_instance) (model : Nat) :
    Option (Int × state) :=
  if env.malloc = false then crypto_init_fail s ENOMEM
  else
    match s.crypto_modules_cmds[model]? with
    | none => none
    | some row =>
      match row.ops with
      | none => none
      | some ops =>
        let r := ops.init s.knet_h cfg
        let s1 : state :=
          { s with errno := r.errno.getD s.errno, calls := s.calls ++ [call_t.init model] }
        if r.ret ≠ 0 then crypto_init_fail s1 s1.errno
        else
          crypto_init_success s1 config_num current (instance_of_init model r)

/-- The part of `crypto_init` that runs with the write lock held
(crypto.c:168-250). -/
def crypto_init_locked (KNET_CRYPTO_MODEL_ABI : Nat) (s : state)
    (cfg : knet_handle_crypto_cfg) (config_num : Nat) (env : crypto_init_env)
    (current : Option crypto_instance) (model : Nat) (row : crypto_model_t) :
    Option (Int × state) :=
  if row.loaded = 0 then
    let s1 : state :=
      { s with crypto_modules_cmds :=
                 s.crypto_modules_cmds.set model { row with ops := env.load_module },
               errno := env.load_module_errno.getD s.errno,
               calls := s.calls ++ [call_t.load_module row.model_name] }
    match env.load_module with
    | none => crypto_init_fail s1 s1.errno
    | some ops =>
      if ops.abi_ver ≠ KNET_CRYPTO_MODEL_ABI then crypto_init_fail s1 EINVAL
      else
        crypto_init_instance
          { s1 with crypto_modules_cmds :=
                      s.crypto_modules_cmds.set model
                        { row with ops := env.load_module, loaded := 1 } }
          cfg config_num env current model
  else
    crypto_init_instance s cfg config_num env current model

/-- Embedding of `crypto_init`: return value and the state after the call. -/
def crypto_init (KNET_CRYPTO_MODEL_ABI : Nat) (s : state) (cfg : knet_handle_crypto_cfg)
    (config_num : Nat) (env : crypto_init_env) : Option (Int × state) :=
  match s.knet_h.crypto_instance[config_num]? with
  | none => none
  | some current =>
    let model := crypto_get_model s.crypto_modules_cmds cfg.crypto_model
    if model < 0 then some (-1, s)
    else
      match s.crypto_modules_cmds[model.toNat]? with
      | none => none
      | some row =>
        if row.built_in = 0 then some (-1, s)
        else if env.pthread_rwlock_wrlock ≠ 0 then some (-1, s)
        else crypto_init_locked KNET_CRYPTO_MODEL_ABI s cfg config_num env current
          model.toNat row

/-! ## crypto_fini (crypto.c:252-298) -/

/-- The handle writes of `crypto_fini_config` on an occupied slot
(crypto.c:261-267). -/
def crypto_fini_clear (h : knet_handle) (config_num : Nat) : knet_handle :=
  let h1 : knet_handle := { h with crypto_instance := h.crypto_instance.set config_num none }
  if h1.crypto_in_use_config = config_num then
    { h1 with crypto_in_use_config := 0,
              sec_block_size := 0,
              sec_hash_size := 0,
              sec_salt_size := 0 }
  else h1

/-- Embedding of `crypto_fini_config`. -/
def crypto_fini_config (s : state) (config_num : Nat) : Option state :=
  match s.knet_h.crypto_instance[config_num]? with
  | none => none
  | some none => some s
  | some (some inst) =>
    match instance_ops s.crypto_modules_cmds inst with
    | none => none
    | some ops =>
      let s1 : state :=
        match ops.fini with
        | none => s
        | some fini =>
          { s with errno := (fini s.knet_h inst).getD s.errno,
                   calls := s.calls ++ [call_t.fini inst.model inst] }
      some { s1 with knet_h := crypto_fini_clear s1.knet_h config_num }

/-- The loop of `crypto_fini` for `config_num == 0` (crypto.c:285-287) over
the slot ids in the list. -/
def crypto_fini_all : List Nat → state → Option state
  | [], s => some s
  | i :: rest, s =>
    match crypto_fini_config s i with
    | none => none
    | some s1 => crypto_fini_all rest s1

/-- Embedding of `crypto_fini`; `wrlock` is the return value of
`pthread_rwlock_wrlock`. -/
def crypto_fini (KNET_MAX_CRYPTO_INSTANCES : Nat) (s : state) (config_num : Nat)
    (wrlock : Nat) : Option state :=
  if wrlock ≠ 0 then some s
  else if config_num = 0 then
    match crypto_fini_all (List.range' 1 KNET_MAX_CRYPTO_INSTANCES) s with
    | none => none
    | some s1 => some { s1 with knet_h := { s1.knet_h with crypto_in_use_config := 0 } }
  else
    match crypto_fini_config s config_num with
    | none => none
    | some s1 =>
      if s1.knet_h.crypto_in_use_config = config_num then
        some { s1 with knet_h := { s1.knet_h with crypto_in_use_config := 0 } }
      else some s1

/-! ## knet_get_crypto_list (crypto.c:300-325) -/

/-- Modelled from the spec: `struct knet_crypto_info` is declared outside
`crypto.c`; the list enumerates names, and `name` is the only field
`knet_get_crypto_list` writes. -/
structure knet_crypto_info where
  name : String
deriving DecidableEq

/-- The `while` loop of `knet_get_crypto_list` over the remaining rows:
`crypto_list` is the caller's array (`none` is the NULL pointer), `outidx`
the number of entries produced so far.  Writing past the end of the array has
no defined behaviour. -/
def knet_get_crypto_list_loop :
    List crypto_model_t → Option (List knet_crypto_info) → Nat →
      Option (Option (List knet_crypto_info) × Nat)
  | [], crypto_list, outidx => some (crypto_list, outidx)
  | row :: rest, crypto_list, outidx =>
    if row.built_in ≠ 0 then
      match crypto_list with
      | none => knet_get_crypto_list_loop rest none (outidx + 1)
      | some buf =>
        if outidx < buf.length then
          knet_get_crypto_list_loop rest
            (some (buf.set outidx { name := row.model_name })) (outidx + 1)
        else none
    else knet_get_crypto_list_loop rest crypto_list outidx

/-- Embedding of `knet_get_crypto_list`: `crypto_list_entries` is `none` for
the NULL pointer and otherwise the value the pointer refers to.  The result
is the return value, the caller's array, the value behind
`crypto_list_entries`, and the state after the call. -/
def knet_get_crypto_list (s : state) (crypto_list : Option (List knet_crypto_info))
    (crypto_list_entries : Option Nat) :
    Option (Int × Option (List knet_crypto_info) × Option Nat × state) :=
  match crypto_list_entries with
  | none => some (-1, crypto_list, none, { s with errno := EINVAL })
  | some _ =>
    match knet_get_crypto_list_loop s.crypto_modules_cmds crypto_list 0 with
    | none => none
    | some (buf, outidx) => some (0, buf, some outidx, { s with errno := 0 })

/-- The rows of the table whose `built_in` flag is non-zero, in table
order. -/
def built_in_rows (tbl : List crypto_model_t) : List crypto_model_t :=
  tbl.filter (fun row => decide (row.built_in ≠ 0))

/-! ## Link ACL (links_acl.h)

The header declares the two enumerations and the prototypes of `check_add`,
`check_rm`, `check_rmall` and `check_validate`; the functions themselves are
in a source file that is not part of this development. -/

/-- Mirror of `check_type_t` (links_acl.h:14-18). -/
inductive check_type_t where
  | CHECK_TYPE_ADDRESS
  | CHECK_TYPE_MASK
  | CHECK_TYPE_RANGE
deriving DecidableEq

/-- Mirror of `check_acceptreject_t` (links_acl.h:20-23). -/
inductive check_acceptreject_t where
  | CHECK_ACCEPT
  | CHECK_REJECT
deriving DecidableEq

/-- Modelled from the spec: the part of `struct sockaddr_storage` the ACL
looks at, the address family and the address bytes of that family. -/
structure sockaddr_storage where
  ss_family : Nat
  addr : List Nat
deriving DecidableEq

/-- Modelled from the spec: an ACL entry, with its match kind, its two
addresses (the second is the mask of a MASK entry and the upper end of a
RANGE entry) and its action. -/
structure acl_entry where
  check_type : check_type_t
  ip1 : sockaddr_storage
  ip2 : sockaddr_storage
  acceptreject : check_acceptreject_t
deriving DecidableEq

/-- Modelled from the spec: the lexicographic order on address bytes used by
RANGE entries. -/
def bytes_le : List Nat → List Nat → Bool
  | [], _ => true
  | _ :: _, [] => false
  | a :: as, b :: bs => decide (a < b) || (decide (a = b) && bytes_le as bs)

/-- Modelled from the spec: the match predicate of an entry.  ADDRESS:
family and address bytes equal.  MASK: `(ip & ip2) == (ip1 & ip2)` bytewise.
RANGE: `ip` lies in the closed interval `[ip1, ip2]` of the lexicographic
order.  Addresses of a family other than that of the entry never match. -/
def acl_match (e : acl_entry) (checkip : sockaddr_storage) : Bool :=
  decide (checkip.ss_family = e.ip1.ss_family) &&
  match e.check_type with
  | check_type_t.CHECK_TYPE_ADDRESS => decide (checkip.addr = e.ip1.addr)
  | check_type_t.CHECK_TYPE_MASK =>
    decide (List.zipWith (fun a m => a &&& m) checkip.addr e.ip2.addr =
      List.zipWith (fun a m => a &&& m) e.ip1.addr e.ip2.addr)
  | check_type_t.CHECK_TYPE_RANGE =>
    bytes_le e.ip1.addr checkip.addr && bytes_le checkip.addr e.ip2.addr

/-- Modelled from the spec: the ACL store of a handle, one ordered list of
entries per (socket, transport). -/
structure acl_store where
  lists : Int → Nat → List acl_entry

/-- Modelled from the spec: the store of a new handle, with no entries. -/
def acl_empty : acl_store := { lists := fun _ _ => [] }

/-- Modelled from the spec: `check_add` appends the entry to the list of
(sock, transport). -/
def check_add (st : acl_store) (sock : Int) (transport : Nat) (ip1 ip2 : sockaddr_storage)
    (type : check_type_t) (acceptreject : check_acceptreject_t) : acl_store :=
  { lists := fun s t =>
      if s = sock ∧ t = transport then
        st.lists s t ++
          [{ check_type := type, ip1 := ip1, ip2 := ip2, acceptreject := acceptreject }]
      else st.lists s t }

/-- Modelled from the spec: `check_rm` removes the first entry of the list
of (sock, transport) that is equal in all components. -/
def check_rm (st : acl_store) (sock : Int) (transport : Nat) (ip1 ip2 : sockaddr_storage)
    (type : check_type_t) (acceptreject : check_acceptreject_t) : acl_store :=
  { lists := fun s t =>
      if s = sock ∧ t = transport then
        (st.lists s t).erase
          { check_type := type, ip1 := ip1, ip2 := ip2, acceptreject := acceptreject }
      else st.lists s t }

/-- Modelled from the spec: `check_rmall` drops the whole list of
(sock, transport). -/
def check_rmall (st : acl_store) (sock : Int) (transport : Nat) : acl_store :=
  { lists := fun s t => if s = sock ∧ t = transport then [] else st.lists s t }

/-- Modelled from the spec: the scan of `check_validate` over a list, which
stops at the first matching entry and rejects when it reaches the end. -/
def check_validate_scan : List acl_entry → sockaddr_storage → check_acceptreject_t
  | [], _ => check_acceptreject_t.CHECK_REJECT
  | e :: rest, checkip =>
    if acl_match e checkip then e.acceptreject else check_validate_scan rest checkip

/-- Modelled from the spec: `check_validate` scans the list of
(sock, transport) in order. -/
def check_validate (st : acl_store) (sock : Int) (transport : Nat)
    (checkip : sockaddr_storage) : check_acceptreject_t :=
  check_validate_scan (st.lists sock transport) checkip

/-- The store after `check_add` of each of the given entries, in order, for
(sock, transport). -/
def check_add_all (st : acl_store) (sock : Int) (transport : Nat) :
    List acl_entry → acl_store
  | [] => st
  | e :: rest =>
    check_add_all (check_add st sock transport e.ip1 e.ip2 e.check_type e.acceptreject)
      sock transport rest

/-- IPv4 address `a.b.c.d` (family `AF_INET`, 2). -/
def ipv4 (a b c d : Nat) : sockaddr_storage := { ss_family := 2, addr := [a, b, c, d] }

/-! ## Local test addresses (tests/test-common.c:433-454) -/

/-- Value of `AF_INET` in sys/socket.h (Linux). -/
def AF_INET : Nat := 2

/-- Value of `AF_INET6` in sys/socket.h (Linux). -/
def AF_INET6 : Nat := 10

/-- Embedding of `_make_local_sockaddr` up to its call of `knet_strtoaddr`:
the address text and the port that are handed over.  `pid` is the value
`getpid()` returned; `port` is a `uint32_t`, so the arithmetic is taken
modulo 2^32. -/
def _make_local_sockaddr (pid : Nat) (offset : Nat) (family : Nat) : String × Nat :=
  let port0 : Nat := (pid % 2 ^ 32 + offset % 2 ^ 16) % 2 ^ 32
  let port1 : Nat := if port0 < 1024 then (port0 + 1024) % 2 ^ 32 else port0
  let port2 : Nat := if port1 > 65536 then port1 &&& 0xFFFF else port1
  if family = AF_INET6 then ("::1", port2) else ("127.0.0.1", port2)

/-- Embedding of `make_local_sockaddr`. -/
def make_local_sockaddr (pid : Nat) (offset : Nat) : String × Nat :=
  _make_local_sockaddr pid offset AF_INET

/-! ## Calls made, by kind -/

/-- The call is an invocation of a backend `fini` hook. -/
def is_fini_call : call_t → Bool
  | call_t.fini _ _ => true
  | _ => false

/-- The call is an invocation of the module loader. -/
def is_load_module_call : call_t → Bool
  | call_t.load_module _ => true
  | _ => false

/-- The attempts actually made when the attempts of a list are tried in
order and trying stops after the first success. -/
def attempts_made {α : Type} (ok : α → Bool) : List α → List α
  | [] => []
  | a :: rest => if ok a then [a] else a :: attempts_made ok rest

/-- A sequence of `crypto_init` calls, each with its configuration, slot id
and results of the external calls. -/
def crypto_init_seq (ABI : Nat) :
    state → List (knet_handle_crypto_cfg × Nat × crypto_init_env) → Option state
  | s, [] => some s
  | s, (cfg, config_num, env) :: rest =>
    match crypto_init ABI s cfg config_num env with
    | none => none
    | some (_, s1) => crypto_init_seq ABI s1 rest

/-! ## Reachable states -/

/-- The state before any call: an empty handle, the backend table as
compiled, nothing recorded; `errno` is whatever the process has. -/
def initial_state (KNET_MAX_CRYPTO_INSTANCES WITH_CRYPTO_NSS WITH_CRYPTO_OPENSSL errno : Nat) :
    state :=
  { knet_h := empty_handle KNET_MAX_CRYPTO_INSTANCES,
    crypto_modules_cmds := crypto_modules_cmds WITH_CRYPTO_NSS WITH_CRYPTO_OPENSSL,
    errno := errno,
    calls := [] }

/-- States reachable from the initial state by `crypto_init` and
`crypto_use_config` on slot ids `1..KNET_MAX_CRYPTO_INSTANCES` and by
`crypto_fini` on slot ids `0..KNET_MAX_CRYPTO_INSTANCES`, with arbitrary
configurations and arbitrary results of the external calls. -/
inductive reachable (MAX ABI NSS OPENSSL : Nat) : state → Prop where
  | initial (errno : Nat) : reachable MAX ABI NSS OPENSSL (initial_state MAX NSS OPENSSL errno)
  | init {s s' : state} {r : Int} (cfg : knet_handle_crypto_cfg) (k : Nat)
      (env : crypto_init_env) :
      reachable MAX ABI NSS OPENSSL s → 1 ≤ k → k ≤ MAX →
      crypto_init ABI s cfg k env = some (r, s') → reachable MAX ABI NSS OPENSSL s'
  | use_config {s s' : state} {r : Int} (k : Nat) :
      reachable MAX ABI NSS OPENSSL s → 1 ≤ k → k ≤ MAX →
      crypto_use_config s k = some (r, s') → reachable MAX ABI NSS OPENSSL s'
  | fini {s s' : state} (k wrlock : Nat) :
      reachable MAX ABI NSS OPENSSL s → k ≤ MAX →
      crypto_fini MAX s k wrlock = some s' → reachable MAX ABI NSS OPENSSL s'

/-- Backend tables reachable from the table as compiled by `crypto_init`
calls, on any handle and slot, with any configuration and any results of the
external calls (in particular any loader result and module ABI version). -/
inductive table_reachable (ABI NSS OPENSSL : Nat) : List crypto_model_t → Prop where
  | initial : table_reachable ABI NSS OPENSSL (crypto_modules_cmds NSS OPENSSL)
  | init {s s' : state} {r : Int} (cfg : knet_handle_crypto_cfg) (k : Nat)
      (env : crypto_init_env) :
      table_reachable ABI NSS OPENSSL s.crypto_modules_cmds →
      crypto_init ABI s cfg k env = some (r, s') →
      table_reachable ABI NSS OPENSSL s'.crypto_modules_cmds

/-! ## Invariants of the reachable states -/

/-- The handle invariant: the array has `MAX + 1` entries, entry 0 is empty,
and the handle-wide sizes are zero when nothing is in use and otherwise
those of the instance in the slot in use, which is occupied. -/
def handle_inv (MAX : Nat) (h : knet_handle) : Prop :=
  h.crypto_instance.length = MAX + 1 ∧
  h.crypto_instance[0]? = some none ∧
  (h.crypto_in_use_config = 0 →
    h.sec_block_size = 0 ∧ h.sec_hash_size = 0 ∧ h.sec_salt_size = 0) ∧
  (h.crypto_in_use_config ≠ 0 →
    ∃ inst, h.crypto_instance[h.crypto_in_use_config]? = some (some inst) ∧
      h.sec_block_size = inst.sec_block_size ∧
      h.sec_hash_size = inst.sec_hash_size ∧
      h.sec_salt_size = inst.sec_salt_size)

/-- The backend table invariant: a row marked loaded has an operation
table. -/
def table_inv (tbl : List crypto_model_t) : Prop :=
  ∀ (i : Nat) (row : crypto_model_t), tbl[i]? = some row → row.loaded ≠ 0 →
    ∃ ops, row.ops = some ops

/-- Every installed instance belongs to a row of the table that is marked
loaded. -/
def instances_inv (h : knet_handle) (tbl : List crypto_model_t) : Prop :=
  ∀ (i : Nat) (inst : crypto_instance), h.crypto_instance[i]? = some (some inst) →
    ∃ row, tbl[inst.model]? = some row ∧ row.loaded ≠ 0

/-- The three invariants together. -/
def state_inv (MAX : Nat) (s : state) : Prop :=
  handle_inv MAX s.knet_h ∧ table_inv s.crypto_modules_cmds ∧
    instances_inv s.knet_h s.crypto_modules_cmds

/-! ## The order of decrypt attempts, in the words of the specification -/

/-- Slot `i` holds an instance. -/
def occupied (h : knet_handle) (i : Nat) : Bool :=
  match h.crypto_instance[i]? with
  | some (some _) => true
  | _ => false

/-- Slot `i` is occupied and is not the slot in use. -/
def is_alternative (h : knet_handle) (i : Nat) : Bool :=
  decide (i ≠ h.crypto_in_use_config) && occupied h i

/-- The occupied slots in `1..MAX` other than the slot in use, ascending. -/
def alternative_slots (MAX : Nat) (h : knet_handle) : List Nat :=
  (List.range' 1 MAX).filter (is_alternative h)

/-- The number M of installed instances in `1..MAX`. -/
def installed_count (MAX : Nat) (h : knet_handle) : Nat :=
  ((List.range' 1 MAX).filter (occupied h)).length

/-- The log level of the first attempt: DEBUG if M > 1, else ERR. -/
def first_log_level (MAX : Nat) (h : knet_handle) : log_level_t :=
  if installed_count MAX h > 1 then log_level_t.KNET_LOG_DEBUG else log_level_t.KNET_LOG_ERR

/-- The log level at which slot `i` is tried: the slot in use at the level of
the first attempt, every other slot at ERR. -/
def attempt_level (MAX : Nat) (h : knet_handle) (i : Nat) : log_level_t :=
  if i = h.crypto_in_use_config then first_log_level MAX h else log_level_t.KNET_LOG_ERR

/-- The attempts in order: the slot in use first, then the other occupied
slots in ascending slot id. -/
def decrypt_attempts (MAX : Nat) (h : knet_handle) : List (Nat × log_level_t) :=
  (h.crypto_in_use_config, first_log_level MAX h) ::
    (alternative_slots MAX h).map (fun i => (i, log_level_t.KNET_LOG_ERR))

/-- The backend `decrypt` of the instance in slot `a.1`, called at log level
`a.2`; `none` when the slot holds no instance or its backend has no
operation table. -/
def backend_decrypt (h : knet_handle) (tbl : List crypto_model_t) (buf_in : List Nat)
    (a : Nat × log_level_t) : Option crypt_result :=
  match h.crypto_instance[a.1]? with
  | some (some inst) =>
    match instance_ops tbl inst with
    | some ops => some (ops.decrypt h inst buf_in a.2)
    | none => none
  | _ => none

/-- The backend `decrypt` of attempt `a` succeeds on `buf_in`. -/
def accepted (h : knet_handle) (tbl : List crypto_model_t) (buf_in : List Nat)
    (a : Nat × log_level_t) : Bool :=
  match backend_decrypt h tbl buf_in a with
  | some res => decide (res.ret = 0)
  | none => false

/-- Return value and output after trying the given slots in order at ERR,
stopping at the first success; `acc` is the outcome of the attempt before. -/
def try_alternatives (h : knet_handle) (tbl : List crypto_model_t) (buf_in : List Nat) :
    List Nat → Int × List Nat → Int × List Nat
  | [], acc => acc
  | j :: rest, acc =>
    match backend_decrypt h tbl buf_in (j, log_level_t.KNET_LOG_ERR) with
    | none => try_alternatives h tbl buf_in rest acc
    | some res =>
      if res.ret = 0 then (res.ret, res.buf_out)
      else try_alternatives h tbl buf_in rest (res.ret, res.buf_out)

/-! ## A concrete backend and concrete states

A small backend on which the theorems below are instantiated: `init` keeps
the first key byte as private state, `crypt` puts that byte in front of the
message, and `decrypt` accepts exactly the packets that start with it. -/

/-- Result of a rejected packet. -/
def tag_reject : crypt_result := { ret := -1, buf_out := [], errno := some EINVAL }

/-- The operation table of the concrete backend. -/
def tag_ops : crypto_ops_t :=
  { abi_ver := 1,
    init := fun _ cfg =>
      match cfg.private_key with
      | [] =>
        { ret := -1, errno := some EINVAL, model_instance := 0,
          sec_block_size := 0, sec_hash_size := 0, sec_salt_size := 0 }
      | key :: _ =>
        { ret := 0, errno := none, model_instance := key,
          sec_block_size := 16,
          sec_hash_size := if cfg.crypto_hash_type = "sha1" then 20 else 32,
          sec_salt_size := 16 },
    fini := some (fun _ _ => none),
    crypt := fun _ inst buf_in =>
      { ret := 0, buf_out := inst.model_instance :: buf_in, errno := none },
    cryptv := fun _ inst iov_in =>
      { ret := 0, buf_out := inst.model_instance :: iov_in.flatten, errno := none },
    decrypt := fun _ inst buf_in _ =>
      match buf_in with
      | [] => tag_reject
      | tag :: rest =>
        if tag = inst.model_instance then { ret := 0, buf_out := rest, errno := none }
        else tag_reject }

/-- A configuration for the concrete backend. -/
def tag_cfg (model hash : String) (key : List Nat) : knet_handle_crypto_cfg :=
  { crypto_model := model,
    crypto_cipher_type := "aes256",
    crypto_hash_type := hash,
    private_key := key,
    private_key_len := key.length }

/-- External calls that all succeed; the loader returns the concrete backend. -/
def env_ok : crypto_init_env :=
  { pthread_rwlock_wrlock := 0,
    load_module := some tag_ops,
    load_module_errno := none,
    malloc := true }

/-- The instance the concrete backend builds for key byte `key`. -/
def tag_instance (key hash_size : Nat) : crypto_instance :=
  { model := 0, model_instance := key,
    sec_block_size := 16, sec_hash_size := hash_size, sec_salt_size := 16 }

/-- The backend table once "nss" has been loaded. -/
def table_loaded : List crypto_model_t :=
  [ { model_name := "nss", built_in := 1, loaded := 1, ops := some tag_ops },
    { model_name := "openssl", built_in := 1, loaded := 0, ops := none } ]

/-- The backend table after the loader returned a module whose ABI version
is not the expected one: the operation table is in the row, the row is not
marked loaded. -/
def table_abi_mismatch : List crypto_model_t :=
  [ { model_name := "nss", built_in := 1, loaded := 0, ops := some tag_ops },
    { model_name := "openssl", built_in := 1, loaded := 0, ops := none } ]

/-- External calls in which the loader fails and stores `ENOENT` (2). -/
def env_load_fails : crypto_init_env :=
  { pthread_rwlock_wrlock := 0,
    load_module := none,
    load_module_errno := some 2,
    malloc := true }

/-- Two slots, nothing installed. -/
def state_initial : state := initial_state 2 1 1 0

/-- Slot 1 installed (key 7, sha1) and in use. -/
def state_one : state :=
  { knet_h :=
      { crypto_instance := [none, some (tag_instance 7 20), none],
        crypto_in_use_config := 1,
        sec_block_size := 16, sec_hash_size := 20, sec_salt_size := 16 },
    crypto_modules_cmds := table_loaded,
    errno := 0,
    calls := [call_t.load_module "nss", call_t.init 0] }

/-- Slots 1 (key 7, sha1) and 2 (key 9, sha256) installed, slot 1 in use. -/
def state_two : state :=
  { knet_h :=
      { crypto_instance := [none, some (tag_instance 7 20), some (tag_instance 9 32)],
        crypto_in_use_config := 1,
        sec_block_size := 16, sec_hash_size := 20, sec_salt_size := 16 },
    crypto_modules_cmds := table_loaded,
    errno := 0,
    calls := [call_t.load_module "nss", call_t.init 0, call_t.init 0] }

/-- The state after `crypto_fini(1)` on `state_two`: slot 2 is still
installed and nothing is in use. -/
def state_two_fini_one : state :=
  { knet_h :=
      { crypto_instance := [none, none, some (tag_instance 9 32)],
        crypto_in_use_config := 0,
        sec_block_size := 0, sec_hash_size := 0, sec_salt_size := 0 },
    crypto_modules_cmds := table_loaded,
    errno := 0,
    calls := [call_t.load_module "nss", call_t.init 0, call_t.init 0,
              call_t.fini 0 (tag_instance 7 20)] }

/-! # Properties -/

/-! ## crypto_init: effect of a call -/

/-- The succeeding half of `out:` returns 0, publishes the new instance,
clears `errno` and leaves the backend table alone. -/
lemma crypto_init_success_spec {s s' : state} {config_num : Nat}
    {current : Option crypto_instance} {new : crypto_instance} {r : Int}
    (hcall : crypto_init_success s config_num current new = some (r, s')) :
    r = 0 ∧ s'.knet_h = crypto_init_publish s.knet_h config_num new ∧
      s'.crypto_modules_cmds = s.crypto_modules_cmds ∧ s'.errno = 0 := by
  unfold crypto_init_success at hcall
  split at hcall
  · simp only [Option.some.injEq, Prod.mk.injEq] at hcall
    obtain ⟨rfl, rfl⟩ := hcall
    exact ⟨rfl, rfl, rfl, rfl⟩
  · split at hcall
    · exact absurd hcall (by simp)
    · split at hcall <;>
      · simp only [Option.some.injEq, Prod.mk.injEq] at hcall
        obtain ⟨rfl, rfl⟩ := hcall
        exact ⟨rfl, rfl, rfl, rfl⟩

/-- What a returning `crypto_init_instance` did: either it failed with -1
and the handle is untouched, or the backend `init` of row `model` returned 0
and the instance it filled in was published. -/
lemma crypto_init_instance_spec {s s' : state} {cfg : knet_handle_crypto_cfg}
    {config_num model : Nat} {env : crypto_init_env} {current : Option crypto_instance}
    {r : Int} (hcall : crypto_init_instance s cfg config_num env current model = some (r, s')) :
    s'.crypto_modules_cmds = s.crypto_modules_cmds ∧
    ((r = -1 ∧ s'.knet_h = s.knet_h) ∨
     (r = 0 ∧ s'.errno = 0 ∧ ∃ row ops, s.crypto_modules_cmds[model]? = some row ∧
        row.ops = some ops ∧ (ops.init s.knet_h cfg).ret = 0 ∧
        s'.knet_h = crypto_init_publish s.knet_h config_num
          (instance_of_init model (ops.init s.knet_h cfg)))) := by
  unfold crypto_init_instance at hcall
  split at hcall
  · simp only [crypto_init_fail, Option.some.injEq, Prod.mk.injEq] at hcall
    obtain ⟨rfl, rfl⟩ := hcall
    exact ⟨rfl, Or.inl ⟨rfl, rfl⟩⟩
  · split at hcall
    · exact absurd hcall (by simp)
    · next row hrow =>
      split at hcall
      · exact absurd hcall (by simp)
      · next ops hops =>
        simp only at hcall
        split at hcall
        · simp only [crypto_init_fail, Option.some.injEq, Prod.mk.injEq] at hcall
          obtain ⟨rfl, rfl⟩ := hcall
          exact ⟨rfl, Or.inl ⟨rfl, rfl⟩⟩
        · next hret =>
          obtain ⟨hr, hh, ht, he⟩ := crypto_init_success_spec hcall
          refine ⟨ht, Or.inr ⟨hr, he, row, ops, hrow, hops, ?_, hh⟩⟩
          exact not_not.mp hret

/-- What a returning `crypto_init_locked` did. -/
lemma crypto_init_locked_spec {ABI : Nat} {s s' : state} {cfg : knet_handle_crypto_cfg}
    {config_num model : Nat} {env : crypto_init_env} {current : Option crypto_instance}
    {row : crypto_model_t} {r : Int}
    (hrow : s.crypto_modules_cmds[model]? = some row)
    (hcall : crypto_init_locked ABI s cfg config_num env current model row = some (r, s')) :
    (r = -1 ∧ s'.knet_h = s.knet_h) ∨
    (r = 0 ∧ s'.errno = 0 ∧ ∃ row' ops, s'.crypto_modules_cmds[model]? = some row' ∧
        row'.loaded ≠ 0 ∧ row'.ops = some ops ∧ (ops.init s.knet_h cfg).ret = 0 ∧
        s'.knet_h = crypto_init_publish s.knet_h config_num
          (instance_of_init model (ops.init s.knet_h cfg))) := by
  unfold crypto_init_locked at hcall
  split at hcall
  · simp only at hcall
    split at hcall
    · simp only [crypto_init_fail, Option.some.injEq, Prod.mk.injEq] at hcall
      obtain ⟨rfl, rfl⟩ := hcall
      exact Or.inl ⟨rfl, rfl⟩
    · next ops hload =>
      split at hcall
      · simp only [crypto_init_fail, Option.some.injEq, Prod.mk.injEq] at hcall
        obtain ⟨rfl, rfl⟩ := hcall
        exact Or.inl ⟨rfl, rfl⟩
      · obtain ⟨ht, hres⟩ := crypto_init_instance_spec hcall
        rcases hres with ⟨hr, hh⟩ | ⟨hr, he, row', ops', hrow', hops', hret, hh⟩
        · exact Or.inl ⟨hr, hh⟩
        · refine Or.inr ⟨hr, he, row', ops', ?_, ?_, hops', hret, hh⟩
          · rw [ht]; exact hrow'
          · have hlt : model < s.crypto_modules_cmds.length := by
              rcases List.getElem?_eq_some_iff.mp hrow with ⟨hlt, _⟩
              exact hlt
            simp only [List.getElem?_set_self hlt, Option.some.injEq] at hrow'
            rw [← hrow']
            simp
  · next hloaded =>
    obtain ⟨ht, hres⟩ := crypto_init_instance_spec hcall
    rcases hres with ⟨hr, hh⟩ | ⟨hr, he, row', ops', hrow', hops', hret, hh⟩
    · exact Or.inl ⟨hr, hh⟩
    · refine Or.inr ⟨hr, he, row', ops', ?_, ?_, hops', hret, hh⟩
      · rw [ht]; exact hrow'
      · rw [hrow] at hrow'
        simp only [Option.some.injEq] at hrow'
        rw [← hrow']
        exact hloaded

/-- What a returning `crypto_init` did: either it returned -1 and the handle
is untouched, or it returned 0, cleared `errno` and published the instance
filled in by the `init` hook of the backend named in the configuration. -/
lemma crypto_init_spec {ABI : Nat} {s s' : state} {cfg : knet_handle_crypto_cfg}
    {config_num : Nat} {env : crypto_init_env} {r : Int}
    (hcall : crypto_init ABI s cfg config_num env = some (r, s')) :
    (r = -1 ∧ s'.knet_h = s.knet_h) ∨
    (r = 0 ∧ s'.errno = 0 ∧ ∃ (model : Nat) (row' : crypto_model_t) (ops : crypto_ops_t),
        crypto_get_model s.crypto_modules_cmds cfg.crypto_model = (model : Int) ∧
        s'.crypto_modules_cmds[model]? = some row' ∧
        row'.loaded ≠ 0 ∧ row'.ops = some ops ∧ (ops.init s.knet_h cfg).ret = 0 ∧
        s'.knet_h = crypto_init_publish s.knet_h config_num
          (instance_of_init model (ops.init s.knet_h cfg))) := by
  unfold crypto_init at hcall
  split at hcall
  · exact absurd hcall (by simp)
  · simp only at hcall
    split at hcall
    · simp only [Option.some.injEq, Prod.mk.injEq] at hcall
      obtain ⟨rfl, rfl⟩ := hcall
      exact Or.inl ⟨rfl, rfl⟩
    · next hmodel =>
      split at hcall
      · exact absurd hcall (by simp)
      · next row hrow =>
        split at hcall
        · simp only [Option.some.injEq, Prod.mk.injEq] at hcall
          obtain ⟨rfl, rfl⟩ := hcall
          exact Or.inl ⟨rfl, rfl⟩
        · split at hcall
          · simp only [Option.some.injEq, Prod.mk.injEq] at hcall
            obtain ⟨rfl, rfl⟩ := hcall
            exact Or.inl ⟨rfl, rfl⟩
          · rcases crypto_init_locked_spec hrow hcall with hfail | ⟨hr, he, row', ops, h1, h2, h3, h4, h5⟩
            · exact Or.inl hfail
            · refine Or.inr ⟨hr, he, _, row', ops, ?_, h1, h2, h3, h4, h5⟩
              exact (Int.toNat_of_nonneg (not_lt.mp hmodel)).symm

/-- A returning `crypto_init` was given a slot id inside the array. -/
lemma crypto_init_in_range {ABI : Nat} {s : state} {cfg : knet_handle_crypto_cfg}
    {config_num : Nat} {env : crypto_init_env} {res : Int × state}
    (hcall : crypto_init ABI s cfg config_num env = some res) :
    config_num < s.knet_h.crypto_instance.length := by
  by_contra hlt
  have hnone : s.knet_h.crypto_instance[config_num]? = none :=
    List.getElem?_eq_none (not_lt.mp hlt)
  simp [crypto_init, hnone] at hcall

/-- The slot table after publishing: slot `config_num` holds the new
instance and every other entry is the old one. -/
lemma crypto_init_publish_slots (h : knet_handle) (config_num : Nat) (new : crypto_instance) :
    (crypto_init_publish h config_num new).crypto_instance =
      h.crypto_instance.set config_num (some new) := by
  unfold crypto_init_publish
  simp only
  split <;> split <;> rfl

/-- The slot in use after publishing. -/
lemma crypto_init_publish_in_use (h : knet_handle) (config_num : Nat) (new : crypto_instance) :
    (crypto_init_publish h config_num new).crypto_in_use_config =
      if h.crypto_in_use_config = 0 then config_num else h.crypto_in_use_config := by
  unfold crypto_init_publish
  simp only
  by_cases h0 : h.crypto_in_use_config = 0
  · simp [h0]
  · by_cases hk : h.crypto_in_use_config = config_num <;> simp [h0, hk]

/-- The handle-wide sizes after publishing. -/
lemma crypto_init_publish_sizes (h : knet_handle) (config_num : Nat) (new : crypto_instance) :
    ((h.crypto_in_use_config = 0 ∨ h.crypto_in_use_config = config_num) →
      (crypto_init_publish h config_num new).sec_block_size = new.sec_block_size ∧
      (crypto_init_publish h config_num new).sec_hash_size = new.sec_hash_size ∧
      (crypto_init_publish h config_num new).sec_salt_size = new.sec_salt_size) ∧
    (¬ (h.crypto_in_use_config = 0 ∨ h.crypto_in_use_config = config_num) →
      (crypto_init_publish h config_num new).sec_block_size = h.sec_block_size ∧
      (crypto_init_publish h config_num new).sec_hash_size = h.sec_hash_size ∧
      (crypto_init_publish h config_num new).sec_salt_size = h.sec_salt_size) := by
  unfold crypto_init_publish
  simp only
  constructor
  · intro hc
    rw [if_pos hc]
    split <;> exact ⟨rfl, rfl, rfl⟩
  · intro hc
    rw [if_neg hc]
    split <;> exact ⟨rfl, rfl, rfl⟩

/-- C3: when `crypto_init` returns a non-zero value, that value is -1 and the
handle (slot table, slot in use and the three handle-wide sizes) is the one
from before the call. -/
theorem crypto_init_failure_keeps_handle (ABI : Nat) (s s' : state)
    (cfg : knet_handle_crypto_cfg) (config_num : Nat) (env : crypto_init_env) (r : Int)
    (hcall : crypto_init ABI s cfg config_num env = some (r, s')) (hfail : r ≠ 0) :
    r = -1 ∧ s'.knet_h.crypto_instance = s.knet_h.crypto_instance ∧
      s'.knet_h.crypto_in_use_config = s.knet_h.crypto_in_use_config ∧
      s'.knet_h.sec_block_size = s.knet_h.sec_block_size ∧
      s'.knet_h.sec_hash_size = s.knet_h.sec_hash_size ∧
      s'.knet_h.sec_salt_size = s.knet_h.sec_salt_size := by
  rcases crypto_init_spec hcall with ⟨hr, hh⟩ | ⟨hr, _⟩
  · rw [hh]
    exact ⟨hr, rfl, rfl, rfl, rfl, rfl⟩
  · exact absurd hr hfail

/-- Witness for C3: the backend `init` rejects an empty key while slot 1 of
`state_one` is occupied and in use; the handle is untouched. -/
theorem crypto_init_failure_keeps_handle_witness :
    crypto_init 1 state_one (tag_cfg "nss" "sha256" []) 1 env_ok =
      some (-1, { state_one with errno := EINVAL,
                                 calls := state_one.calls ++ [call_t.init 0] }) ∧
    (-1 : Int) ≠ 0 ∧
    ((-1 : Int) = -1 ∧
      state_one.knet_h.crypto_instance = state_one.knet_h.crypto_instance ∧
      state_one.knet_h.crypto_in_use_config = state_one.knet_h.crypto_in_use_config ∧
      state_one.knet_h.sec_block_size = state_one.knet_h.sec_block_size ∧
      state_one.knet_h.sec_hash_size = state_one.knet_h.sec_hash_size ∧
      state_one.knet_h.sec_salt_size = state_one.knet_h.sec_salt_size) :=
  ⟨by rfl, by decide,
    crypto_init_failure_keeps_handle 1 state_one
      { state_one with errno := EINVAL, calls := state_one.calls ++ [call_t.init 0] }
      (tag_cfg "nss" "sha256" []) 1 env_ok (-1) (by rfl) (by decide)⟩

/-- C7: when `crypto_init` returns 0, slot `config_num` holds the instance
filled in by the `init` hook of the backend named in the configuration and
every other slot is unchanged; the slot in use becomes `config_num` if it was
0 and is unchanged otherwise; the handle-wide sizes are those of the new
instance if the slot in use was 0 or `config_num`, and unchanged otherwise. -/
theorem crypto_init_success_effect (ABI : Nat) (s s' : state) (cfg : knet_handle_crypto_cfg)
    (config_num : Nat) (env : crypto_init_env)
    (hcall : crypto_init ABI s cfg config_num env = some (0, s')) :
    ∃ new : crypto_instance,
      (∃ (model : Nat) (row : crypto_model_t) (ops : crypto_ops_t),
        crypto_get_model s.crypto_modules_cmds cfg.crypto_model = (model : Int) ∧
        s'.crypto_modules_cmds[model]? = some row ∧ row.ops = some ops ∧
        (ops.init s.knet_h cfg).ret = 0 ∧
        new = instance_of_init model (ops.init s.knet_h cfg)) ∧
      s'.knet_h.crypto_instance[config_num]? = some (some new) ∧
      (∀ j, j ≠ config_num →
        s'.knet_h.crypto_instance[j]? = s.knet_h.crypto_instance[j]?) ∧
      s'.knet_h.crypto_instance.length = s.knet_h.crypto_instance.length ∧
      (s.knet_h.crypto_in_use_config = 0 → s'.knet_h.crypto_in_use_config = config_num) ∧
      (s.knet_h.crypto_in_use_config ≠ 0 →
        s'.knet_h.crypto_in_use_config = s.knet_h.crypto_in_use_config) ∧
      ((s.knet_h.crypto_in_use_config = 0 ∨ s.knet_h.crypto_in_use_config = config_num) →
        s'.knet_h.sec_block_size = new.sec_block_size ∧
        s'.knet_h.sec_hash_size = new.sec_hash_size ∧
        s'.knet_h.sec_salt_size = new.sec_salt_size) ∧
      (¬ (s.knet_h.crypto_in_use_config = 0 ∨ s.knet_h.crypto_in_use_config = config_num) →
        s'.knet_h.sec_block_size = s.knet_h.sec_block_size ∧
        s'.knet_h.sec_hash_size = s.knet_h.sec_hash_size ∧
        s'.knet_h.sec_salt_size = s.knet_h.sec_salt_size) := by
  have hlt := crypto_init_in_range hcall
  rcases crypto_init_spec hcall with ⟨hr, _⟩ | ⟨_, _, model, row, ops, hm, hrow, _, hops, hret, hh⟩
  · exact absurd hr (by decide)
  · refine ⟨instance_of_init model (ops.init s.knet_h cfg),
      ⟨model, row, ops, hm, hrow, hops, hret, rfl⟩, ?_, ?_, ?_, ?_, ?_, ?_, ?_⟩
    · rw [hh, crypto_init_publish_slots, List.getElem?_set_self hlt]
    · intro j hj
      rw [hh, crypto_init_publish_slots, List.getElem?_set_ne (Ne.symm hj)]
    · rw [hh, crypto_init_publish_slots, List.length_set]
    · intro h0
      rw [hh, crypto_init_publish_in_use, if_pos h0]
    · intro h0
      rw [hh, crypto_init_publish_in_use, if_neg h0]
    · intro hc
      rw [hh]
      exact (crypto_init_publish_sizes s.knet_h config_num _).1 hc
    · intro hc
      rw [hh]
      exact (crypto_init_publish_sizes s.knet_h config_num _).2 hc

/-- Witness for C7: installing key 9 with sha256 into slot 2 of `state_one`,
where slot 1 is in use, gives `state_two`. -/
theorem crypto_init_success_effect_witness :
    crypto_init 1 state_one (tag_cfg "nss" "sha256" [9]) 2 env_ok = some (0, state_two) ∧
    ∃ new : crypto_instance,
      (∃ (model : Nat) (row : crypto_model_t) (ops : crypto_ops_t),
        crypto_get_model state_one.crypto_modules_cmds
          (tag_cfg "nss" "sha256" [9]).crypto_model = (model : Int) ∧
        state_two.crypto_modules_cmds[model]? = some row ∧ row.ops = some ops ∧
        (ops.init state_one.knet_h (tag_cfg "nss" "sha256" [9])).ret = 0 ∧
        new = instance_of_init model (ops.init state_one.knet_h (tag_cfg "nss" "sha256" [9]))) ∧
      state_two.knet_h.crypto_instance[2]? = some (some new) ∧
      (∀ j, j ≠ 2 →
        state_two.knet_h.crypto_instance[j]? = state_one.knet_h.crypto_instance[j]?) ∧
      state_two.knet_h.crypto_instance.length = state_one.knet_h.crypto_instance.length ∧
      (state_one.knet_h.crypto_in_use_config = 0 → state_two.knet_h.crypto_in_use_config = 2) ∧
      (state_one.knet_h.crypto_in_use_config ≠ 0 →
        state_two.knet_h.crypto_in_use_config = state_one.knet_h.crypto_in_use_config) ∧
      ((state_one.knet_h.crypto_in_use_config = 0 ∨
          state_one.knet_h.crypto_in_use_config = 2) →
        state_two.knet_h.sec_block_size = new.sec_block_size ∧
        state_two.knet_h.sec_hash_size = new.sec_hash_size ∧
        state_two.knet_h.sec_salt_size = new.sec_salt_size) ∧
      (¬ (state_one.knet_h.crypto_in_use_config = 0 ∨
          state_one.knet_h.crypto_in_use_config = 2) →
        state_two.knet_h.sec_block_size = state_one.knet_h.sec_block_size ∧
        state_two.knet_h.sec_hash_size = state_one.knet_h.sec_hash_size ∧
        state_two.knet_h.sec_salt_size = state_one.knet_h.sec_salt_size) :=
  ⟨by rfl,
    crypto_init_success_effect 1 state_one state_two (tag_cfg "nss" "sha256" [9]) 2 env_ok
      (by rfl)⟩

/-! ## Handle invariant -/

/-- The empty handle satisfies the handle invariant. -/
lemma handle_inv_empty (MAX : Nat) : handle_inv MAX (empty_handle MAX) := by
  refine ⟨by simp [empty_handle], by simp [empty_handle], ?_, ?_⟩
  · intro _
    exact ⟨rfl, rfl, rfl⟩
  · intro h0
    exact absurd rfl h0

/-- Publishing into a slot `1..MAX` keeps the handle invariant. -/
lemma handle_inv_publish {MAX : Nat} {h : knet_handle} (hinv : handle_inv MAX h)
    {config_num : Nat} (h1 : 1 ≤ config_num) (hmax : config_num ≤ MAX)
    (new : crypto_instance) : handle_inv MAX (crypto_init_publish h config_num new) := by
  obtain ⟨hlen, hzero, hnone, huse⟩ := hinv
  have hlt : config_num < h.crypto_instance.length := by omega
  have hslots := crypto_init_publish_slots h config_num new
  have hin := crypto_init_publish_in_use h config_num new
  have hsz := crypto_init_publish_sizes h config_num new
  refine ⟨?_, ?_, ?_, ?_⟩
  · rw [hslots, List.length_set]; exact hlen
  · rw [hslots, List.getElem?_set_ne (by omega)]; exact hzero
  · intro h0
    rw [hin] at h0
    split at h0
    · omega
    · next hne => exact absurd h0 hne
  · intro _
    by_cases hc : h.crypto_in_use_config = 0 ∨ h.crypto_in_use_config = config_num
    · refine ⟨new, ?_, hsz.1 hc⟩
      have hk : (crypto_init_publish h config_num new).crypto_in_use_config = config_num := by
        rw [hin]
        rcases hc with hc | hc
        · rw [if_pos hc]
        · split
          · rfl
          · exact hc
      rw [hk, hslots, List.getElem?_set_self hlt]
    · have h0 : h.crypto_in_use_config ≠ 0 := fun hh => hc (Or.inl hh)
      have hk : h.crypto_in_use_config ≠ config_num := fun hh => hc (Or.inr hh)
      obtain ⟨inst, hocc, hb, hh, hs⟩ := huse h0
      obtain ⟨hb', hh', hs'⟩ := hsz.2 hc
      refine ⟨inst, ?_, by rw [hb', hb], by rw [hh', hh], by rw [hs', hs]⟩
      rw [hin, if_neg h0, hslots, List.getElem?_set_ne (Ne.symm hk)]
      exact hocc

/-- Clearing a slot keeps the handle invariant. -/
lemma handle_inv_clear {MAX : Nat} {h : knet_handle} (hinv : handle_inv MAX h)
    (config_num : Nat) : handle_inv MAX (crypto_fini_clear h config_num) := by
  obtain ⟨hlen, hzero, hnone, huse⟩ := hinv
  unfold crypto_fini_clear
  simp only
  split
  · next hk =>
    refine ⟨by simpa using hlen, ?_, fun _ => ⟨rfl, rfl, rfl⟩, fun h0 => absurd rfl h0⟩
    show (h.crypto_instance.set config_num none)[0]? = some none
    by_cases hc : config_num = 0
    · subst hc
      rw [List.getElem?_set_self (by omega)]
    · rw [List.getElem?_set_ne hc]; exact hzero
  · next hk =>
    refine ⟨by simpa using hlen, ?_, hnone, ?_⟩
    · show (h.crypto_instance.set config_num none)[0]? = some none
      by_cases hc : config_num = 0
      · subst hc
        rw [List.getElem?_set_self (by omega)]
      · rw [List.getElem?_set_ne hc]; exact hzero
    · intro h0
      obtain ⟨inst, hocc, hsz⟩ := huse h0
      refine ⟨inst, ?_, hsz⟩
      show (h.crypto_instance.set config_num none)[h.crypto_in_use_config]? = some (some inst)
      rw [List.getElem?_set_ne (Ne.symm hk)]
      exact hocc

/-- What a returning `crypto_fini_config` did: the backend table is
untouched, slot `config_num` is inside the array, and either the slot was
empty and nothing changed, or it was occupied and was cleared. -/
lemma crypto_fini_config_spec {s s' : state} {config_num : Nat}
    (hcall : crypto_fini_config s config_num = some s') :
    s'.crypto_modules_cmds = s.crypto_modules_cmds ∧
    config_num < s.knet_h.crypto_instance.length ∧
    ((s.knet_h.crypto_instance[config_num]? = some none ∧ s' = s) ∨
     (∃ inst, s.knet_h.crypto_instance[config_num]? = some (some inst) ∧
        s'.knet_h = crypto_fini_clear s.knet_h config_num)) := by
  unfold crypto_fini_config at hcall
  split at hcall
  · exact absurd hcall (by simp)
  · next hemp =>
    simp only [Option.some.injEq] at hcall
    have hlt := (List.getElem?_eq_some_iff.mp hemp).1
    exact ⟨by rw [hcall], hlt, Or.inl ⟨hemp, hcall.symm⟩⟩
  · next inst hocc =>
    have hlt := (List.getElem?_eq_some_iff.mp hocc).1
    split at hcall
    · exact absurd hcall (by simp)
    · next ops hops =>
      simp only [Option.some.injEq] at hcall
      subst hcall
      refine ⟨?_, hlt, Or.inr ⟨inst, hocc, ?_⟩⟩
      · split <;> rfl
      · split <;> rfl

/-- The slot table after clearing a slot. -/
lemma crypto_fini_clear_slots (h : knet_handle) (config_num : Nat) :
    (crypto_fini_clear h config_num).crypto_instance = h.crypto_instance.set config_num none := by
  unfold crypto_fini_clear
  simp only
  split <;> rfl

/-- After `crypto_fini_config` the slot is empty, and slots that were empty
stay empty. -/
lemma crypto_fini_config_empties {s s' : state} {config_num : Nat}
    (hcall : crypto_fini_config s config_num = some s') :
    s'.knet_h.crypto_instance[config_num]? = some none ∧
    s'.knet_h.crypto_instance.length = s.knet_h.crypto_instance.length ∧
    ∀ i : Nat, s.knet_h.crypto_instance[i]? = some none →
      s'.knet_h.crypto_instance[i]? = some none := by
  obtain ⟨_, hlt, hres⟩ := crypto_fini_config_spec hcall
  rcases hres with ⟨hemp, rfl⟩ | ⟨inst, hocc, hh⟩
  · exact ⟨hemp, rfl, fun i hi => hi⟩
  · rw [hh, crypto_fini_clear_slots]
    refine ⟨List.getElem?_set_self hlt, List.length_set _ _ _, ?_⟩
    intro i hi
    by_cases hc : config_num = i
    · subst hc
      exact List.getElem?_set_self hlt
    · rw [List.getElem?_set_ne hc]; exact hi

/-- The function `crypto_fini_config` keeps the handle invariant. -/
lemma handle_inv_fini_config {MAX : Nat} {s s' : state} {config_num : Nat}
    (hinv : handle_inv MAX s.knet_h) (hcall : crypto_fini_config s config_num = some s') :
    handle_inv MAX s'.knet_h := by
  obtain ⟨_, _, hres⟩ := crypto_fini_config_spec hcall
  rcases hres with ⟨_, rfl⟩ | ⟨inst, _, hh⟩
  · exact hinv
  · rw [hh]
    exact handle_inv_clear hinv config_num

/-- The loop of `crypto_fini(0)` keeps the handle invariant and the backend
table, and leaves every slot it visited empty. -/
lemma crypto_fini_all_spec {MAX : Nat} :
    ∀ (l : List Nat) (s s' : state), crypto_fini_all l s = some s' →
      handle_inv MAX s.knet_h →
      handle_inv MAX s'.knet_h ∧ s'.crypto_modules_cmds = s.crypto_modules_cmds ∧
      (∀ i : Nat, i ∈ l → s'.knet_h.crypto_instance[i]? = some none) ∧
      (∀ i : Nat, s.knet_h.crypto_instance[i]? = some none →
        s'.knet_h.crypto_instance[i]? = some none) := by
  intro l
  induction l with
  | nil =>
    intro s s' hcall hinv
    simp only [crypto_fini_all, Option.some.injEq] at hcall
    subst hcall
    exact ⟨hinv, rfl, fun i hi => absurd hi (List.not_mem_nil i), fun i hi => hi⟩
  | cons k rest ih =>
    intro s s' hcall hinv
    unfold crypto_fini_all at hcall
    split at hcall
    · exact absurd hcall (by simp)
    · next s1 hs1 =>
      obtain ⟨hinv', htbl, hvis, hkeep⟩ := ih s1 s' hcall (handle_inv_fini_config hinv hs1)
      obtain ⟨hk, _, hkeep1⟩ := crypto_fini_config_empties hs1
      refine ⟨hinv', ?_, ?_, fun i hi => hkeep i (hkeep1 i hi)⟩
      · rw [htbl, (crypto_fini_config_spec hs1).1]
      · intro i hi
        rcases List.mem_cons.mp hi with rfl | hi
        · exact hkeep i hk
        · exact hvis i hi

/-- The function `crypto_fini` on a slot id `0..MAX` keeps the handle invariant. -/
lemma handle_inv_fini {MAX : Nat} {s s' : state} {config_num wrlock : Nat}
    (hinv : handle_inv MAX s.knet_h)
    (hcall : crypto_fini MAX s config_num wrlock = some s') :
    handle_inv MAX s'.knet_h := by
  unfold crypto_fini at hcall
  split at hcall
  · simp only [Option.some.injEq] at hcall
    subst hcall
    exact hinv
  · split at hcall
    · split at hcall
      · exact absurd hcall (by simp)
      · next s1 hs1 =>
        simp only [Option.some.injEq] at hcall
        subst hcall
        obtain ⟨hinv1, _, hvis, _⟩ := crypto_fini_all_spec _ s s1 hs1 hinv
        obtain ⟨hlen, hzero, hnone, huse⟩ := hinv1
        have h0 : s1.knet_h.crypto_in_use_config = 0 := by
          by_contra hne
          obtain ⟨inst, hocc, _⟩ := huse hne
          have hlt := (List.getElem?_eq_some_iff.mp hocc).1
          have hmem : s1.knet_h.crypto_in_use_config ∈ List.range' 1 MAX := by
            rw [List.mem_range'_1]
            omega
          rw [hvis _ hmem] at hocc
          simp at hocc
        exact ⟨hlen, hzero, fun _ => hnone h0, fun hne => absurd rfl hne⟩
    · next hk =>
      split at hcall
      · exact absurd hcall (by simp)
      · next s1 hs1 =>
        have hinv1 := handle_inv_fini_config hinv hs1
        split at hcall
        · next huse_k =>
          exfalso
          obtain ⟨_, _, _, huse⟩ := hinv1
          obtain ⟨inst, hocc, _⟩ := huse (by rw [huse_k]; exact hk)
          rw [huse_k, (crypto_fini_config_empties hs1).1] at hocc
          simp at hocc
        · simp only [Option.some.injEq] at hcall
          subst hcall
          exact hinv1

/-- The function `crypto_use_config` on a slot id `1..MAX` keeps the handle invariant. -/
lemma handle_inv_use_config {MAX : Nat} {s s' : state} {config_num : Nat} {r : Int}
    (hinv : handle_inv MAX s.knet_h) (h1 : 1 ≤ config_num)
    (hcall : crypto_use_config s config_num = some (r, s')) :
    handle_inv MAX s'.knet_h := by
  obtain ⟨hlen, hzero, hnone, huse⟩ := hinv
  unfold crypto_use_config at hcall
  split at hcall
  · exact absurd hcall (by simp)
  · simp only [Option.some.injEq, Prod.mk.injEq] at hcall
    obtain ⟨_, rfl⟩ := hcall
    exact ⟨hlen, hzero, hnone, huse⟩
  · next inst hocc =>
    simp only [Option.some.injEq, Prod.mk.injEq] at hcall
    obtain ⟨_, rfl⟩ := hcall
    refine ⟨hlen, hzero, ?_, ?_⟩
    · intro h0
      simp only at h0
      omega
    · intro _
      exact ⟨inst, hocc, rfl, rfl, rfl⟩

/-- The function `crypto_init` on a slot id `1..MAX` keeps the handle invariant. -/
lemma handle_inv_init {MAX ABI : Nat} {s s' : state} {cfg : knet_handle_crypto_cfg}
    {config_num : Nat} {env : crypto_init_env} {r : Int}
    (hinv : handle_inv MAX s.knet_h) (h1 : 1 ≤ config_num) (hmax : config_num ≤ MAX)
    (hcall : crypto_init ABI s cfg config_num env = some (r, s')) :
    handle_inv MAX s'.knet_h := by
  rcases crypto_init_spec hcall with ⟨_, hh⟩ | ⟨_, _, model, row, ops, _, _, _, _, _, hh⟩
  · rw [hh]; exact hinv
  · rw [hh]; exact handle_inv_publish hinv h1 hmax _

/-- Every reachable state satisfies the handle invariant. -/
lemma reachable_handle_inv {MAX ABI NSS OPENSSL : Nat} {s : state}
    (hreach : reachable MAX ABI NSS OPENSSL s) : handle_inv MAX s.knet_h := by
  induction hreach with
  | initial errno => exact handle_inv_empty MAX
  | init cfg k env _ h1 hmax hcall ih => exact handle_inv_init ih h1 hmax hcall
  | use_config k _ h1 _ hcall ih => exact handle_inv_use_config ih h1 hcall
  | fini k wrlock _ _ hcall ih => exact handle_inv_fini ih hcall

/-! ## Backend table invariant -/

/-- The result of `crypto_get_model` is -1 or the index of a row. -/
lemma crypto_get_model_loop_range (model : String) :
    ∀ (tbl : List crypto_model_t) (idx : Nat),
      crypto_get_model_loop tbl model idx = -1 ∨
      ∃ i : Nat, i < tbl.length ∧ crypto_get_model_loop tbl model idx = ((idx + i : Nat) : Int) := by
  intro tbl
  induction tbl with
  | nil => intro idx; exact Or.inl rfl
  | cons row rest ih =>
    intro idx
    unfold crypto_get_model_loop
    split
    · exact Or.inr ⟨0, by simp, by simp⟩
    · rcases ih (idx + 1) with hneg | ⟨i, hi, heq⟩
      · exact Or.inl hneg
      · refine Or.inr ⟨i + 1, by simpa using hi, ?_⟩
        rw [heq]
        congr 1
        omega

/-- A non-negative result of `crypto_get_model` is the index of a row. -/
lemma crypto_get_model_range {tbl : List crypto_model_t} {model : String}
    (hnn : ¬ crypto_get_model tbl model < 0) :
    (crypto_get_model tbl model).toNat < tbl.length := by
  unfold crypto_get_model at hnn ⊢
  rcases crypto_get_model_loop_range model tbl 0 with hneg | ⟨i, hi, heq⟩
  · rw [hneg] at hnn
    exact absurd (by decide) hnn
  · rw [heq]
    simpa using hi

/-- How a returning `crypto_init` changed the backend table: not at all, or
it rewrote one row that was not marked loaded, and the rewritten row has an
operation table if it is now marked loaded. -/
lemma crypto_init_table {ABI : Nat} {s s' : state} {cfg : knet_handle_crypto_cfg}
    {config_num : Nat} {env : crypto_init_env} {r : Int}
    (hcall : crypto_init ABI s cfg config_num env = some (r, s')) :
    s'.crypto_modules_cmds = s.crypto_modules_cmds ∨
    ∃ (model : Nat) (row row' : crypto_model_t),
      s.crypto_modules_cmds[model]? = some row ∧ row.loaded = 0 ∧
      (row'.loaded ≠ 0 → ∃ ops, row'.ops = some ops) ∧
      s'.crypto_modules_cmds = s.crypto_modules_cmds.set model row' := by
  unfold crypto_init at hcall
  split at hcall
  · exact absurd hcall (by simp)
  · simp only at hcall
    split at hcall
    · simp only [Option.some.injEq, Prod.mk.injEq] at hcall
      exact Or.inl (by rw [← hcall.2])
    · split at hcall
      · exact absurd hcall (by simp)
      · next row hrow =>
        split at hcall
        · simp only [Option.some.injEq, Prod.mk.injEq] at hcall
          exact Or.inl (by rw [← hcall.2])
        · split at hcall
          · simp only [Option.some.injEq, Prod.mk.injEq] at hcall
            exact Or.inl (by rw [← hcall.2])
          · unfold crypto_init_locked at hcall
            split at hcall
            · next hl =>
              simp only at hcall
              split at hcall
              · next hload =>
                simp only [crypto_init_fail, Option.some.injEq, Prod.mk.injEq] at hcall
                refine Or.inr ⟨_, row, { row with ops := none }, hrow, hl, ?_, ?_⟩
                · intro hne; exact absurd hl hne
                · rw [← hcall.2, hload]
              · next ops hload =>
                split at hcall
                · simp only [crypto_init_fail, Option.some.injEq, Prod.mk.injEq] at hcall
                  refine Or.inr ⟨_, row, { row with ops := some ops }, hrow, hl, ?_, ?_⟩
                  · intro hne; exact absurd hl hne
                  · rw [← hcall.2, hload]
                · have ht := (crypto_init_instance_spec hcall).1
                  refine Or.inr ⟨_, row, { row with ops := some ops, loaded := 1 }, hrow, hl,
                    fun _ => ⟨ops, rfl⟩, ?_⟩
                  rw [ht, hload]
            · exact Or.inl (crypto_init_instance_spec hcall).1

/-- Rewriting a row that is not marked loaded keeps every row that is. -/
lemma loaded_row_kept {tbl : List crypto_model_t} {model : Nat} {row row' : crypto_model_t}
    (hrow : tbl[model]? = some row) (hl : row.loaded = 0) {i : Nat} {row0 : crypto_model_t}
    (hi : tbl[i]? = some row0) (hne : row0.loaded ≠ 0) : (tbl.set model row')[i]? = some row0 := by
  have hmi : model ≠ i := by
    rintro rfl
    rw [hrow] at hi
    simp only [Option.some.injEq] at hi
    rw [hi] at hl
    exact hne hl
  rw [List.getElem?_set_ne hmi]
  exact hi

/-- The function `crypto_init` keeps the table invariant and keeps every row that is
marked loaded. -/
lemma table_inv_init {ABI : Nat} {s s' : state} {cfg : knet_handle_crypto_cfg}
    {config_num : Nat} {env : crypto_init_env} {r : Int}
    (hcall : crypto_init ABI s cfg config_num env = some (r, s')) :
    (table_inv s.crypto_modules_cmds → table_inv s'.crypto_modules_cmds) ∧
    (∀ (i : Nat) (row0 : crypto_model_t), s.crypto_modules_cmds[i]? = some row0 →
      row0.loaded ≠ 0 → s'.crypto_modules_cmds[i]? = some row0) := by
  rcases crypto_init_table hcall with heq | ⟨model, row, row', hrow, hl, hops, heq⟩
  · rw [heq]
    exact ⟨fun h => h, fun _ _ h _ => h⟩
  · rw [heq]
    have hlt := (List.getElem?_eq_some_iff.mp hrow).1
    refine ⟨?_, fun i row0 hi hne => loaded_row_kept hrow hl hi hne⟩
    intro hinv i row0 hi hne
    by_cases hmi : model = i
    · subst hmi
      rw [List.getElem?_set_self hlt] at hi
      simp only [Option.some.injEq] at hi
      subst hi
      exact hops hne
    · rw [List.getElem?_set_ne hmi] at hi
      exact hinv i row0 hi hne

/-- The function `crypto_init` keeps the invariant on the installed instances. -/
lemma instances_inv_init {ABI : Nat} {s s' : state} {cfg : knet_handle_crypto_cfg}
    {config_num : Nat} {env : crypto_init_env} {r : Int}
    (hcall : crypto_init ABI s cfg config_num env = some (r, s'))
    (hinst : instances_inv s.knet_h s.crypto_modules_cmds) :
    instances_inv s'.knet_h s'.crypto_modules_cmds := by
  have hkeep := (table_inv_init hcall).2
  have hold : ∀ (i : Nat) (inst : crypto_instance),
      s.knet_h.crypto_instance[i]? = some (some inst) →
      ∃ row, s'.crypto_modules_cmds[inst.model]? = some row ∧ row.loaded ≠ 0 := by
    intro i inst hocc
    obtain ⟨row, hrow, hne⟩ := hinst i inst hocc
    exact ⟨row, hkeep _ row hrow hne, hne⟩
  rcases crypto_init_spec hcall with ⟨_, hh⟩ | ⟨_, _, model, row', ops, _, hrow', hl', _, _, hh⟩
  · intro i inst hocc
    rw [hh] at hocc
    exact hold i inst hocc
  · intro i inst hocc
    rw [hh, crypto_init_publish_slots] at hocc
    by_cases hki : config_num = i
    · subst hki
      rw [List.getElem?_set_self (crypto_init_in_range hcall)] at hocc
      simp only [Option.some.injEq] at hocc
      subst hocc
      exact ⟨row', hrow', hl'⟩
    · rw [List.getElem?_set_ne hki] at hocc
      exact hold i inst hocc

/-- Clearing slots keeps the invariant on the installed instances. -/
lemma instances_inv_fini_config {s s' : state} {config_num : Nat}
    (hcall : crypto_fini_config s config_num = some s')
    (hinst : instances_inv s.knet_h s.crypto_modules_cmds) :
    instances_inv s'.knet_h s'.crypto_modules_cmds := by
  obtain ⟨htbl, hlt, hres⟩ := crypto_fini_config_spec hcall
  rcases hres with ⟨_, rfl⟩ | ⟨inst, _, hh⟩
  · exact hinst
  · intro i inst' hocc
    rw [hh, crypto_fini_clear_slots] at hocc
    rw [htbl]
    by_cases hki : config_num = i
    · subst hki
      rw [List.getElem?_set_self hlt] at hocc
      simp at hocc
    · rw [List.getElem?_set_ne hki] at hocc
      exact hinst i inst' hocc

/-- The loop of `crypto_fini(0)` keeps the invariant on the installed
instances. -/
lemma instances_inv_fini_all :
    ∀ (l : List Nat) (s s' : state), crypto_fini_all l s = some s' →
      instances_inv s.knet_h s.crypto_modules_cmds →
      instances_inv s'.knet_h s'.crypto_modules_cmds := by
  intro l
  induction l with
  | nil =>
    intro s s' hcall hinst
    simp only [crypto_fini_all, Option.some.injEq] at hcall
    subst hcall
    exact hinst
  | cons k rest ih =>
    intro s s' hcall hinst
    unfold crypto_fini_all at hcall
    split at hcall
    · exact absurd hcall (by simp)
    · next s1 hs1 => exact ih s1 s' hcall (instances_inv_fini_config hs1 hinst)

/-- The loop of `crypto_fini(0)` does not touch the backend table. -/
lemma crypto_fini_all_table :
    ∀ (l : List Nat) (s s' : state), crypto_fini_all l s = some s' →
      s'.crypto_modules_cmds = s.crypto_modules_cmds := by
  intro l
  induction l with
  | nil =>
    intro s s' hcall
    simp only [crypto_fini_all, Option.some.injEq] at hcall
    rw [hcall]
  | cons k rest ih =>
    intro s s' hcall
    unfold crypto_fini_all at hcall
    split at hcall
    · exact absurd hcall (by simp)
    · next s1 hs1 => rw [ih s1 s' hcall, (crypto_fini_config_spec hs1).1]

/-- The function `crypto_fini` keeps the backend table and the invariant on the installed
instances. -/
lemma instances_inv_fini {MAX : Nat} {s s' : state} {config_num wrlock : Nat}
    (hcall : crypto_fini MAX s config_num wrlock = some s')
    (hinst : instances_inv s.knet_h s.crypto_modules_cmds) :
    s'.crypto_modules_cmds = s.crypto_modules_cmds ∧
    instances_inv s'.knet_h s'.crypto_modules_cmds := by
  unfold crypto_fini at hcall
  split at hcall
  · simp only [Option.some.injEq] at hcall
    subst hcall
    exact ⟨rfl, hinst⟩
  · split at hcall
    · split at hcall
      · exact absurd hcall (by simp)
      · next s1 hs1 =>
        simp only [Option.some.injEq] at hcall
        subst hcall
        exact ⟨crypto_fini_all_table _ s s1 hs1, instances_inv_fini_all _ s s1 hs1 hinst⟩
    · split at hcall
      · exact absurd hcall (by simp)
      · next s1 hs1 =>
        have h1 := instances_inv_fini_config hs1 hinst
        have ht := (crypto_fini_config_spec hs1).1
        split at hcall
        · simp only [Option.some.injEq] at hcall
          subst hcall
          exact ⟨ht, h1⟩
        · simp only [Option.some.injEq] at hcall
          subst hcall
          exact ⟨ht, h1⟩

/-- The function `crypto_use_config` changes neither the slot table nor the backend
table. -/
lemma crypto_use_config_frame {s s' : state} {config_num : Nat} {r : Int}
    (hcall : crypto_use_config s config_num = some (r, s')) :
    s'.knet_h.crypto_instance = s.knet_h.crypto_instance ∧
    s'.crypto_modules_cmds = s.crypto_modules_cmds := by
  unfold crypto_use_config at hcall
  split at hcall
  · exact absurd hcall (by simp)
  · simp only [Option.some.injEq, Prod.mk.injEq] at hcall
    obtain ⟨_, rfl⟩ := hcall
    exact ⟨rfl, rfl⟩
  · simp only [Option.some.injEq, Prod.mk.injEq] at hcall
    obtain ⟨_, rfl⟩ := hcall
    exact ⟨rfl, rfl⟩

/-- Every reachable state satisfies the three invariants. -/
lemma reachable_state_inv {MAX ABI NSS OPENSSL : Nat} {s : state}
    (hreach : reachable MAX ABI NSS OPENSSL s) : state_inv MAX s := by
  refine ⟨reachable_handle_inv hreach, ?_⟩
  induction hreach with
  | initial errno =>
    constructor
    · intro i row hi hne
      simp only [initial_state, crypto_modules_cmds] at hi
      match i with
      | 0 => simp at hi; subst hi; exact absurd rfl hne
      | 1 => simp at hi; subst hi; exact absurd rfl hne
      | n + 2 => simp at hi
    · intro i inst hocc
      simp only [initial_state, empty_handle, List.getElem?_replicate] at hocc
      split at hocc <;> simp at hocc
  | init cfg k env _ h1 hmax hcall ih =>
    exact ⟨(table_inv_init hcall).1 ih.1, instances_inv_init hcall ih.2⟩
  | use_config k _ h1 _ hcall ih =>
    obtain ⟨hs, ht⟩ := crypto_use_config_frame hcall
    unfold instances_inv
    rw [hs, ht]
    exact ih
  | fini k wrlock _ _ hcall ih =>
    obtain ⟨ht, hi⟩ := instances_inv_fini hcall ih.2
    rw [ht]
    exact ⟨ih.1, ht ▸ hi⟩

/-! ## The calls are defined on states that satisfy the invariants -/

/-- Under the invariants the operation table of an installed instance is
there. -/
lemma instance_ops_defined {h : knet_handle} {tbl : List crypto_model_t}
    (htbl : table_inv tbl) (hinst : instances_inv h tbl) {i : Nat} {inst : crypto_instance}
    (hocc : h.crypto_instance[i]? = some (some inst)) :
    ∃ ops, instance_ops tbl inst = some ops := by
  obtain ⟨row, hrow, hne⟩ := hinst i inst hocc
  obtain ⟨ops, hops⟩ := htbl _ row hrow hne
  exact ⟨ops, by simp only [instance_ops, hrow, hops]⟩

/-- The succeeding half of `out:` is defined when the operation table of
the replaced instance is there. -/
lemma crypto_init_success_defined (s : state) (config_num : Nat)
    (current : Option crypto_instance) (new : crypto_instance)
    (hcur : ∀ cur, current = some cur → ∃ ops, instance_ops s.crypto_modules_cmds cur = some ops) :
    ∃ res, crypto_init_success s config_num current new = some res := by
  unfold crypto_init_success
  cases current with
  | none => exact ⟨_, rfl⟩
  | some cur =>
    obtain ⟨ops, hops⟩ := hcur cur rfl
    simp only [hops]
    cases ops.fini <;> exact ⟨_, rfl⟩

/-- The part after the lazy load is defined when row `model` has an
operation table and the operation table of the replaced instance is there. -/
lemma crypto_init_instance_defined (s : state) (cfg : knet_handle_crypto_cfg)
    (config_num : Nat) (env : crypto_init_env) (current : Option crypto_instance)
    (model : Nat) {row : crypto_model_t} {ops : crypto_ops_t}
    (hrow : s.crypto_modules_cmds[model]? = some row) (hops : row.ops = some ops)
    (hcur : ∀ cur, current = some cur → ∃ ops, instance_ops s.crypto_modules_cmds cur = some ops) :
    ∃ res, crypto_init_instance s cfg config_num env current model = some res := by
  unfold crypto_init_instance
  split
  · exact ⟨_, rfl⟩
  · simp only [hrow, hops]
    split
    · exact ⟨_, rfl⟩
    · exact crypto_init_success_defined _ config_num current _ hcur

/-- The function `crypto_init` is defined on a slot id inside the array when the
invariants hold. -/
lemma crypto_init_defined (ABI : Nat) {s : state} (cfg : knet_handle_crypto_cfg)
    {config_num : Nat} (env : crypto_init_env)
    (hlt : config_num < s.knet_h.crypto_instance.length)
    (htbl : table_inv s.crypto_modules_cmds)
    (hinst : instances_inv s.knet_h s.crypto_modules_cmds) :
    ∃ res, crypto_init ABI s cfg config_num env = some res := by
  obtain ⟨current, hcurrent⟩ : ∃ c, s.knet_h.crypto_instance[config_num]? = some c :=
    ⟨_, List.getElem?_eq_getElem hlt⟩
  unfold crypto_init
  simp only [hcurrent]
  split
  · exact ⟨_, rfl⟩
  · next hmodel =>
    obtain ⟨row, hrow⟩ : ∃ row, s.crypto_modules_cmds[
        (crypto_get_model s.crypto_modules_cmds cfg.crypto_model).toNat]? = some row :=
      ⟨_, List.getElem?_eq_getElem (crypto_get_model_range hmodel)⟩
    simp only [hrow]
    split
    · exact ⟨_, rfl⟩
    · split
      · exact ⟨_, rfl⟩
      · have hmlt := (List.getElem?_eq_some_iff.mp hrow).1
        unfold crypto_init_locked
        split
        · next hl =>
          simp only
          cases hload : env.load_module with
          | none => exact ⟨_, rfl⟩
          | some ops =>
            simp only
            split
            · exact ⟨_, rfl⟩
            · refine crypto_init_instance_defined _ cfg config_num env current _
                (List.getElem?_set_self hmlt) rfl ?_
              intro cur hc
              subst hc
              obtain ⟨rowc, hrowc, hne⟩ := hinst config_num cur hcurrent
              obtain ⟨opsc, hopsc⟩ := htbl _ rowc hrowc hne
              refine ⟨opsc, ?_⟩
              simp only [instance_ops, loaded_row_kept hrow hl hrowc hne, hopsc]
        · next hl =>
          obtain ⟨ops, hops⟩ := htbl _ row hrow hl
          refine crypto_init_instance_defined _ cfg config_num env current _ hrow hops ?_
          intro cur hc
          subst hc
          exact instance_ops_defined htbl hinst hcurrent

/-- The function `crypto_use_config` is defined on a slot id inside the array. -/
lemma crypto_use_config_defined {s : state} {config_num : Nat}
    (hlt : config_num < s.knet_h.crypto_instance.length) :
    ∃ res, crypto_use_config s config_num = some res := by
  obtain ⟨slot, hslot⟩ : ∃ c, s.knet_h.crypto_instance[config_num]? = some c :=
    ⟨_, List.getElem?_eq_getElem hlt⟩
  unfold crypto_use_config
  cases slot with
  | none => simp only [hslot]; exact ⟨_, rfl⟩
  | some inst => simp only [hslot]; exact ⟨_, rfl⟩

/-- The function `crypto_fini_config` is defined on a slot id inside the array when the
invariants hold. -/
lemma crypto_fini_config_defined {s : state} {config_num : Nat}
    (hlt : config_num < s.knet_h.crypto_instance.length)
    (htbl : table_inv s.crypto_modules_cmds)
    (hinst : instances_inv s.knet_h s.crypto_modules_cmds) :
    ∃ s', crypto_fini_config s config_num = some s' := by
  obtain ⟨slot, hslot⟩ : ∃ c, s.knet_h.crypto_instance[config_num]? = some c :=
    ⟨_, List.getElem?_eq_getElem hlt⟩
  unfold crypto_fini_config
  cases slot with
  | none => simp only [hslot]; exact ⟨_, rfl⟩
  | some inst =>
    obtain ⟨ops, hops⟩ := instance_ops_defined htbl hinst hslot
    simp only [hslot, hops]
    exact ⟨_, rfl⟩

/-- The loop of `crypto_fini(0)` is defined when it stays inside the array
and the invariants hold. -/
lemma crypto_fini_all_defined :
    ∀ (l : List Nat) (s : state), (∀ i ∈ l, i < s.knet_h.crypto_instance.length) →
      table_inv s.crypto_modules_cmds → instances_inv s.knet_h s.crypto_modules_cmds →
      ∃ s', crypto_fini_all l s = some s' := by
  intro l
  induction l with
  | nil => intro s _ _ _; exact ⟨s, rfl⟩
  | cons k rest ih =>
    intro s hl htbl hinst
    obtain ⟨s1, hs1⟩ := crypto_fini_config_defined (hl k (List.mem_cons_self k rest)) htbl hinst
    unfold crypto_fini_all
    simp only [hs1]
    apply ih
    · intro i hi
      rw [(crypto_fini_config_empties hs1).2.1]
      exact hl i (List.mem_cons_of_mem k hi)
    · rw [(crypto_fini_config_spec hs1).1]; exact htbl
    · exact instances_inv_fini_config hs1 hinst

/-- The function `crypto_fini` is defined on slot ids `0..MAX` when the invariants hold. -/
lemma crypto_fini_defined {MAX : Nat} {s : state} (config_num wrlock : Nat)
    (hinv : state_inv MAX s) (hmax : config_num ≤ MAX) :
    ∃ s', crypto_fini MAX s config_num wrlock = some s' := by
  obtain ⟨⟨hlen, _⟩, htbl, hinst⟩ := hinv
  unfold crypto_fini
  split
  · exact ⟨_, rfl⟩
  · split
    · obtain ⟨s1, hs1⟩ := crypto_fini_all_defined (List.range' 1 MAX) s
        (by intro i hi; rw [List.mem_range'_1] at hi; omega) htbl hinst
      simp only [hs1]
      exact ⟨_, rfl⟩
    · obtain ⟨s1, hs1⟩ := crypto_fini_config_defined (show config_num < _ by omega) htbl hinst
      simp only [hs1]
      split <;> exact ⟨_, rfl⟩

/-- From every reachable state each of the three calls, on a slot id in
range, is defined: the reachable states are closed under all of them. -/
lemma reachable_calls_defined {MAX ABI NSS OPENSSL : Nat} {s : state}
    (hreach : reachable MAX ABI NSS OPENSSL s) (config_num : Nat) (hmax : config_num ≤ MAX) :
    (∀ cfg env, ∃ res, crypto_init ABI s cfg config_num env = some res) ∧
    (∃ res, crypto_use_config s config_num = some res) ∧
    (∀ wrlock, ∃ s', crypto_fini MAX s config_num wrlock = some s') := by
  have hinv := reachable_state_inv hreach
  have hlt : config_num < s.knet_h.crypto_instance.length := by
    rw [hinv.1.1]; omega
  exact ⟨fun cfg env => crypto_init_defined ABI cfg env hlt hinv.2.1 hinv.2.2,
    crypto_use_config_defined hlt, fun wrlock => crypto_fini_defined config_num wrlock hinv hmax⟩

/-! ## Receive path: the loops against the order of attempts -/

/-- Reading a slot inside the array agrees with `occupied`. -/
lemma occupied_of_slot {h : knet_handle} {i : Nat} :
    (∀ inst, h.crypto_instance[i]? = some (some inst) → occupied h i = true) ∧
    (h.crypto_instance[i]? = some none → occupied h i = false) := by
  constructor
  · intro inst hocc
    simp only [occupied, hocc]
  · intro hemp
    simp only [occupied, hemp]

/-- The counting loop returns the number of occupied slots among those it
visits. -/
lemma count_configs_spec (h : knet_handle) :
    ∀ (l : List Nat) (acc : Nat), (∀ i ∈ l, i < h.crypto_instance.length) →
      count_configs h l acc = some (acc + (l.filter (occupied h)).length) := by
  intro l
  induction l with
  | nil => intro acc _; simp [count_configs]
  | cons i rest ih =>
    intro acc hl
    have hi := hl i (List.mem_cons_self i rest)
    have hrest : ∀ j ∈ rest, j < h.crypto_instance.length :=
      fun j hj => hl j (List.mem_cons_of_mem i hj)
    obtain ⟨slot, hslot⟩ : ∃ c, h.crypto_instance[i]? = some c :=
      ⟨_, List.getElem?_eq_getElem hi⟩
    unfold count_configs
    cases slot with
    | none =>
      simp only [hslot]
      rw [ih acc hrest, List.filter_cons_of_neg (by simp [occupied_of_slot.2 hslot])]
    | some inst =>
      simp only [hslot]
      rw [ih (acc + 1) hrest, List.filter_cons_of_pos (occupied_of_slot.1 inst hslot)]
      simp only [List.length_cons]
      congr 1
      omega

/-- The fallback loop is defined and computes `try_alternatives` on the
alternatives among the slots it visits; it changes neither the handle nor the
backend table. -/
lemma decrypt_alternatives_refines (h : knet_handle) (tbl : List crypto_model_t)
    (buf_in : List Nat)
    (hops : ∀ (i : Nat) (inst : crypto_instance), h.crypto_instance[i]? = some (some inst) →
      ∃ ops, instance_ops tbl inst = some ops) :
    ∀ (l : List Nat) (err : Int) (buf_out : List Nat) (s : state),
      s.knet_h = h → s.crypto_modules_cmds = tbl →
      (∀ i ∈ l, i < h.crypto_instance.length) →
      ∃ s', decrypt_alternatives buf_in l err buf_out s =
          some ((try_alternatives h tbl buf_in (l.filter (is_alternative h)) (err, buf_out)).1,
                (try_alternatives h tbl buf_in (l.filter (is_alternative h)) (err, buf_out)).2,
                s') ∧
        s'.knet_h = h ∧ s'.crypto_modules_cmds = tbl := by
  intro l
  induction l with
  | nil =>
    intro err buf_out s hh ht _
    exact ⟨s, rfl, hh, ht⟩
  | cons i rest ih =>
    intro err buf_out s hh ht hl
    have hi := hl i (List.mem_cons_self i rest)
    have hrest : ∀ j ∈ rest, j < h.crypto_instance.length :=
      fun j hj => hl j (List.mem_cons_of_mem i hj)
    unfold decrypt_alternatives
    by_cases hk : i = s.knet_h.crypto_in_use_config
    · rw [if_pos hk]
      have hna : is_alternative h i = false := by
        simp [is_alternative, ← hh, hk]
      rw [List.filter_cons_of_neg (by simp [hna])]
      exact ih err buf_out s hh ht hrest
    · rw [if_neg hk]
      obtain ⟨slot, hslot⟩ : ∃ c, h.crypto_instance[i]? = some c :=
        ⟨_, List.getElem?_eq_getElem hi⟩
      cases slot with
      | none =>
        have hna : is_alternative h i = false := by
          simp [is_alternative, occupied_of_slot.2 hslot]
        rw [List.filter_cons_of_neg (by simp [hna])]
        simp only [hh, hslot]
        exact ih err buf_out s hh ht hrest
      | some inst =>
        have hya : is_alternative h i = true := by
          have hk' : i ≠ h.crypto_in_use_config := by rw [← hh]; exact hk
          simp [is_alternative, occupied_of_slot.1 inst hslot, hk']
        obtain ⟨ops, hopsi⟩ := hops i inst hslot
        rw [List.filter_cons_of_pos hya]
        have hbd : backend_decrypt h tbl buf_in (i, log_level_t.KNET_LOG_ERR) =
            some (ops.decrypt h inst buf_in log_level_t.KNET_LOG_ERR) := by
          simp only [backend_decrypt, hslot, hopsi]
        simp only [hh, ht, hslot, hopsi, try_alternatives, hbd]
        by_cases hret : (ops.decrypt h inst buf_in log_level_t.KNET_LOG_ERR).ret = 0
        · simp only [hret, if_true]
          exact ⟨_, rfl, rfl, rfl⟩
        · simp only [hret, if_false]
          exact ih _ _ _ rfl rfl hrest

/-- The function `try_alternatives` after a failed attempt succeeds exactly when one of
the slots it tries accepts. -/
lemma try_alternatives_success (h : knet_handle) (tbl : List crypto_model_t)
    (buf_in : List Nat) :
    ∀ (alts : List Nat) (acc : Int × List Nat), acc.1 ≠ 0 →
      ((try_alternatives h tbl buf_in alts acc).1 = 0 ↔
        ∃ j ∈ alts, accepted h tbl buf_in (j, log_level_t.KNET_LOG_ERR) = true) := by
  intro alts
  induction alts with
  | nil =>
    intro acc hacc
    simp [try_alternatives, hacc]
  | cons j rest ih =>
    intro acc hacc
    unfold try_alternatives
    cases hbd : backend_decrypt h tbl buf_in (j, log_level_t.KNET_LOG_ERR) with
    | none =>
      simp only [List.mem_cons, exists_eq_or_imp, accepted, hbd]
      rw [ih acc hacc]
      simp [accepted]
    | some res =>
      simp only [List.mem_cons, exists_eq_or_imp, accepted, hbd]
      by_cases hret : res.ret = 0
      · simp [hret]
      · simp only [hret, if_false, decide_False, Bool.false_eq_true, false_or]
        rw [ih (res.ret, res.buf_out) hret]
        simp [accepted]

/-- When some slot accepts, `try_alternatives` returns the outcome of the
first one that does. -/
lemma try_alternatives_first (h : knet_handle) (tbl : List crypto_model_t)
    (buf_in : List Nat) :
    ∀ (alts : List Nat) (acc : Int × List Nat) (j : Nat) (res : crypt_result),
      alts.find? (fun i => accepted h tbl buf_in (i, log_level_t.KNET_LOG_ERR)) = some j →
      backend_decrypt h tbl buf_in (j, log_level_t.KNET_LOG_ERR) = some res →
      try_alternatives h tbl buf_in alts acc = (0, res.buf_out) := by
  intro alts
  induction alts with
  | nil => intro acc j res hfind _; simp at hfind
  | cons i rest ih =>
    intro acc j res hfind hres
    rw [List.find?_cons_eq_some] at hfind
    unfold try_alternatives
    rcases hfind with ⟨hacc, rfl⟩ | ⟨hrej, hfind⟩
    · simp only [accepted, hres, decide_eq_true_eq] at hacc
      simp only [hres, hacc, if_true]
    · cases hbd : backend_decrypt h tbl buf_in (i, log_level_t.KNET_LOG_ERR) with
      | none => exact ih acc j res hfind hres
      | some res' =>
        simp only [accepted, hbd, Bool.not_eq_true', decide_eq_false_iff_not] at hrej
        simp only [hrej, if_false]
        exact ih _ j res hfind hres

/-- When no slot accepts, `try_alternatives` returns the outcome of the last
slot it tries. -/
lemma try_alternatives_last (h : knet_handle) (tbl : List crypto_model_t)
    (buf_in : List Nat) (j : Nat) (res : crypt_result)
    (hres : backend_decrypt h tbl buf_in (j, log_level_t.KNET_LOG_ERR) = some res) :
    ∀ (pre : List Nat) (acc : Int × List Nat),
      (∀ i ∈ pre ++ [j], accepted h tbl buf_in (i, log_level_t.KNET_LOG_ERR) = false) →
      try_alternatives h tbl buf_in (pre ++ [j]) acc = (res.ret, res.buf_out) := by
  intro pre
  induction pre with
  | nil =>
    intro acc hall
    have hj := hall j (by simp)
    simp only [accepted, hres, decide_eq_false_iff_not] at hj
    simp only [List.nil_append, try_alternatives, hres, hj, if_false]
  | cons i rest ih =>
    intro acc hall
    have hi := hall i (by simp)
    have hrest : ∀ k ∈ rest ++ [j],
        accepted h tbl buf_in (k, log_level_t.KNET_LOG_ERR) = false :=
      fun k hk => hall k (by simp only [List.cons_append, List.mem_cons]; exact Or.inr hk)
    simp only [List.cons_append]
    unfold try_alternatives
    cases hbd : backend_decrypt h tbl buf_in (i, log_level_t.KNET_LOG_ERR) with
    | none => exact ih acc hrest
    | some res' =>
      simp only [accepted, hbd, decide_eq_false_iff_not] at hi
      simp only [hi, if_false]
      exact ih _ hrest

/-- The highest-numbered occupied slot other than the slot in use is the
last of the alternatives. -/
lemma alternative_slots_last {MAX : Nat} {h : knet_handle} {j : Nat}
    (h1 : 1 ≤ j) (hmax : j ≤ MAX) (halt : is_alternative h j = true)
    (hhigh : ∀ j' : Nat, j < j' → j' ≤ MAX → is_alternative h j' = false) :
    ∃ pre, alternative_slots MAX h = pre ++ [j] := by
  have hsplit : List.range' 1 MAX = List.range' 1 (j - 1) ++ j :: List.range' (j + 1) (MAX - j) := by
    have h2 : List.range' j (MAX - j + 1) = j :: List.range' (j + 1) (MAX - j) :=
      List.range'_succ j (MAX - j) 1
    rw [← h2]
    have h3 := List.range'_append_1 1 (j - 1) (MAX - j + 1)
    have e1 : 1 + (j - 1) = j := by omega
    have e2 : MAX - j + 1 + (j - 1) = MAX := by omega
    rw [e1, e2] at h3
    exact h3.symm
  have htail : (List.range' (j + 1) (MAX - j)).filter (is_alternative h) = [] := by
    rw [List.filter_eq_nil_iff]
    intro j' hj'
    rw [List.mem_range'_1] at hj'
    rw [hhigh j' (by omega) (by omega)]
    simp
  refine ⟨(List.range' 1 (j - 1)).filter (is_alternative h), ?_⟩
  unfold alternative_slots
  rw [hsplit, List.filter_append, List.filter_cons_of_pos halt, htail]

/-- The outcome of `crypto_authenticate_and_decrypt` on a handle whose slot
in use is occupied: the outcome of the first attempt when it succeeds, and
otherwise that of `try_alternatives` on the alternative slots; the handle and
the backend table are unchanged. -/
lemma authenticate_and_decrypt_outcome (MAX : Nat) (s : state) (buf_in : List Nat)
    (hlen : s.knet_h.crypto_instance.length = MAX + 1)
    (huse : occupied s.knet_h s.knet_h.crypto_in_use_config = true)
    (hops : ∀ (i : Nat) (inst : crypto_instance),
      s.knet_h.crypto_instance[i]? = some (some inst) →
      ∃ ops, instance_ops s.crypto_modules_cmds inst = some ops) :
    ∃ (res0 : crypt_result) (r : Int) (buf_out : List Nat) (s' : state),
      backend_decrypt s.knet_h s.crypto_modules_cmds buf_in
        (s.knet_h.crypto_in_use_config, first_log_level MAX s.knet_h) = some res0 ∧
      crypto_authenticate_and_decrypt MAX s buf_in = some (r, buf_out, s') ∧
      s'.knet_h = s.knet_h ∧ s'.crypto_modules_cmds = s.crypto_modules_cmds ∧
      (res0.ret = 0 → r = res0.ret ∧ buf_out = res0.buf_out) ∧
      (res0.ret ≠ 0 →
        (r, buf_out) = try_alternatives s.knet_h s.crypto_modules_cmds buf_in
          (alternative_slots MAX s.knet_h) (res0.ret, res0.buf_out)) := by
  have hrange : ∀ i ∈ List.range' 1 MAX, i < s.knet_h.crypto_instance.length := by
    intro i hi
    rw [List.mem_range'_1] at hi
    omega
  obtain ⟨inst, hslot⟩ : ∃ inst,
      s.knet_h.crypto_instance[s.knet_h.crypto_in_use_config]? = some (some inst) := by
    unfold occupied at huse
    split at huse
    · next inst hslot => exact ⟨inst, hslot⟩
    · exact absurd huse (by simp)
  obtain ⟨ops, hopsk⟩ := hops _ inst hslot
  have hcount := count_configs_spec s.knet_h (List.range' 1 MAX) 0 hrange
  rw [Nat.zero_add] at hcount
  refine ⟨ops.decrypt s.knet_h inst buf_in (first_log_level MAX s.knet_h), ?_⟩
  have hbd : backend_decrypt s.knet_h s.crypto_modules_cmds buf_in
      (s.knet_h.crypto_in_use_config, first_log_level MAX s.knet_h) =
      some (ops.decrypt s.knet_h inst buf_in (first_log_level MAX s.knet_h)) := by
    simp only [backend_decrypt, hslot, hopsk]
  unfold crypto_authenticate_and_decrypt
  simp only [hcount, hslot, hopsk]
  have hlvl : (if ((List.range' 1 MAX).filter (occupied s.knet_h)).length > 1
      then log_level_t.KNET_LOG_DEBUG else log_level_t.KNET_LOG_ERR) =
      first_log_level MAX s.knet_h := rfl
  rw [hlvl]
  by_cases hret : (ops.decrypt s.knet_h inst buf_in (first_log_level MAX s.knet_h)).ret = 0
  · rw [if_neg (not_not.mpr hret)]
    exact ⟨_, _, _, hbd, rfl, rfl, rfl, fun _ => ⟨rfl, rfl⟩, fun hne => absurd hret hne⟩
  · rw [if_pos hret]
    obtain ⟨s', hs', hh, ht⟩ := decrypt_alternatives_refines s.knet_h s.crypto_modules_cmds
      buf_in hops (List.range' 1 MAX)
      (ops.decrypt s.knet_h inst buf_in (first_log_level MAX s.knet_h)).ret
      (ops.decrypt s.knet_h inst buf_in (first_log_level MAX s.knet_h)).buf_out
      { s with errno := (ops.decrypt s.knet_h inst buf_in
                  (first_log_level MAX s.knet_h)).errno.getD s.errno,
               calls := s.calls ++ [call_t.decrypt s.knet_h.crypto_in_use_config
                  (first_log_level MAX s.knet_h)] }
      rfl rfl hrange
    exact ⟨_, _, s', hbd, hs', hh, ht, fun h0 => absurd h0 hret, fun _ => rfl⟩

/-- In a reachable state with a slot in use, the receive path has what it
needs: the array has `MAX + 1` entries, the slot in use is in `1..MAX` and is
occupied, and every installed instance has its operation table. -/
lemma reachable_receive_ready {MAX ABI NSS OPENSSL : Nat} {s : state}
    (hreach : reachable MAX ABI NSS OPENSSL s) (huse : s.knet_h.crypto_in_use_config ≠ 0) :
    s.knet_h.crypto_instance.length = MAX + 1 ∧
    1 ≤ s.knet_h.crypto_in_use_config ∧
    occupied s.knet_h s.knet_h.crypto_in_use_config = true ∧
    (∀ (i : Nat) (inst : crypto_instance),
      s.knet_h.crypto_instance[i]? = some (some inst) →
      ∃ ops, instance_ops s.crypto_modules_cmds inst = some ops) := by
  obtain ⟨⟨hlen, _, _, hocc⟩, htbl, hinst⟩ := reachable_state_inv hreach
  obtain ⟨inst, hslot, _⟩ := hocc huse
  exact ⟨hlen, by omega, occupied_of_slot.1 inst hslot,
    fun i inst hi => instance_ops_defined htbl hinst hi⟩

/-! ## Reachability of the concrete states -/

/-- The state `state_one` is reached by one `crypto_init` into slot 1. -/
lemma reachable_state_one : reachable 2 1 1 1 state_one :=
  reachable.init (tag_cfg "nss" "sha1" [7]) 1 env_ok (reachable.initial 0)
    (by decide) (by decide)
    (show crypto_init 1 state_initial (tag_cfg "nss" "sha1" [7]) 1 env_ok
        = some (0, state_one) by rfl)

/-- The state `state_two` is reached by a further `crypto_init` into slot 2. -/
lemma reachable_state_two : reachable 2 1 1 1 state_two :=
  reachable.init (tag_cfg "nss" "sha256" [9]) 2 env_ok reachable_state_one
    (by decide) (by decide)
    (show crypto_init 1 state_one (tag_cfg "nss" "sha256" [9]) 2 env_ok
        = some (0, state_two) by rfl)

/-- The state `state_two_fini_one` is reached by a further `crypto_fini(1)`. -/
lemma reachable_state_two_fini_one : reachable 2 1 1 1 state_two_fini_one :=
  reachable.fini 1 0 reachable_state_two (by decide)
    (show crypto_fini 2 state_two 1 0 = some state_two_fini_one by rfl)

/-- In `state_two` every installed instance has its operation table. -/
lemma state_two_ops (i : Nat) (inst : crypto_instance)
    (hocc : state_two.knet_h.crypto_instance[i]? = some (some inst)) :
    ∃ ops, instance_ops state_two.crypto_modules_cmds inst = some ops := by
  match i with
  | 0 => simp [state_two] at hocc
  | 1 =>
    simp [state_two] at hocc
    subst hocc
    exact ⟨tag_ops, rfl⟩
  | 2 =>
    simp [state_two] at hocc
    subst hocc
    exact ⟨tag_ops, rfl⟩
  | n + 3 => simp [state_two] at hocc

/-! ## Receive path -/

/-- C4: on a handle whose slot in use (in `1..MAX`) is occupied,
`crypto_authenticate_and_decrypt` returns, and it returns 0 if and only if
the backend `decrypt` of some installed instance in `1..MAX` accepts the
input (the slot in use at the level of the first attempt, the others at ERR);
when an attempt accepts, the output is that of the first accepting attempt
in the order: slot in use, then the other occupied slots in ascending slot
id.  In particular a packet rejected by the slot in use and accepted by
another installed slot is returned with 0. -/
theorem authenticate_and_decrypt_first_success (MAX : Nat) (s : state) (buf_in : List Nat)
    (hlen : s.knet_h.crypto_instance.length = MAX + 1)
    (h1 : 1 ≤ s.knet_h.crypto_in_use_config)
    (huse : occupied s.knet_h s.knet_h.crypto_in_use_config = true)
    (hops : ∀ (i : Nat) (inst : crypto_instance),
      s.knet_h.crypto_instance[i]? = some (some inst) →
      ∃ ops, instance_ops s.crypto_modules_cmds inst = some ops) :
    ∃ (r : Int) (buf_out : List Nat) (s' : state),
      crypto_authenticate_and_decrypt MAX s buf_in = some (r, buf_out, s') ∧
      (r = 0 ↔ ∃ i : Nat, 1 ≤ i ∧ i ≤ MAX ∧
        accepted s.knet_h s.crypto_modules_cmds buf_in
          (i, attempt_level MAX s.knet_h i) = true) ∧
      (∀ (a : Nat × log_level_t) (res : crypt_result),
        (decrypt_attempts MAX s.knet_h).find?
          (accepted s.knet_h s.crypto_modules_cmds buf_in) = some a →
        backend_decrypt s.knet_h s.crypto_modules_cmds buf_in a = some res →
        r = 0 ∧ buf_out = res.buf_out) ∧
      (∀ j : Nat, 1 ≤ j → j ≤ MAX → j ≠ s.knet_h.crypto_in_use_config →
        accepted s.knet_h s.crypto_modules_cmds buf_in
          (s.knet_h.crypto_in_use_config, first_log_level MAX s.knet_h) = false →
        accepted s.knet_h s.crypto_modules_cmds buf_in (j, log_level_t.KNET_LOG_ERR) = true →
        r = 0) := by
  obtain ⟨res0, r, buf_out, s', hbd0, hcall, _, _, hok, hfail⟩ :=
    authenticate_and_decrypt_outcome MAX s buf_in hlen huse hops
  have hkmax : s.knet_h.crypto_in_use_config ≤ MAX := by
    unfold occupied at huse
    split at huse
    · next inst hslot =>
      have := (List.getElem?_eq_some_iff.mp hslot).1
      omega
    · exact absurd huse (by simp)
  have hacc0 : accepted s.knet_h s.crypto_modules_cmds buf_in
      (s.knet_h.crypto_in_use_config, first_log_level MAX s.knet_h) = decide (res0.ret = 0) := by
    simp only [accepted, hbd0]
  have hmem : ∀ j : Nat, j ≠ s.knet_h.crypto_in_use_config → 1 ≤ j → j ≤ MAX →
      accepted s.knet_h s.crypto_modules_cmds buf_in (j, log_level_t.KNET_LOG_ERR) = true →
      j ∈ alternative_slots MAX s.knet_h := by
    intro j hne hj1 hjmax hacc
    unfold alternative_slots
    rw [List.mem_filter, List.mem_range'_1]
    refine ⟨⟨hj1, by omega⟩, ?_⟩
    have hocc : occupied s.knet_h j = true := by
      unfold accepted backend_decrypt at hacc
      unfold occupied
      split at hacc
      · next res hres =>
        split at hres
        · next inst hslot => simp only [hslot]
        · exact absurd hres (by simp)
      · exact absurd hacc (by simp)
    simp [is_alternative, hne, hocc]
  have hiff : r = 0 ↔ ∃ i : Nat, 1 ≤ i ∧ i ≤ MAX ∧
      accepted s.knet_h s.crypto_modules_cmds buf_in
        (i, attempt_level MAX s.knet_h i) = true := by
    by_cases hret : res0.ret = 0
    · obtain ⟨hr, _⟩ := hok hret
      constructor
      · intro _
        refine ⟨s.knet_h.crypto_in_use_config, h1, hkmax, ?_⟩
        simp only [attempt_level, if_true, hacc0, hret, decide_True]
      · intro _
        rw [hr, hret]
    · have htry := hfail hret
      have hr : r = (try_alternatives s.knet_h s.crypto_modules_cmds buf_in
          (alternative_slots MAX s.knet_h) (res0.ret, res0.buf_out)).1 := by
        rw [← htry]
      rw [hr, try_alternatives_success _ _ _ _ _ hret]
      constructor
      · rintro ⟨j, hj, hacc⟩
        unfold alternative_slots at hj
        rw [List.mem_filter, List.mem_range'_1] at hj
        obtain ⟨⟨hj1, hjmax⟩, halt⟩ := hj
        have hne : j ≠ s.knet_h.crypto_in_use_config := by
          simp only [is_alternative, Bool.and_eq_true, decide_eq_true_eq] at halt
          exact halt.1
        refine ⟨j, hj1, by omega, ?_⟩
        simp only [attempt_level, if_neg hne]
        exact hacc
      · rintro ⟨i, hi1, himax, hacc⟩
        by_cases hik : i = s.knet_h.crypto_in_use_config
        · subst hik
          simp only [attempt_level, if_true, hacc0, decide_eq_true_eq] at hacc
          exact absurd hacc hret
        · simp only [attempt_level, if_neg hik] at hacc
          exact ⟨i, hmem i hik hi1 himax hacc, hacc⟩
  refine ⟨r, buf_out, s', hcall, hiff, ?_, ?_⟩
  · intro a res hfind hres
    unfold decrypt_attempts at hfind
    rw [List.find?_cons_eq_some] at hfind
    rcases hfind with ⟨hacc, rfl⟩ | ⟨hrej, hfind⟩
    · rw [hbd0] at hres
      simp only [Option.some.injEq] at hres
      subst hres
      rw [hacc0, decide_eq_true_eq] at hacc
      obtain ⟨hr, hb⟩ := hok hacc
      exact ⟨by rw [hr, hacc], hb⟩
    · rw [hacc0] at hrej
      simp only [Bool.not_eq_true', decide_eq_false_iff_not] at hrej
      rw [List.find?_map] at hfind
      cases hfj : (alternative_slots MAX s.knet_h).find?
          (accepted s.knet_h s.crypto_modules_cmds buf_in ∘
            fun i => (i, log_level_t.KNET_LOG_ERR)) with
      | none =>
        rw [hfj] at hfind
        simp at hfind
      | some j =>
        rw [hfj] at hfind
        simp only [Option.map_some', Option.some.injEq] at hfind
        subst hfind
        have htry := hfail hrej
        rw [try_alternatives_first _ _ _ _ _ j res hfj hres] at htry
        simp only [Prod.mk.injEq] at htry
        exact htry
  · intro j hj1 hjmax hne _ hacc
    rw [hiff]
    refine ⟨j, hj1, hjmax, ?_⟩
    simp only [attempt_level, if_neg hne]
    exact hacc

/-- Witness for C4: in `state_two` slot 1 (key 7) is in use and slot 2 holds
key 9; a packet made with key 9 is rejected by slot 1, accepted by slot 2 and
returned with 0. -/
theorem authenticate_and_decrypt_first_success_witness :
    state_two.knet_h.crypto_instance.length = 2 + 1 ∧
    1 ≤ state_two.knet_h.crypto_in_use_config ∧
    occupied state_two.knet_h state_two.knet_h.crypto_in_use_config = true ∧
    (crypto_authenticate_and_decrypt 2 state_two [9, 72, 105]).map (fun p => (p.1, p.2.1))
      = some (0, [72, 105]) ∧
    ∃ (r : Int) (buf_out : List Nat) (s' : state),
      crypto_authenticate_and_decrypt 2 state_two [9, 72, 105] = some (r, buf_out, s') ∧
      (r = 0 ↔ ∃ i : Nat, 1 ≤ i ∧ i ≤ 2 ∧
        accepted state_two.knet_h state_two.crypto_modules_cmds [9, 72, 105]
          (i, attempt_level 2 state_two.knet_h i) = true) ∧
      (∀ (a : Nat × log_level_t) (res : crypt_result),
        (decrypt_attempts 2 state_two.knet_h).find?
          (accepted state_two.knet_h state_two.crypto_modules_cmds [9, 72, 105]) = some a →
        backend_decrypt state_two.knet_h state_two.crypto_modules_cmds [9, 72, 105] a
          = some res →
        r = 0 ∧ buf_out = res.buf_out) ∧
      (∀ j : Nat, 1 ≤ j → j ≤ 2 → j ≠ state_two.knet_h.crypto_in_use_config →
        accepted state_two.knet_h state_two.crypto_modules_cmds [9, 72, 105]
          (state_two.knet_h.crypto_in_use_config, first_log_level 2 state_two.knet_h)
          = false →
        accepted state_two.knet_h state_two.crypto_modules_cmds [9, 72, 105]
          (j, log_level_t.KNET_LOG_ERR) = true →
        r = 0) :=
  ⟨by rfl, by decide, by rfl, by rfl,
    authenticate_and_decrypt_first_success 2 state_two [9, 72, 105] (by rfl) (by decide)
      (by rfl) state_two_ops⟩

/-- C5: on a handle whose slot in use (in `1..MAX`) is occupied, when the
backend `decrypt` of every installed instance in `1..MAX` rejects the input,
`crypto_authenticate_and_decrypt` returns a non-zero value, namely the value
returned by the last attempt made: that of the highest-numbered occupied slot
other than the slot in use, or that of the slot in use when no other slot is
occupied. -/
theorem authenticate_and_decrypt_last_error (MAX : Nat) (s : state) (buf_in : List Nat)
    (hlen : s.knet_h.crypto_instance.length = MAX + 1)
    (h1 : 1 ≤ s.knet_h.crypto_in_use_config)
    (huse : occupied s.knet_h s.knet_h.crypto_in_use_config = true)
    (hops : ∀ (i : Nat) (inst : crypto_instance),
      s.knet_h.crypto_instance[i]? = some (some inst) →
      ∃ ops, instance_ops s.crypto_modules_cmds inst = some ops)
    (hrej : ∀ i : Nat, 1 ≤ i → i ≤ MAX →
      accepted s.knet_h s.crypto_modules_cmds buf_in
        (i, attempt_level MAX s.knet_h i) = false) :
    ∃ (r : Int) (buf_out : List Nat) (s' : state),
      crypto_authenticate_and_decrypt MAX s buf_in = some (r, buf_out, s') ∧
      r ≠ 0 ∧
      (∀ (j : Nat) (res : crypt_result), 1 ≤ j → j ≤ MAX →
        is_alternative s.knet_h j = true →
        (∀ j' : Nat, j < j' → j' ≤ MAX → is_alternative s.knet_h j' = false) →
        backend_decrypt s.knet_h s.crypto_modules_cmds buf_in
          (j, log_level_t.KNET_LOG_ERR) = some res →
        r = res.ret) ∧
      ((∀ j : Nat, 1 ≤ j → j ≤ MAX → is_alternative s.knet_h j = false) →
        ∀ res : crypt_result,
          backend_decrypt s.knet_h s.crypto_modules_cmds buf_in
            (s.knet_h.crypto_in_use_config, first_log_level MAX s.knet_h) = some res →
          r = res.ret) := by
  obtain ⟨res0, r, buf_out, s', hbd0, hcall, _, _, _, hfail⟩ :=
    authenticate_and_decrypt_outcome MAX s buf_in hlen huse hops
  have hkmax : s.knet_h.crypto_in_use_config ≤ MAX := by
    unfold occupied at huse
    split at huse
    · next inst hslot =>
      have := (List.getElem?_eq_some_iff.mp hslot).1
      omega
    · exact absurd huse (by simp)
  have hret : res0.ret ≠ 0 := by
    have h0 := hrej _ h1 hkmax
    simp only [attempt_level, if_true, accepted, hbd0, decide_eq_false_iff_not] at h0
    exact h0
  have htry := hfail hret
  have hall : ∀ i ∈ alternative_slots MAX s.knet_h,
      accepted s.knet_h s.crypto_modules_cmds buf_in (i, log_level_t.KNET_LOG_ERR) = false := by
    intro i hi
    unfold alternative_slots at hi
    rw [List.mem_filter, List.mem_range'_1] at hi
    obtain ⟨⟨hi1, himax⟩, halt⟩ := hi
    have hne : i ≠ s.knet_h.crypto_in_use_config := by
      simp only [is_alternative, Bool.and_eq_true, decide_eq_true_eq] at halt
      exact halt.1
    have := hrej i hi1 (by omega)
    simp only [attempt_level, if_neg hne] at this
    exact this
  refine ⟨r, buf_out, s', hcall, ?_, ?_, ?_⟩
  · intro hr0
    have hr : r = (try_alternatives s.knet_h s.crypto_modules_cmds buf_in
        (alternative_slots MAX s.knet_h) (res0.ret, res0.buf_out)).1 := by
      rw [← htry]
    rw [hr, try_alternatives_success _ _ _ _ _ hret] at hr0
    obtain ⟨j, hj, hacc⟩ := hr0
    rw [hall j hj] at hacc
    exact absurd hacc (by simp)
  · intro j res hj1 hjmax halt hhigh hres
    obtain ⟨pre, hpre⟩ := alternative_slots_last hj1 hjmax halt hhigh
    rw [hpre] at htry hall
    rw [try_alternatives_last _ _ _ j res hres pre _ hall] at htry
    simp only [Prod.mk.injEq] at htry
    exact htry.1
  · intro hnone res hres
    have hnil : alternative_slots MAX s.knet_h = [] := by
      unfold alternative_slots
      rw [List.filter_eq_nil_iff]
      intro j hj
      rw [List.mem_range'_1] at hj
      rw [hnone j hj.1 (by omega)]
      simp
    rw [hnil] at htry
    simp only [try_alternatives, Prod.mk.injEq] at htry
    rw [hbd0] at hres
    simp only [Option.some.injEq] at hres
    rw [← hres]
    exact htry.1

/-- Witness for C5: in `state_two` a packet made with key 5 is rejected by
both installed slots. -/
theorem authenticate_and_decrypt_last_error_witness :
    state_two.knet_h.crypto_instance.length = 2 + 1 ∧
    1 ≤ state_two.knet_h.crypto_in_use_config ∧
    occupied state_two.knet_h state_two.knet_h.crypto_in_use_config = true ∧
    (∀ i : Nat, 1 ≤ i → i ≤ 2 →
      accepted state_two.knet_h state_two.crypto_modules_cmds [5, 72, 105]
        (i, attempt_level 2 state_two.knet_h i) = false) ∧
    (crypto_authenticate_and_decrypt 2 state_two [5, 72, 105]).map (fun p => p.1)
      = some (-1) ∧
    ∃ (r : Int) (buf_out : List Nat) (s' : state),
      crypto_authenticate_and_decrypt 2 state_two [5, 72, 105] = some (r, buf_out, s') ∧
      r ≠ 0 ∧
      (∀ (j : Nat) (res : crypt_result), 1 ≤ j → j ≤ 2 →
        is_alternative state_two.knet_h j = true →
        (∀ j' : Nat, j < j' → j' ≤ 2 → is_alternative state_two.knet_h j' = false) →
        backend_decrypt state_two.knet_h state_two.crypto_modules_cmds [5, 72, 105]
          (j, log_level_t.KNET_LOG_ERR) = some res →
        r = res.ret) ∧
      ((∀ j : Nat, 1 ≤ j → j ≤ 2 → is_alternative state_two.knet_h j = false) →
        ∀ res : crypt_result,
          backend_decrypt state_two.knet_h state_two.crypto_modules_cmds [5, 72, 105]
            (state_two.knet_h.crypto_in_use_config, first_log_level 2 state_two.knet_h)
            = some res →
          r = res.ret) :=
  have hrej : ∀ i : Nat, 1 ≤ i → i ≤ 2 →
      accepted state_two.knet_h state_two.crypto_modules_cmds [5, 72, 105]
        (i, attempt_level 2 state_two.knet_h i) = false := by
    intro i hi1 hi2
    have hi : i = 1 ∨ i = 2 := by omega
    rcases hi with rfl | rfl <;> rfl
  ⟨by rfl, by decide, by rfl, hrej, by rfl,
    authenticate_and_decrypt_last_error 2 state_two [5, 72, 105] (by rfl) (by decide)
      (by rfl) state_two_ops hrej⟩

/-! ## Round trip through the slot in use -/

/-- C6: on a handle whose slot in use holds an instance whose backend
encrypts `m` successfully and decrypts the result back to `m` (at either log
level), `crypto_encrypt_and_sign` returns 0 with a packet on which
`crypto_authenticate_and_decrypt` returns 0 with output `m`, whatever the
other slots hold. -/
theorem encrypt_then_decrypt_roundtrip (MAX : Nat) (s : state) (m : List Nat)
    (inst : crypto_instance) (ops : crypto_ops_t)
    (hlen : s.knet_h.crypto_instance.length = MAX + 1)
    (hslot : s.knet_h.crypto_instance[s.knet_h.crypto_in_use_config]? = some (some inst))
    (hopsk : instance_ops s.crypto_modules_cmds inst = some ops)
    (hcrypt : (ops.crypt s.knet_h inst m).ret = 0)
    (hround : ∀ lvl : log_level_t,
      (ops.decrypt s.knet_h inst (ops.crypt s.knet_h inst m).buf_out lvl).ret = 0 ∧
      (ops.decrypt s.knet_h inst (ops.crypt s.knet_h inst m).buf_out lvl).buf_out = m) :
    ∃ (packet : List Nat) (s1 s2 : state),
      crypto_encrypt_and_sign s m = some (0, packet, s1) ∧
      crypto_authenticate_and_decrypt MAX s1 packet = some (0, m, s2) := by
  have hrange : ∀ i ∈ List.range' 1 MAX, i < s.knet_h.crypto_instance.length := by
    intro i hi
    rw [List.mem_range'_1] at hi
    omega
  have hcount := count_configs_spec s.knet_h (List.range' 1 MAX) 0 hrange
  refine ⟨(ops.crypt s.knet_h inst m).buf_out,
    { s with errno := (ops.crypt s.knet_h inst m).errno.getD s.errno,
             calls := s.calls ++ [call_t.crypt s.knet_h.crypto_in_use_config] }, ?_⟩
  have henc : crypto_encrypt_and_sign s m = some (0, (ops.crypt s.knet_h inst m).buf_out,
      { s with errno := (ops.crypt s.knet_h inst m).errno.getD s.errno,
               calls := s.calls ++ [call_t.crypt s.knet_h.crypto_in_use_config] }) := by
    simp only [crypto_encrypt_and_sign, hslot, hopsk, hcrypt]
  unfold crypto_authenticate_and_decrypt
  simp only [hcount, hslot, hopsk]
  obtain ⟨hr, hb⟩ := hround (if 0 + ((List.range' 1 MAX).filter (occupied s.knet_h)).length > 1
    then log_level_t.KNET_LOG_DEBUG else log_level_t.KNET_LOG_ERR)
  simp only [hr, hb, ne_eq, not_true_eq_false, if_false]
  exact ⟨_, henc, rfl⟩

/-- The bytes of "Hello world!" with the terminating NUL (13 bytes). -/
lemma hello_world_length :
    ([72, 101, 108, 108, 111, 32, 119, 111, 114, 108, 100, 33, 0] : List Nat).length = 13 := by
  rfl

/-- Witness for C6: "Hello world!" (13 bytes with the NUL) through slot 1 of
`state_one`. -/
theorem encrypt_then_decrypt_roundtrip_witness :
    state_one.knet_h.crypto_instance.length = 2 + 1 ∧
    state_one.knet_h.crypto_instance[state_one.knet_h.crypto_in_use_config]? =
      some (some (tag_instance 7 20)) ∧
    state_one.knet_h.crypto_in_use_config = 1 ∧
    instance_ops state_one.crypto_modules_cmds (tag_instance 7 20) = some tag_ops ∧
    ∃ (packet : List Nat) (s1 s2 : state),
      crypto_encrypt_and_sign state_one
        [72, 101, 108, 108, 111, 32, 119, 111, 114, 108, 100, 33, 0] = some (0, packet, s1) ∧
      crypto_authenticate_and_decrypt 2 s1 packet =
        some (0, [72, 101, 108, 108, 111, 32, 119, 111, 114, 108, 100, 33, 0], s2) :=
  ⟨by rfl, by rfl, by rfl, by rfl,
    encrypt_then_decrypt_roundtrip 2 state_one
      [72, 101, 108, 108, 111, 32, 119, 111, 114, 108, 100, 33, 0]
      (tag_instance 7 20) tag_ops (by rfl) (by rfl) (by rfl) (by rfl)
      (fun lvl => ⟨by rfl, by rfl⟩)⟩

/-! ## Invariants of the slot in use -/

/-- C1 as stated fails: after `crypto_init` into slots 1 and 2 and
`crypto_fini(1)` on the slot in use, slot 2 is still occupied but the slot in
use is 0. -/
theorem in_use_iff_some_slot_counterexample :
    reachable 2 1 1 1 state_two_fini_one ∧
    state_two_fini_one.knet_h.crypto_in_use_config = 0 ∧
    state_two_fini_one.knet_h.crypto_instance[2]? = some (some (tag_instance 9 32)) ∧
    ¬ (state_two_fini_one.knet_h.crypto_in_use_config ≠ 0 ↔
        ∃ i : Nat, 1 ≤ i ∧ i ≤ 2 ∧
          ∃ inst, state_two_fini_one.knet_h.crypto_instance[i]? = some (some inst)) := by
  refine ⟨reachable_state_two_fini_one, rfl, rfl, ?_⟩
  intro hiff
  exact hiff.mpr ⟨2, by decide, by decide, tag_instance 9 32, rfl⟩ rfl

/-- C1 (amended): in every reachable state the slot in use is non-zero if
and only if the slot it designates is occupied; hence a non-zero slot in use
implies that some slot in `1..MAX` is occupied. -/
theorem in_use_iff_its_slot_occupied (MAX ABI NSS OPENSSL : Nat) (s : state)
    (hreach : reachable MAX ABI NSS OPENSSL s) :
    (s.knet_h.crypto_in_use_config ≠ 0 ↔
      ∃ inst, s.knet_h.crypto_instance[s.knet_h.crypto_in_use_config]? = some (some inst)) ∧
    (s.knet_h.crypto_in_use_config ≠ 0 →
      ∃ i : Nat, 1 ≤ i ∧ i ≤ MAX ∧
        ∃ inst, s.knet_h.crypto_instance[i]? = some (some inst)) := by
  obtain ⟨hlen, hzero, _, huse⟩ := reachable_handle_inv hreach
  refine ⟨⟨?_, ?_⟩, ?_⟩
  · intro hne
    obtain ⟨inst, hocc, _⟩ := huse hne
    exact ⟨inst, hocc⟩
  · rintro ⟨inst, hocc⟩ h0
    rw [h0, hzero] at hocc
    simp at hocc
  · intro hne
    obtain ⟨inst, hocc, _⟩ := huse hne
    have hlt := (List.getElem?_eq_some_iff.mp hocc).1
    exact ⟨s.knet_h.crypto_in_use_config, by omega, by omega, inst, hocc⟩

/-- Witness for the amended C1 on `state_one` (slot 1 installed and in use). -/
theorem in_use_iff_its_slot_occupied_witness :
    reachable 2 1 1 1 state_one ∧
    (state_one.knet_h.crypto_in_use_config ≠ 0 ↔
      ∃ inst, state_one.knet_h.crypto_instance[state_one.knet_h.crypto_in_use_config]?
        = some (some inst)) ∧
    (state_one.knet_h.crypto_in_use_config ≠ 0 →
      ∃ i : Nat, 1 ≤ i ∧ i ≤ 2 ∧
        ∃ inst, state_one.knet_h.crypto_instance[i]? = some (some inst)) :=
  ⟨reachable_state_one, in_use_iff_its_slot_occupied 2 1 1 1 state_one reachable_state_one⟩

/-- C2: in every reachable state, if the slot in use is `k ≠ 0` then slot `k`
holds an instance and the handle-wide block, hash and salt sizes are those of
that instance; and if the slot in use is 0 the three handle-wide sizes are 0. -/
theorem sizes_follow_in_use (MAX ABI NSS OPENSSL : Nat) (s : state)
    (hreach : reachable MAX ABI NSS OPENSSL s) :
    (∀ k : Nat, s.knet_h.crypto_in_use_config = k → k ≠ 0 →
      ∃ inst, s.knet_h.crypto_instance[k]? = some (some inst) ∧
        s.knet_h.sec_block_size = inst.sec_block_size ∧
        s.knet_h.sec_hash_size = inst.sec_hash_size ∧
        s.knet_h.sec_salt_size = inst.sec_salt_size) ∧
    (s.knet_h.crypto_in_use_config = 0 →
      s.knet_h.sec_block_size = 0 ∧ s.knet_h.sec_hash_size = 0 ∧
      s.knet_h.sec_salt_size = 0) := by
  obtain ⟨_, _, hnone, huse⟩ := reachable_handle_inv hreach
  refine ⟨?_, hnone⟩
  rintro k rfl hk
  exact huse hk

/-- Witness for C2 on `state_two`: slot 1 is in use and the handle-wide
sizes are those of its instance, not those of slot 2. -/
theorem sizes_follow_in_use_witness :
    reachable 2 1 1 1 state_two ∧
    (∀ k : Nat, state_two.knet_h.crypto_in_use_config = k → k ≠ 0 →
      ∃ inst, state_two.knet_h.crypto_instance[k]? = some (some inst) ∧
        state_two.knet_h.sec_block_size = inst.sec_block_size ∧
        state_two.knet_h.sec_hash_size = inst.sec_hash_size ∧
        state_two.knet_h.sec_salt_size = inst.sec_salt_size) ∧
    (state_two.knet_h.crypto_in_use_config = 0 →
      state_two.knet_h.sec_block_size = 0 ∧
      state_two.knet_h.sec_hash_size = 0 ∧
      state_two.knet_h.sec_salt_size = 0) :=
  ⟨reachable_state_two, sizes_follow_in_use 2 1 1 1 state_two reachable_state_two⟩

/-! ## crypto_use_config -/

/-- C8: on an occupied slot `crypto_use_config` returns 0, makes the slot the
one in use, copies the three sizes of its instance to the handle and leaves
the slot table (and the backend table, `errno` and the recorded calls)
unchanged. -/
theorem crypto_use_config_occupied (s : state) (config_num : Nat) (inst : crypto_instance)
    (hocc : s.knet_h.crypto_instance[config_num]? = some (some inst)) :
    ∃ s', crypto_use_config s config_num = some (0, s') ∧
      s'.knet_h.crypto_in_use_config = config_num ∧
      s'.knet_h.sec_block_size = inst.sec_block_size ∧
      s'.knet_h.sec_hash_size = inst.sec_hash_size ∧
      s'.knet_h.sec_salt_size = inst.sec_salt_size ∧
      s'.knet_h.crypto_instance = s.knet_h.crypto_instance ∧
      s'.crypto_modules_cmds = s.crypto_modules_cmds ∧
      s'.errno = s.errno ∧ s'.calls = s.calls := by
  refine ⟨{ s with knet_h :=
      { s.knet_h with crypto_in_use_config := config_num,
                      sec_block_size := inst.sec_block_size,
                      sec_hash_size := inst.sec_hash_size,
                      sec_salt_size := inst.sec_salt_size } }, ?_,
    rfl, rfl, rfl, rfl, rfl, rfl, rfl, rfl⟩
  simp only [crypto_use_config, hocc]

/-- Witness for C8: switching `state_two` (slot 1 in use) to slot 2. -/
theorem crypto_use_config_occupied_witness :
    state_two.knet_h.crypto_instance[2]? = some (some (tag_instance 9 32)) ∧
    ∃ s', crypto_use_config state_two 2 = some (0, s') ∧
      s'.knet_h.crypto_in_use_config = 2 ∧
      s'.knet_h.sec_block_size = (tag_instance 9 32).sec_block_size ∧
      s'.knet_h.sec_hash_size = (tag_instance 9 32).sec_hash_size ∧
      s'.knet_h.sec_salt_size = (tag_instance 9 32).sec_salt_size ∧
      s'.knet_h.crypto_instance = state_two.knet_h.crypto_instance ∧
      s'.crypto_modules_cmds = state_two.crypto_modules_cmds ∧
      s'.errno = state_two.errno ∧ s'.calls = state_two.calls :=
  ⟨by rfl, crypto_use_config_occupied state_two 2 (tag_instance 9 32) (by rfl)⟩

/-- C9: on an empty slot `crypto_use_config` returns -1, sets `errno` to
`EINVAL` and changes nothing else; and whenever it returns a non-zero value
the slot is empty. -/
theorem crypto_use_config_empty (s : state) (config_num : Nat) :
    (s.knet_h.crypto_instance[config_num]? = some none →
      crypto_use_config s config_num = some (-1, { s with errno := EINVAL })) ∧
    (∀ r s', crypto_use_config s config_num = some (r, s') → r ≠ 0 →
      s.knet_h.crypto_instance[config_num]? = some none) := by
  constructor
  · intro hemp
    simp only [crypto_use_config, hemp]
  · intro r s' hcall hr
    unfold crypto_use_config at hcall
    split at hcall
    · exact absurd hcall (by simp)
    · assumption
    · simp only [Option.some.injEq, Prod.mk.injEq] at hcall
      exact absurd hcall.1.symm hr

/-- Witness for C9: slot 2 of `state_one` is empty. -/
theorem crypto_use_config_empty_witness :
    (state_one.knet_h.crypto_instance[2]? = some none →
      crypto_use_config state_one 2 = some (-1, { state_one with errno := EINVAL })) ∧
    (∀ r s', crypto_use_config state_one 2 = some (r, s') → r ≠ 0 →
      state_one.knet_h.crypto_instance[2]? = some none) ∧
    state_one.knet_h.crypto_instance[2]? = some none ∧
    crypto_use_config state_one 2 = some (-1, { state_one with errno := EINVAL }) ∧
    (-1 : Int) ≠ 0 :=
  ⟨(crypto_use_config_empty state_one 2).1, (crypto_use_config_empty state_one 2).2,
    by rfl, (crypto_use_config_empty state_one 2).1 (by rfl), by decide⟩

/-- C10: calling `crypto_use_config` on the same slot twice in a row gives
the same return value and the same state as calling it once (also where the
call is undefined). -/
theorem crypto_use_config_idempotent (s : state) (config_num : Nat) :
    (crypto_use_config s config_num).bind (fun p => crypto_use_config p.2 config_num) =
      crypto_use_config s config_num := by
  unfold crypto_use_config
  split
  · rfl
  · next hemp => simp [hemp]
  · next inst hocc => simp [hocc]

/-! ## crypto_fini on one slot -/

/-- Writing NULL into a slot that is already empty leaves the array as it
is. -/
lemma set_none_of_empty {l : List (Option crypto_instance)} {k : Nat}
    (hemp : l[k]? = some none) : l.set k none = l := by
  apply List.ext_getElem?
  intro n
  by_cases hkn : k = n
  · subst hkn
    rw [List.getElem?_set_self (List.getElem?_eq_some_iff.mp hemp).1, hemp]
  · rw [List.getElem?_set_ne hkn]

/-- The handle after `crypto_fini_clear`, field by field. -/
lemma crypto_fini_clear_fields (h : knet_handle) (k : Nat) (hk : k ≠ 0) :
    (h.crypto_in_use_config = k →
      (crypto_fini_clear h k).crypto_in_use_config = 0 ∧
      (crypto_fini_clear h k).sec_block_size = 0 ∧
      (crypto_fini_clear h k).sec_hash_size = 0 ∧
      (crypto_fini_clear h k).sec_salt_size = 0) ∧
    (h.crypto_in_use_config ≠ k →
      (crypto_fini_clear h k).crypto_in_use_config = h.crypto_in_use_config ∧
      (crypto_fini_clear h k).sec_block_size = h.sec_block_size ∧
      (crypto_fini_clear h k).sec_hash_size = h.sec_hash_size ∧
      (crypto_fini_clear h k).sec_salt_size = h.sec_salt_size) ∧
    (crypto_fini_clear h k).crypto_in_use_config ≠ k := by
  unfold crypto_fini_clear
  simp only
  by_cases huse : h.crypto_in_use_config = k
  · rw [if_pos huse]
    exact ⟨fun _ => ⟨rfl, rfl, rfl, rfl⟩, fun hne => absurd huse hne, fun h0 => hk h0.symm⟩
  · rw [if_neg huse]
    exact ⟨fun he => absurd he huse, fun _ => ⟨rfl, rfl, rfl, rfl⟩, huse⟩

/-- What `crypto_fini` on a slot id other than 0 does once the write lock is
acquired, on a slot inside the array whose instance, if any, has its
operation table: the call returns, the backend table is untouched, the slot
is NULL afterwards and the rest of the array is as before; the slot in use
becomes 0 if it was this slot and is kept otherwise; the handle-wide sizes
are zeroed if the slot was occupied and in use, and kept if it was not the
slot in use. -/
lemma crypto_fini_slot_spec (MAX : Nat) {s : state} {k : Nat} (hk : k ≠ 0)
    (hlt : k < s.knet_h.crypto_instance.length)
    (hops : ∀ inst, s.knet_h.crypto_instance[k]? = some (some inst) →
      ∃ ops, instance_ops s.crypto_modules_cmds inst = some ops) :
    ∃ s', crypto_fini MAX s k 0 = some s' ∧
      s'.crypto_modules_cmds = s.crypto_modules_cmds ∧
      s'.knet_h.crypto_instance = s.knet_h.crypto_instance.set k none ∧
      (s.knet_h.crypto_in_use_config = k → s'.knet_h.crypto_in_use_config = 0) ∧
      (s.knet_h.crypto_in_use_config ≠ k →
        s'.knet_h.crypto_in_use_config = s.knet_h.crypto_in_use_config ∧
        s'.knet_h.sec_block_size = s.knet_h.sec_block_size ∧
        s'.knet_h.sec_hash_size = s.knet_h.sec_hash_size ∧
        s'.knet_h.sec_salt_size = s.knet_h.sec_salt_size) ∧
      (∀ inst, s.knet_h.crypto_instance[k]? = some (some inst) →
        s.knet_h.crypto_in_use_config = k →
        s'.knet_h.sec_block_size = 0 ∧ s'.knet_h.sec_hash_size = 0 ∧
        s'.knet_h.sec_salt_size = 0) := by
  obtain ⟨slot, hslot⟩ : ∃ c, s.knet_h.crypto_instance[k]? = some c :=
    ⟨_, List.getElem?_eq_getElem hlt⟩
  cases slot with
  | none =>
    have hconf : crypto_fini_config s k = some s := by
      simp only [crypto_fini_config, hslot]
    unfold crypto_fini
    simp only [ne_eq, not_true_eq_false, if_false, hk, hconf]
    by_cases huse : s.knet_h.crypto_in_use_config = k
    · rw [if_pos huse]
      refine ⟨_, rfl, rfl, (set_none_of_empty hslot).symm, fun _ => rfl,
        fun hne => absurd huse hne, ?_⟩
      intro inst hocc
      rw [hslot] at hocc
      simp at hocc
    · rw [if_neg huse]
      refine ⟨_, rfl, rfl, (set_none_of_empty hslot).symm, fun he => absurd he huse,
        fun _ => ⟨rfl, rfl, rfl, rfl⟩, ?_⟩
      intro inst hocc
      rw [hslot] at hocc
      simp at hocc
  | some inst =>
    obtain ⟨ops, hopsk⟩ := hops inst hslot
    obtain ⟨huse_k, hother, hnot⟩ := crypto_fini_clear_fields s.knet_h k hk
    have hconf : ∃ s1, crypto_fini_config s k = some s1 ∧
        s1.knet_h = crypto_fini_clear s.knet_h k ∧
        s1.crypto_modules_cmds = s.crypto_modules_cmds := by
      simp only [crypto_fini_config, hslot, hopsk]
      cases ops.fini <;> exact ⟨_, rfl, rfl, rfl⟩
    obtain ⟨s1, hs1, hh1, ht1⟩ := hconf
    unfold crypto_fini
    simp only [ne_eq, not_true_eq_false, if_false, hk, hs1]
    have hne : ¬ s1.knet_h.crypto_in_use_config = k := by rw [hh1]; exact hnot
    rw [if_neg hne]
    refine ⟨s1, rfl, ht1, ?_, ?_, ?_, ?_⟩
    · rw [hh1, crypto_fini_clear_slots]
    · intro he
      rw [hh1]
      exact (huse_k he).1
    · intro he
      rw [hh1]
      exact hother he
    · intro _ _ he
      rw [hh1]
      exact (huse_k he).2

/-- C11: once the write lock is acquired, `crypto_fini(k)` on a slot
`k` in `1..MAX` returns, leaves slot `k` empty and every other slot
unchanged; if the slot in use was `k` it becomes 0 and the three handle-wide
sizes become 0; if it was not `k`, the slot in use and the three sizes are
unchanged.  The handle is one in which a slot in use is occupied, and the
instance in slot `k`, if any, has its backend operation table. -/
theorem crypto_fini_slot_effect (MAX : Nat) (s : state) (k : Nat)
    (h1 : 1 ≤ k) (hmax : k ≤ MAX)
    (hlen : s.knet_h.crypto_instance.length = MAX + 1)
    (hops : ∀ inst, s.knet_h.crypto_instance[k]? = some (some inst) →
      ∃ ops, instance_ops s.crypto_modules_cmds inst = some ops)
    (hinv : s.knet_h.crypto_in_use_config = k →
      ∃ inst, s.knet_h.crypto_instance[k]? = some (some inst)) :
    ∃ s', crypto_fini MAX s k 0 = some s' ∧
      s'.knet_h.crypto_instance[k]? = some none ∧
      (∀ j : Nat, j ≠ k → s'.knet_h.crypto_instance[j]? = s.knet_h.crypto_instance[j]?) ∧
      s'.knet_h.crypto_instance.length = s.knet_h.crypto_instance.length ∧
      (s.knet_h.crypto_in_use_config = k →
        s'.knet_h.crypto_in_use_config = 0 ∧
        s'.knet_h.sec_block_size = 0 ∧ s'.knet_h.sec_hash_size = 0 ∧
        s'.knet_h.sec_salt_size = 0) ∧
      (s.knet_h.crypto_in_use_config ≠ k →
        s'.knet_h.crypto_in_use_config = s.knet_h.crypto_in_use_config ∧
        s'.knet_h.sec_block_size = s.knet_h.sec_block_size ∧
        s'.knet_h.sec_hash_size = s.knet_h.sec_hash_size ∧
        s'.knet_h.sec_salt_size = s.knet_h.sec_salt_size) := by
  have hlt : k < s.knet_h.crypto_instance.length := by omega
  obtain ⟨s', hcall, _, hslots, huse, hother, hsizes⟩ :=
    crypto_fini_slot_spec MAX (show k ≠ 0 by omega) hlt hops
  refine ⟨s', hcall, ?_, ?_, ?_, ?_, hother⟩
  · rw [hslots, List.getElem?_set_self hlt]
  · intro j hj
    rw [hslots, List.getElem?_set_ne (Ne.symm hj)]
  · rw [hslots, List.length_set]
  · intro he
    obtain ⟨inst, hocc⟩ := hinv he
    exact ⟨huse he, hsizes inst hocc he⟩

/-- Witness for C11: `crypto_fini(1)` on `state_two`, where slot 1 is in use
and slot 2 is installed too, gives `state_two_fini_one`. -/
theorem crypto_fini_slot_effect_witness :
    state_two.knet_h.crypto_instance.length = 2 + 1 ∧
    state_two.knet_h.crypto_in_use_config = 1 ∧
    crypto_fini 2 state_two 1 0 = some state_two_fini_one ∧
    ∃ s', crypto_fini 2 state_two 1 0 = some s' ∧
      s'.knet_h.crypto_instance[1]? = some none ∧
      (∀ j : Nat, j ≠ 1 →
        s'.knet_h.crypto_instance[j]? = state_two.knet_h.crypto_instance[j]?) ∧
      s'.knet_h.crypto_instance.length = state_two.knet_h.crypto_instance.length ∧
      (state_two.knet_h.crypto_in_use_config = 1 →
        s'.knet_h.crypto_in_use_config = 0 ∧
        s'.knet_h.sec_block_size = 0 ∧ s'.knet_h.sec_hash_size = 0 ∧
        s'.knet_h.sec_salt_size = 0) ∧
      (state_two.knet_h.crypto_in_use_config ≠ 1 →
        s'.knet_h.crypto_in_use_config = state_two.knet_h.crypto_in_use_config ∧
        s'.knet_h.sec_block_size = state_two.knet_h.sec_block_size ∧
        s'.knet_h.sec_hash_size = state_two.knet_h.sec_hash_size ∧
        s'.knet_h.sec_salt_size = state_two.knet_h.sec_salt_size) :=
  ⟨by rfl, by rfl, by rfl,
    crypto_fini_slot_effect 2 state_two 1 (by decide) (by decide) (by rfl)
      (fun inst hocc => state_two_ops 1 inst hocc)
      (fun _ => ⟨tag_instance 7 20, by rfl⟩)⟩

/-! ## crypto_fini on all slots -/

/-- The function `crypto_fini_config` is defined on a slot inside the array
whose instance, if any, has its operation table. -/
lemma crypto_fini_config_defined_of_ops {s : state} {k : Nat}
    (hlt : k < s.knet_h.crypto_instance.length)
    (hops : ∀ inst, s.knet_h.crypto_instance[k]? = some (some inst) →
      ∃ ops, instance_ops s.crypto_modules_cmds inst = some ops) :
    ∃ s', crypto_fini_config s k = some s' := by
  obtain ⟨slot, hslot⟩ : ∃ c, s.knet_h.crypto_instance[k]? = some c :=
    ⟨_, List.getElem?_eq_getElem hlt⟩
  unfold crypto_fini_config
  cases slot with
  | none => simp only [hslot]; exact ⟨_, rfl⟩
  | some inst =>
    obtain ⟨ops, hopsk⟩ := hops inst hslot
    simp only [hslot, hopsk]
    exact ⟨_, rfl⟩

/-- After `crypto_fini_config` every slot holds what it held before or is
empty. -/
lemma crypto_fini_config_slots {s s' : state} {k : Nat}
    (hcall : crypto_fini_config s k = some s') (i : Nat) :
    s'.knet_h.crypto_instance[i]? = s.knet_h.crypto_instance[i]? ∨
    s'.knet_h.crypto_instance[i]? = some none := by
  obtain ⟨_, hlt, hres⟩ := crypto_fini_config_spec hcall
  rcases hres with ⟨_, rfl⟩ | ⟨inst, _, hh⟩
  · exact Or.inl rfl
  · rw [hh, crypto_fini_clear_slots]
    by_cases hki : k = i
    · subst hki
      exact Or.inr (List.getElem?_set_self hlt)
    · exact Or.inl (List.getElem?_set_ne hki)

/-- The loop of `crypto_fini(0)` is defined when it stays inside the array
and every installed instance has its operation table. -/
lemma crypto_fini_all_defined_of_ops :
    ∀ (l : List Nat) (s : state), (∀ i ∈ l, i < s.knet_h.crypto_instance.length) →
      (∀ (i : Nat) (inst : crypto_instance), s.knet_h.crypto_instance[i]? = some (some inst) →
        ∃ ops, instance_ops s.crypto_modules_cmds inst = some ops) →
      ∃ s', crypto_fini_all l s = some s' := by
  intro l
  induction l with
  | nil => intro s _ _; exact ⟨s, rfl⟩
  | cons k rest ih =>
    intro s hl hops
    obtain ⟨s1, hs1⟩ := crypto_fini_config_defined_of_ops (hl k (List.mem_cons_self k rest))
      (fun inst hocc => hops k inst hocc)
    unfold crypto_fini_all
    simp only [hs1]
    apply ih
    · intro i hi
      rw [(crypto_fini_config_empties hs1).2.1]
      exact hl i (List.mem_cons_of_mem k hi)
    · intro i inst hocc
      rw [(crypto_fini_config_spec hs1).1]
      rcases crypto_fini_config_slots hs1 i with hsame | hemp
      · rw [hsame] at hocc
        exact hops i inst hocc
      · rw [hemp] at hocc
        simp at hocc

/-- The loop of `crypto_fini(0)` leaves every slot it visited empty. -/
lemma crypto_fini_all_empties :
    ∀ (l : List Nat) (s s' : state), crypto_fini_all l s = some s' →
      (∀ i : Nat, i ∈ l → s'.knet_h.crypto_instance[i]? = some none) ∧
      (∀ i : Nat, s.knet_h.crypto_instance[i]? = some none →
        s'.knet_h.crypto_instance[i]? = some none) := by
  intro l
  induction l with
  | nil =>
    intro s s' hcall
    simp only [crypto_fini_all, Option.some.injEq] at hcall
    subst hcall
    exact ⟨fun i hi => absurd hi (List.not_mem_nil i), fun i hi => hi⟩
  | cons k rest ih =>
    intro s s' hcall
    unfold crypto_fini_all at hcall
    split at hcall
    · exact absurd hcall (by simp)
    · next s1 hs1 =>
      obtain ⟨hvis, hkeep⟩ := ih s1 s' hcall
      obtain ⟨hk, _, hkeep1⟩ := crypto_fini_config_empties hs1
      refine ⟨?_, fun i hi => hkeep i (hkeep1 i hi)⟩
      intro i hi
      rcases List.mem_cons.mp hi with rfl | hi
      · exact hkeep i hk
      · exact hvis i hi

/-- On slots that are all empty the loop of `crypto_fini(0)` does nothing. -/
lemma crypto_fini_all_noop :
    ∀ (l : List Nat) (s : state), (∀ i : Nat, i ∈ l → s.knet_h.crypto_instance[i]? = some none) →
      crypto_fini_all l s = some s := by
  intro l
  induction l with
  | nil => intro s _; rfl
  | cons k rest ih =>
    intro s hl
    have hk := hl k (List.mem_cons_self k rest)
    have hconf : crypto_fini_config s k = some s := by
      simp only [crypto_fini_config, hk]
    unfold crypto_fini_all
    simp only [hconf]
    exact ih s (fun i hi => hl i (List.mem_cons_of_mem k hi))

/-- C12: once the write lock is acquired, `crypto_fini(0)` returns with every
slot in `1..MAX` empty and the slot in use 0; and a second `crypto_fini(0)`,
whether or not it gets the lock, returns the state produced by the first
unchanged, so it records no call of a backend `fini` hook.  The handle has
`MAX + 1` entries and every installed instance has its backend operation
table. -/
theorem crypto_fini_all_idempotent (MAX : Nat) (s : state)
    (hlen : s.knet_h.crypto_instance.length = MAX + 1)
    (hops : ∀ (i : Nat) (inst : crypto_instance),
      s.knet_h.crypto_instance[i]? = some (some inst) →
      ∃ ops, instance_ops s.crypto_modules_cmds inst = some ops) :
    ∃ s1, crypto_fini MAX s 0 0 = some s1 ∧
      (∀ i : Nat, 1 ≤ i → i ≤ MAX → s1.knet_h.crypto_instance[i]? = some none) ∧
      s1.knet_h.crypto_in_use_config = 0 ∧
      (∀ wrlock : Nat, crypto_fini MAX s1 0 wrlock = some s1) ∧
      (∀ (wrlock : Nat) (s2 : state), crypto_fini MAX s1 0 wrlock = some s2 →
        s2.knet_h = s1.knet_h ∧ s2.calls = s1.calls) := by
  have hrange : ∀ i ∈ List.range' 1 MAX, i < s.knet_h.crypto_instance.length := by
    intro i hi
    rw [List.mem_range'_1] at hi
    omega
  obtain ⟨s0, hs0⟩ := crypto_fini_all_defined_of_ops (List.range' 1 MAX) s hrange hops
  obtain ⟨hvis, _⟩ := crypto_fini_all_empties _ s s0 hs0
  have hfirst : crypto_fini MAX s 0 0 =
      some { s0 with knet_h := { s0.knet_h with crypto_in_use_config := 0 } } := by
    unfold crypto_fini
    simp only [ne_eq, not_true_eq_false, if_false, if_true, hs0]
  have hempty : ∀ i : Nat, i ∈ List.range' 1 MAX →
      ({ s0 with knet_h := { s0.knet_h with crypto_in_use_config := 0 } } :
        state).knet_h.crypto_instance[i]? = some none := hvis
  have hsecond : ∀ wrlock : Nat,
      crypto_fini MAX { s0 with knet_h := { s0.knet_h with crypto_in_use_config := 0 } }
        0 wrlock =
      some { s0 with knet_h := { s0.knet_h with crypto_in_use_config := 0 } } := by
    intro wrlock
    unfold crypto_fini
    by_cases hw : wrlock ≠ 0
    · rw [if_pos hw]
    · rw [if_neg hw]
      simp only [if_true, crypto_fini_all_noop _ _ hempty]
  refine ⟨_, hfirst, ?_, rfl, hsecond, ?_⟩
  · intro i hi1 himax
    exact hvis i (by rw [List.mem_range'_1]; omega)
  · intro wrlock s2 hcall
    rw [hsecond wrlock] at hcall
    simp only [Option.some.injEq] at hcall
    rw [← hcall]
    exact ⟨rfl, rfl⟩

/-- Witness for C12: `crypto_fini(0)` on `state_two` runs the `fini` hook of
both instances; a second call adds nothing. -/
theorem crypto_fini_all_idempotent_witness :
    state_two.knet_h.crypto_instance.length = 2 + 1 ∧
    (crypto_fini 2 state_two 0 0).map (fun s1 => (s1.knet_h, s1.calls)) =
      some (empty_handle 2,
        state_two.calls ++
          [call_t.fini 0 (tag_instance 7 20), call_t.fini 0 (tag_instance 9 32)]) ∧
    ∃ s1, crypto_fini 2 state_two 0 0 = some s1 ∧
      (∀ i : Nat, 1 ≤ i → i ≤ 2 → s1.knet_h.crypto_instance[i]? = some none) ∧
      s1.knet_h.crypto_in_use_config = 0 ∧
      (∀ wrlock : Nat, crypto_fini 2 s1 0 wrlock = some s1) ∧
      (∀ (wrlock : Nat) (s2 : state), crypto_fini 2 s1 0 wrlock = some s2 →
        s2.knet_h = s1.knet_h ∧ s2.calls = s1.calls) :=
  ⟨by rfl, by rfl, crypto_fini_all_idempotent 2 state_two (by rfl) state_two_ops⟩

/-! ## crypto_init: the paths that return before the write lock -/

/-- A name that no row carries is answered with -1. -/
lemma crypto_get_model_loop_unknown (model : String) :
    ∀ (tbl : List crypto_model_t) (idx : Nat), (∀ row ∈ tbl, row.model_name ≠ model) →
      crypto_get_model_loop tbl model idx = -1 := by
  intro tbl
  induction tbl with
  | nil => intro idx _; rfl
  | cons row rest ih =>
    intro idx hall
    unfold crypto_get_model_loop
    rw [if_neg (hall row (List.mem_cons_self row rest))]
    exact ih (idx + 1) (fun r hr => hall r (List.mem_cons_of_mem row hr))

/-- C13: `crypto_init` with a model name that no row of the backend table
carries returns -1 and leaves the whole state as it was: the handle (slot
table, slot in use, sizes), the backend table (loaded flags and operation
tables), `errno`, and the record of calls, so neither the module loader nor a
backend hook is invoked.  The slot id is inside the array. -/
theorem crypto_init_unknown_model (ABI : Nat) (s : state) (cfg : knet_handle_crypto_cfg)
    (config_num : Nat) (env : crypto_init_env)
    (hlt : config_num < s.knet_h.crypto_instance.length)
    (hunknown : ∀ row ∈ s.crypto_modules_cmds, row.model_name ≠ cfg.crypto_model) :
    crypto_init ABI s cfg config_num env = some (-1, s) := by
  have hm : crypto_get_model s.crypto_modules_cmds cfg.crypto_model = -1 :=
    crypto_get_model_loop_unknown _ _ 0 hunknown
  unfold crypto_init
  simp only [List.getElem?_eq_getElem hlt, hm]
  rfl

/-- Witness for C13: the model "unknown" on `state_one`. -/
theorem crypto_init_unknown_model_witness :
    1 < state_one.knet_h.crypto_instance.length ∧
    (∀ row ∈ state_one.crypto_modules_cmds,
      row.model_name ≠ (tag_cfg "unknown" "sha1" [7]).crypto_model) ∧
    crypto_init 1 state_one (tag_cfg "unknown" "sha1" [7]) 1 env_ok = some (-1, state_one) :=
  have hunknown : ∀ row ∈ state_one.crypto_modules_cmds,
      row.model_name ≠ (tag_cfg "unknown" "sha1" [7]).crypto_model := by
    intro row hrow
    simp only [state_one, table_loaded, List.mem_cons, List.mem_singleton,
      List.not_mem_nil, or_false] at hrow
    rcases hrow with rfl | rfl <;> decide
  ⟨by decide, hunknown,
    crypto_init_unknown_model 1 state_one (tag_cfg "unknown" "sha1" [7]) 1 env_ok
      (by decide) hunknown⟩

/-- C14 as stated fails: with "openssl" in the table but not built in and
`errno` 0 before the call, `crypto_init` returns -1 and `errno` is still 0,
not the "not supported" code. -/
theorem crypto_init_not_built_in_counterexample :
    crypto_init 1 (initial_state 2 1 0 0) (tag_cfg "openssl" "sha1" [7]) 1 env_ok =
      some (-1, initial_state 2 1 0 0) ∧
    (initial_state 2 1 0 0).errno = 0 ∧
    (initial_state 2 1 0 0).errno ≠ ENOTSUP := by
  refine ⟨by rfl, by rfl, by decide⟩

/-- C14 (amended): `crypto_init` with a model that is found in the backend
table at a row whose `built_in` flag is 0 returns -1 and leaves the whole
state as it was: the handle, the backend table, the record of calls, and
`errno`, into which no error code is stored.  The slot id is inside the
array. -/
theorem crypto_init_not_built_in (ABI : Nat) (s : state) (cfg : knet_handle_crypto_cfg)
    (config_num : Nat) (env : crypto_init_env) (model : Nat) (row : crypto_model_t)
    (hlt : config_num < s.knet_h.crypto_instance.length)
    (hmodel : crypto_get_model s.crypto_modules_cmds cfg.crypto_model = (model : Int))
    (hrow : s.crypto_modules_cmds[model]? = some row)
    (hbuilt : row.built_in = 0) :
    crypto_init ABI s cfg config_num env = some (-1, s) ∧
    ∀ r s', crypto_init ABI s cfg config_num env = some (r, s') →
      r = -1 ∧ s'.knet_h = s.knet_h ∧ s'.crypto_modules_cmds = s.crypto_modules_cmds ∧
      s'.errno = s.errno ∧ s'.calls = s.calls := by
  have hcall : crypto_init ABI s cfg config_num env = some (-1, s) := by
    unfold crypto_init
    simp only [List.getElem?_eq_getElem hlt, hmodel, Int.toNat_ofNat, hrow, hbuilt, if_true]
    rw [if_neg (by omega)]
  refine ⟨hcall, ?_⟩
  intro r s' hcall'
  rw [hcall] at hcall'
  simp only [Option.some.injEq, Prod.mk.injEq] at hcall'
  obtain ⟨rfl, rfl⟩ := hcall'
  exact ⟨rfl, rfl, rfl, rfl, rfl⟩

/-- Witness for the amended C14: "openssl" not built in, `errno` 5 before
and after the call. -/
theorem crypto_init_not_built_in_witness :
    1 < (initial_state 2 1 0 5).knet_h.crypto_instance.length ∧
    crypto_get_model (initial_state 2 1 0 5).crypto_modules_cmds
      (tag_cfg "openssl" "sha1" [7]).crypto_model = ((1 : Nat) : Int) ∧
    (initial_state 2 1 0 5).crypto_modules_cmds[1]? =
      some { model_name := "openssl", built_in := 0, loaded := 0, ops := none } ∧
    (crypto_init 1 (initial_state 2 1 0 5) (tag_cfg "openssl" "sha1" [7]) 1 env_ok =
      some (-1, initial_state 2 1 0 5) ∧
     ∀ r s', crypto_init 1 (initial_state 2 1 0 5) (tag_cfg "openssl" "sha1" [7]) 1 env_ok =
        some (r, s') →
      r = -1 ∧ s'.knet_h = (initial_state 2 1 0 5).knet_h ∧
      s'.crypto_modules_cmds = (initial_state 2 1 0 5).crypto_modules_cmds ∧
      s'.errno = (initial_state 2 1 0 5).errno ∧ s'.calls = (initial_state 2 1 0 5).calls) :=
  ⟨by decide, by rfl, by rfl,
    crypto_init_not_built_in 1 (initial_state 2 1 0 5) (tag_cfg "openssl" "sha1" [7]) 1 env_ok 1
      { model_name := "openssl", built_in := 0, loaded := 0, ops := none }
      (by decide) (by rfl) (by rfl) (by rfl)⟩

/-! ## crypto_init: errno on return from the locked part -/

/-- Past the model lookup, the built-in check and the lock, `crypto_init` is
its locked part. -/
lemma crypto_init_eq_locked (ABI : Nat) {s : state} (cfg : knet_handle_crypto_cfg)
    {config_num : Nat} {env : crypto_init_env} {current : Option crypto_instance}
    {model : Nat} {row : crypto_model_t}
    (hcur : s.knet_h.crypto_instance[config_num]? = some current)
    (hmodel : crypto_get_model s.crypto_modules_cmds cfg.crypto_model = (model : Int))
    (hrow : s.crypto_modules_cmds[model]? = some row)
    (hbuilt : row.built_in ≠ 0) (hlock : env.pthread_rwlock_wrlock = 0) :
    crypto_init ABI s cfg config_num env =
      crypto_init_locked ABI s cfg config_num env current model row := by
  unfold crypto_init
  simp only [hcur, hmodel, Int.toNat_ofNat, hrow]
  rw [if_neg (by omega), if_neg hbuilt, if_neg (by simp [hlock])]

/-- C15: for a `crypto_init` call that is past the built-in check and has
acquired the write lock, the return value and the `errno` on return are
fixed by the outcome: -1 with the `errno` the module loader left when loading
fails; -1 with `EINVAL` on an ABI version mismatch; -1 with `ENOMEM` when the
allocation fails; -1 with the `errno` the backend `init` hook left when the
hook fails; and whenever the call returns 0, `errno` is 0.  The `errno` a
call left is the value it stored, or the value from before it when it stored
none. -/
theorem crypto_init_errno (ABI : Nat) (s : state) (cfg : knet_handle_crypto_cfg)
    (config_num : Nat) (env : crypto_init_env) (current : Option crypto_instance)
    (model : Nat) (row : crypto_model_t)
    (hcur : s.knet_h.crypto_instance[config_num]? = some current)
    (hmodel : crypto_get_model s.crypto_modules_cmds cfg.crypto_model = (model : Int))
    (hrow : s.crypto_modules_cmds[model]? = some row)
    (hbuilt : row.built_in ≠ 0) (hlock : env.pthread_rwlock_wrlock = 0) :
    (row.loaded = 0 → env.load_module = none →
      ∃ s', crypto_init ABI s cfg config_num env = some (-1, s') ∧
        s'.errno = env.load_module_errno.getD s.errno) ∧
    (∀ ops, row.loaded = 0 → env.load_module = some ops → ops.abi_ver ≠ ABI →
      ∃ s', crypto_init ABI s cfg config_num env = some (-1, s') ∧ s'.errno = EINVAL) ∧
    ((row.loaded ≠ 0 ∨ ∃ ops, env.load_module = some ops ∧ ops.abi_ver = ABI) →
      env.malloc = false →
      ∃ s', crypto_init ABI s cfg config_num env = some (-1, s') ∧ s'.errno = ENOMEM) ∧
    (∀ ops, row.loaded ≠ 0 → row.ops = some ops → env.malloc = true →
      (ops.init s.knet_h cfg).ret ≠ 0 →
      ∃ s', crypto_init ABI s cfg config_num env = some (-1, s') ∧
        s'.errno = (ops.init s.knet_h cfg).errno.getD s.errno) ∧
    (∀ ops, row.loaded = 0 → env.load_module = some ops → ops.abi_ver = ABI →
      env.malloc = true → (ops.init s.knet_h cfg).ret ≠ 0 →
      ∃ s', crypto_init ABI s cfg config_num env = some (-1, s') ∧
        s'.errno = (ops.init s.knet_h cfg).errno.getD
          (env.load_module_errno.getD s.errno)) ∧
    (∀ ops, row.loaded ≠ 0 → row.ops = some ops → env.malloc = true →
      (ops.init s.knet_h cfg).ret = 0 →
      (∀ cur, current = some cur → ∃ o, instance_ops s.crypto_modules_cmds cur = some o) →
      ∃ s', crypto_init ABI s cfg config_num env = some (0, s') ∧ s'.errno = 0) ∧
    (∀ ops, row.loaded = 0 → env.load_module = some ops → ops.abi_ver = ABI →
      env.malloc = true → (ops.init s.knet_h cfg).ret = 0 →
      (∀ cur, current = some cur → ∃ o, instance_ops
        (s.crypto_modules_cmds.set model { row with ops := some ops, loaded := 1 }) cur
          = some o) →
      ∃ s', crypto_init ABI s cfg config_num env = some (0, s') ∧ s'.errno = 0) ∧
    (∀ r s', crypto_init ABI s cfg config_num env = some (r, s') →
      (r = 0 ∧ s'.errno = 0) ∨ r = -1) := by
  have heq := crypto_init_eq_locked ABI cfg hcur hmodel hrow hbuilt hlock
  have hmlt := (List.getElem?_eq_some_iff.mp hrow).1
  refine ⟨?_, ?_, ?_, ?_, ?_, ?_, ?_, ?_⟩
  · intro hl hload
    rw [heq]
    unfold crypto_init_locked
    simp only [hl, if_true, hload, crypto_init_fail]
    exact ⟨_, rfl, rfl⟩
  · intro ops hl hload habi
    rw [heq]
    unfold crypto_init_locked
    simp only [hl, if_true, hload, habi, ne_eq, not_false_eq_true, crypto_init_fail]
    exact ⟨_, rfl, rfl⟩
  · intro hloaded hmalloc
    rw [heq]
    unfold crypto_init_locked
    by_cases hl : row.loaded = 0
    · rcases hloaded with hne | ⟨ops, hload, habi⟩
      · exact absurd hl hne
      · simp only [hl, if_true, hload, habi, ne_eq, not_true_eq_false, if_false,
          crypto_init_instance, hmalloc, crypto_init_fail]
        exact ⟨_, rfl, rfl⟩
    · simp only [hl, if_false, crypto_init_instance, hmalloc, if_true, crypto_init_fail]
      exact ⟨_, rfl, rfl⟩
  · intro ops hl hops hmalloc hret
    rw [heq]
    unfold crypto_init_locked
    simp only [hl, if_false, crypto_init_instance, hmalloc, Bool.true_eq_false, hrow, hops,
      ne_eq, hret, not_false_eq_true, if_true, crypto_init_fail]
    exact ⟨_, rfl, rfl⟩
  · intro ops hl hload habi hmalloc hret
    rw [heq]
    unfold crypto_init_locked
    simp only [hl, if_true, hload, habi, ne_eq, not_true_eq_false, if_false,
      crypto_init_instance, hmalloc, Bool.true_eq_false, List.getElem?_set_self hmlt,
      hret, not_false_eq_true, crypto_init_fail]
    exact ⟨_, rfl, rfl⟩
  · intro ops hl hops hmalloc hret hcurops
    rw [heq]
    unfold crypto_init_locked
    simp only [hl, if_false, crypto_init_instance, hmalloc, Bool.true_eq_false, hrow, hops,
      ne_eq, hret, not_true_eq_false]
    obtain ⟨⟨r, s'⟩, hres⟩ := crypto_init_success_defined
      { s with errno := (ops.init s.knet_h cfg).errno.getD s.errno,
               calls := s.calls ++ [call_t.init model] }
      config_num current (instance_of_init model (ops.init s.knet_h cfg)) hcurops
    obtain ⟨hr, _, _, he⟩ := crypto_init_success_spec hres
    subst hr
    exact ⟨s', hres, he⟩
  · intro ops hl hload habi hmalloc hret hcurops
    rw [heq]
    unfold crypto_init_locked
    simp only [hl, if_true, hload, habi, ne_eq, not_true_eq_false, if_false,
      crypto_init_instance, hmalloc, Bool.true_eq_false, List.getElem?_set_self hmlt,
      hret]
    obtain ⟨⟨r, s'⟩, hres⟩ := crypto_init_success_defined
      { knet_h := s.knet_h,
        crypto_modules_cmds :=
          s.crypto_modules_cmds.set model { row with ops := some ops, loaded := 1 },
        errno := (ops.init s.knet_h cfg).errno.getD (env.load_module_errno.getD s.errno),
        calls := s.calls ++ [call_t.load_module row.model_name] ++ [call_t.init model] }
      config_num current (instance_of_init model (ops.init s.knet_h cfg)) hcurops
    obtain ⟨hr, _, _, he⟩ := crypto_init_success_spec hres
    subst hr
    exact ⟨s', hres, he⟩
  · intro r s' hcall
    rcases crypto_init_spec hcall with ⟨hr, _⟩ | ⟨hr, he, _⟩
    · exact Or.inr hr
    · exact Or.inl ⟨hr, he⟩

/-- Witness for C15: on `state_one` ("nss" loaded) the backend `init` hook
rejects an empty key and stores `EINVAL`, while `errno` was 0 before. -/
theorem crypto_init_errno_witness :
    state_one.knet_h.crypto_instance[1]? = some (some (tag_instance 7 20)) ∧
    crypto_get_model state_one.crypto_modules_cmds (tag_cfg "nss" "sha1" []).crypto_model =
      ((0 : Nat) : Int) ∧
    state_one.crypto_modules_cmds[0]? =
      some { model_name := "nss", built_in := 1, loaded := 1, ops := some tag_ops } ∧
    (crypto_init 1 state_one (tag_cfg "nss" "sha1" []) 1 env_ok).map
      (fun p => (p.1, p.2.errno)) = some (-1, EINVAL) ∧
    ∃ s', crypto_init 1 state_one (tag_cfg "nss" "sha1" []) 1 env_ok = some (-1, s') ∧
      s'.errno = (tag_ops.init state_one.knet_h (tag_cfg "nss" "sha1" [])).errno.getD
        state_one.errno :=
  ⟨by rfl, by rfl, by rfl, by rfl,
    (crypto_init_errno 1 state_one (tag_cfg "nss" "sha1" []) 1 env_ok
      (some (tag_instance 7 20)) 0
      { model_name := "nss", built_in := 1, loaded := 1, ops := some tag_ops }
      (by rfl) (by rfl) (by rfl) (by decide) (by rfl)).2.2.2.1 tag_ops (by decide) (by rfl)
      (by rfl) (by decide)⟩

/-! ## Backend table: loaded flag and operation table -/

/-- How a returning `crypto_init` changed the backend table, with the ABI
version: not at all, or it rewrote one row that was not marked loaded, and
the rewritten row is either still not marked loaded or is marked with 1 and
carries an operation table of the expected ABI version. -/
lemma crypto_init_table_abi {ABI : Nat} {s s' : state} {cfg : knet_handle_crypto_cfg}
    {config_num : Nat} {env : crypto_init_env} {r : Int}
    (hcall : crypto_init ABI s cfg config_num env = some (r, s')) :
    s'.crypto_modules_cmds = s.crypto_modules_cmds ∨
    ∃ (model : Nat) (row row' : crypto_model_t),
      s.crypto_modules_cmds[model]? = some row ∧ row.loaded = 0 ∧
      (row'.loaded = 0 ∨
        (row'.loaded = 1 ∧ ∃ ops, row'.ops = some ops ∧ ops.abi_ver = ABI)) ∧
      s'.crypto_modules_cmds = s.crypto_modules_cmds.set model row' := by
  unfold crypto_init at hcall
  split at hcall
  · exact absurd hcall (by simp)
  · simp only at hcall
    split at hcall
    · simp only [Option.some.injEq, Prod.mk.injEq] at hcall
      exact Or.inl (by rw [← hcall.2])
    · split at hcall
      · exact absurd hcall (by simp)
      · next row hrow =>
        split at hcall
        · simp only [Option.some.injEq, Prod.mk.injEq] at hcall
          exact Or.inl (by rw [← hcall.2])
        · split at hcall
          · simp only [Option.some.injEq, Prod.mk.injEq] at hcall
            exact Or.inl (by rw [← hcall.2])
          · unfold crypto_init_locked at hcall
            split at hcall
            · next hl =>
              simp only at hcall
              split at hcall
              · next hload =>
                simp only [crypto_init_fail, Option.some.injEq, Prod.mk.injEq] at hcall
                refine Or.inr ⟨_, row, { row with ops := none }, hrow, hl, Or.inl hl, ?_⟩
                rw [← hcall.2, hload]
              · next ops hload =>
                split at hcall
                · simp only [crypto_init_fail, Option.some.injEq, Prod.mk.injEq] at hcall
                  refine Or.inr ⟨_, row, { row with ops := some ops }, hrow, hl,
                    Or.inl hl, ?_⟩
                  rw [← hcall.2, hload]
                · next habi =>
                  have ht := (crypto_init_instance_spec hcall).1
                  refine Or.inr ⟨_, row, { row with ops := some ops, loaded := 1 }, hrow, hl,
                    Or.inr ⟨rfl, ops, rfl, not_not.mp habi⟩, ?_⟩
                  rw [ht, hload]
            · exact Or.inl (crypto_init_instance_spec hcall).1

/-- In every reachable backend table each row has `loaded` 0 or 1, and a row
with `loaded` 1 carries an operation table of the expected ABI version. -/
lemma table_reachable_inv {ABI NSS OPENSSL : Nat} {tbl : List crypto_model_t}
    (hreach : table_reachable ABI NSS OPENSSL tbl) :
    ∀ (i : Nat) (row : crypto_model_t), tbl[i]? = some row →
      (row.loaded = 0 ∨
        (row.loaded = 1 ∧ ∃ ops, row.ops = some ops ∧ ops.abi_ver = ABI)) := by
  induction hreach with
  | initial =>
    intro i row hi
    simp only [crypto_modules_cmds] at hi
    match i with
    | 0 => simp at hi; subst hi; exact Or.inl rfl
    | 1 => simp at hi; subst hi; exact Or.inl rfl
    | n + 2 => simp at hi
  | init cfg k env _ hcall ih =>
    rename_i s s' r
    intro i row hi
    rcases crypto_init_table_abi hcall with heq | ⟨model, row0, row', hrow0, _, hrow', heq⟩
    · rw [heq] at hi
      exact ih i row hi
    · rw [heq] at hi
      have hlt := (List.getElem?_eq_some_iff.mp hrow0).1
      by_cases hmi : model = i
      · subst hmi
        rw [List.getElem?_set_self hlt] at hi
        simp only [Option.some.injEq] at hi
        subst hi
        exact hrow'
      · rw [List.getElem?_set_ne hmi] at hi
        exact ih i row hi

/-- The table `table_abi_mismatch` is reached by one `crypto_init` whose
loader returns a module of ABI version 1 where 2 is expected. -/
lemma table_reachable_abi_mismatch : table_reachable 2 1 1 table_abi_mismatch :=
  table_reachable.init (tag_cfg "nss" "sha1" [7]) 1 env_ok
    (show table_reachable 2 1 1 state_initial.crypto_modules_cmds from table_reachable.initial)
    (show crypto_init 2 state_initial (tag_cfg "nss" "sha1" [7]) 1 env_ok =
        some (-1, { state_initial with crypto_modules_cmds := table_abi_mismatch,
                                       errno := EINVAL,
                                       calls := [call_t.load_module "nss"] }) by rfl)

/-- The table `table_loaded` is reached by one successful `crypto_init`. -/
lemma table_reachable_loaded : table_reachable 1 1 1 table_loaded :=
  table_reachable.init (tag_cfg "nss" "sha1" [7]) 1 env_ok
    (show table_reachable 1 1 1 state_initial.crypto_modules_cmds from table_reachable.initial)
    (show crypto_init 1 state_initial (tag_cfg "nss" "sha1" [7]) 1 env_ok =
        some (0, state_one) by rfl)

/-- C16 as stated fails: after a `crypto_init` whose loader returns a module
of the wrong ABI version, the row of "nss" has a non-NULL operation table and
`loaded` 0. -/
theorem ops_iff_loaded_counterexample :
    table_reachable 2 1 1 table_abi_mismatch ∧
    ∃ row : crypto_model_t, table_abi_mismatch[0]? = some row ∧
      row.loaded = 0 ∧ (∃ ops, row.ops = some ops) ∧
      ¬ ((∃ ops, row.ops = some ops) ↔ row.loaded = 1) := by
  refine ⟨table_reachable_abi_mismatch,
    { model_name := "nss", built_in := 1, loaded := 0, ops := some tag_ops },
    rfl, rfl, ⟨tag_ops, rfl⟩, ?_⟩
  intro hiff
  exact absurd (hiff.mp ⟨tag_ops, rfl⟩) (by decide)

/-- C16 (amended): in every backend table reachable from the compiled table
by `crypto_init` calls, each row has `loaded` 0 or 1; a row with `loaded` 1
has a non-NULL operation table whose `abi_ver` is `KNET_CRYPTO_MODEL_ABI`;
and a row with a NULL operation table has `loaded` 0. -/
theorem loaded_implies_ops (ABI NSS OPENSSL : Nat) (tbl : List crypto_model_t)
    (hreach : table_reachable ABI NSS OPENSSL tbl) (i : Nat) (row : crypto_model_t)
    (hrow : tbl[i]? = some row) :
    (row.loaded = 0 ∨ row.loaded = 1) ∧
    (row.loaded = 1 → ∃ ops, row.ops = some ops ∧ ops.abi_ver = ABI) ∧
    (row.ops = none → row.loaded = 0) := by
  rcases table_reachable_inv hreach i row hrow with h0 | ⟨h1, hops⟩
  · refine ⟨Or.inl h0, ?_, fun _ => h0⟩
    intro h1
    rw [h0] at h1
    exact absurd h1 (by decide)
  · refine ⟨Or.inr h1, fun _ => hops, ?_⟩
    intro hnone
    obtain ⟨ops, hsome, _⟩ := hops
    rw [hnone] at hsome
    exact absurd hsome (by simp)

/-- Witness for the amended C16: the row of "nss" in `table_loaded`. -/
theorem loaded_implies_ops_witness :
    table_reachable 1 1 1 table_loaded ∧
    table_loaded[0]? =
      some { model_name := "nss", built_in := 1, loaded := 1, ops := some tag_ops } ∧
    ((1 : Nat) = 0 ∨ (1 : Nat) = 1) ∧
    ((1 : Nat) = 1 → ∃ ops, some tag_ops = some ops ∧ ops.abi_ver = 1) ∧
    ((some tag_ops : Option crypto_ops_t) = none → (1 : Nat) = 0) :=
  ⟨table_reachable_loaded, by rfl,
    loaded_implies_ops 1 1 1 table_loaded table_reachable_loaded 0
      { model_name := "nss", built_in := 1, loaded := 1, ops := some tag_ops } (by rfl)⟩

/-! ## knet_get_crypto_list -/

/-- The built-in rows of a table that starts with a built-in row. -/
lemma built_in_rows_cons_pos {row : crypto_model_t} (rest : List crypto_model_t)
    (hb : row.built_in ≠ 0) : built_in_rows (row :: rest) = row :: built_in_rows rest := by
  simp only [built_in_rows]
  exact List.filter_cons_of_pos (by simpa using hb)

/-- The built-in rows of a table that starts with a row that is not built
in. -/
lemma built_in_rows_cons_neg {row : crypto_model_t} (rest : List crypto_model_t)
    (hb : ¬ row.built_in ≠ 0) : built_in_rows (row :: rest) = built_in_rows rest := by
  simp only [built_in_rows]
  exact List.filter_cons_of_neg (by simpa using hb)

/-- Without an array the loop counts the built-in rows. -/
lemma knet_get_crypto_list_loop_count :
    ∀ (rows : List crypto_model_t) (outidx : Nat),
      knet_get_crypto_list_loop rows none outidx =
        some (none, outidx + (built_in_rows rows).length) := by
  intro rows
  induction rows with
  | nil => intro outidx; rfl
  | cons row rest ih =>
    intro outidx
    unfold knet_get_crypto_list_loop
    by_cases hb : row.built_in ≠ 0
    · rw [if_pos hb, built_in_rows_cons_pos rest hb]
      simp only [ih, List.length_cons]
      congr 2
      omega
    · rw [if_neg hb, built_in_rows_cons_neg rest hb]
      exact ih outidx

/-- With an array that has room, the loop writes the names of the built-in
rows, in table order, from position `outidx` on, and nothing else. -/
lemma knet_get_crypto_list_loop_fill :
    ∀ (rows : List crypto_model_t) (buf : List knet_crypto_info) (outidx : Nat),
      outidx + (built_in_rows rows).length ≤ buf.length →
      ∃ buf', knet_get_crypto_list_loop rows (some buf) outidx =
          some (some buf', outidx + (built_in_rows rows).length) ∧
        buf'.length = buf.length ∧
        (∀ j : Nat, j < outidx ∨ outidx + (built_in_rows rows).length ≤ j →
          buf'[j]? = buf[j]?) ∧
        (∀ j : Nat, j < (built_in_rows rows).length →
          (buf'[outidx + j]?).map (fun e => e.name) =
            ((built_in_rows rows).map (fun row => row.model_name))[j]?) := by
  intro rows
  induction rows with
  | nil =>
    intro buf outidx _
    refine ⟨buf, rfl, rfl, fun j _ => rfl, ?_⟩
    intro j hj
    simp [built_in_rows] at hj
  | cons row rest ih =>
    intro buf outidx hroom
    unfold knet_get_crypto_list_loop
    by_cases hb : row.built_in ≠ 0
    · rw [built_in_rows_cons_pos rest hb] at hroom ⊢
      simp only [List.length_cons] at hroom ⊢
      have hlt : outidx < buf.length := by omega
      rw [if_pos hb]
      simp only [hlt, if_true]
      have hroom' : outidx + 1 + (built_in_rows rest).length ≤
          (buf.set outidx { name := row.model_name }).length := by
        rw [List.length_set]
        omega
      obtain ⟨buf', hcall, hlen, hkeep, hnames⟩ :=
        ih (buf.set outidx { name := row.model_name }) (outidx + 1) hroom'
      refine ⟨buf', ?_, ?_, ?_, ?_⟩
      · rw [hcall, show outidx + 1 + (built_in_rows rest).length =
          outidx + ((built_in_rows rest).length + 1) by omega]
      · rw [hlen, List.length_set]
      · intro j hj
        rw [hkeep j (by omega), List.getElem?_set_ne (by omega)]
      · intro j hj
        cases j with
        | zero =>
          rw [Nat.add_zero, hkeep outidx (by omega), List.getElem?_set_self hlt]
          simp
        | succ j' =>
          have := hnames j' (by omega)
          rw [show outidx + (j' + 1) = outidx + 1 + j' by omega, this]
          simp
    · rw [built_in_rows_cons_neg rest hb] at hroom ⊢
      rw [if_neg hb]
      exact ih buf outidx hroom

/-- C17: `knet_get_crypto_list` with a NULL entries pointer returns -1 with
`errno` `EINVAL` and writes nothing, and a call returns -1 only in that case;
with a non-NULL entries pointer it returns 0 with `errno` 0 and stores the
number of rows whose `built_in` flag is non-zero; with a NULL list only that
count is produced; with a list that has room for them, the names of those
rows are written to positions `0..count-1` in table order and the rest of
the list is untouched. -/
theorem knet_get_crypto_list_spec (s : state) :
    (∀ crypto_list, knet_get_crypto_list s crypto_list none =
      some (-1, crypto_list, none, { s with errno := EINVAL })) ∧
    (∀ v : Nat, knet_get_crypto_list s none (some v) =
      some (0, none, some (built_in_rows s.crypto_modules_cmds).length,
        { s with errno := 0 })) ∧
    (∀ (v : Nat) (buf : List knet_crypto_info),
      (built_in_rows s.crypto_modules_cmds).length ≤ buf.length →
      ∃ buf', knet_get_crypto_list s (some buf) (some v) =
          some (0, some buf', some (built_in_rows s.crypto_modules_cmds).length,
            { s with errno := 0 }) ∧
        buf'.length = buf.length ∧
        (∀ j : Nat, j < (built_in_rows s.crypto_modules_cmds).length →
          (buf'[j]?).map (fun e => e.name) =
            ((built_in_rows s.crypto_modules_cmds).map (fun row => row.model_name))[j]?) ∧
        (∀ j : Nat, (built_in_rows s.crypto_modules_cmds).length ≤ j →
          buf'[j]? = buf[j]?)) ∧
    (∀ crypto_list crypto_list_entries res,
      knet_get_crypto_list s crypto_list crypto_list_entries = some res →
      (res.1 = -1 ↔ crypto_list_entries = none) ∧ (res.1 = 0 ∨ res.1 = -1)) := by
  refine ⟨fun _ => rfl, ?_, ?_, ?_⟩
  · intro v
    simp only [knet_get_crypto_list, knet_get_crypto_list_loop_count, Nat.zero_add]
  · intro v buf hroom
    obtain ⟨buf', hcall, hlen, hkeep, hnames⟩ :=
      knet_get_crypto_list_loop_fill s.crypto_modules_cmds buf 0 (by omega)
    refine ⟨buf', ?_, hlen, ?_, ?_⟩
    · simp only [knet_get_crypto_list, hcall, Nat.zero_add]
    · intro j hj
      have := hnames j hj
      rw [Nat.zero_add] at this
      exact this
    · intro j hj
      exact hkeep j (Or.inr (by omega))
  · intro crypto_list crypto_list_entries res hcall
    unfold knet_get_crypto_list at hcall
    cases crypto_list_entries with
    | none =>
      simp only [Option.some.injEq] at hcall
      subst hcall
      exact ⟨⟨fun _ => rfl, fun _ => rfl⟩, Or.inr rfl⟩
    | some v =>
      simp only at hcall
      split at hcall
      · exact absurd hcall (by simp)
      · simp only [Option.some.injEq] at hcall
        subst hcall
        refine ⟨⟨fun h => ?_, fun h => absurd h (by simp)⟩, Or.inl rfl⟩
        simp only at h
        exact absurd h (by decide)

/-- Witness for C17: with "nss" built in and "openssl" not, a list of two
entries receives "nss" in position 0 and keeps its entry in position 1. -/
theorem knet_get_crypto_list_spec_witness :
    (built_in_rows (initial_state 2 1 0 5).crypto_modules_cmds).length ≤
      ([{ name := "a" }, { name := "b" }] : List knet_crypto_info).length ∧
    knet_get_crypto_list (initial_state 2 1 0 5) (some [{ name := "a" }, { name := "b" }])
        (some 7) =
      some (0, some [{ name := "nss" }, { name := "b" }], some 1, initial_state 2 1 0 0) ∧
    ∃ buf', knet_get_crypto_list (initial_state 2 1 0 5)
          (some [{ name := "a" }, { name := "b" }]) (some 7) =
          some (0, some buf', some (built_in_rows (initial_state 2 1 0 5).crypto_modules_cmds).length,
            { initial_state 2 1 0 5 with errno := 0 }) ∧
        buf'.length = ([{ name := "a" }, { name := "b" }] : List knet_crypto_info).length ∧
        (∀ j : Nat, j < (built_in_rows (initial_state 2 1 0 5).crypto_modules_cmds).length →
          (buf'[j]?).map (fun e => e.name) =
            ((built_in_rows (initial_state 2 1 0 5).crypto_modules_cmds).map
              (fun row => row.model_name))[j]?) ∧
        (∀ j : Nat, (built_in_rows (initial_state 2 1 0 5).crypto_modules_cmds).length ≤ j →
          buf'[j]? = ([{ name := "a" }, { name := "b" }] : List knet_crypto_info)[j]?) :=
  ⟨by decide, by rfl,
    (knet_get_crypto_list_spec (initial_state 2 1 0 5)).2.2.1 7
      [{ name := "a" }, { name := "b" }] (by decide)⟩

/-! ## Receive path: errno on success -/

/-- When the fallback loop starts after a failure and ends with 0, `errno`
is 0. -/
lemma decrypt_alternatives_errno (buf_in : List Nat) :
    ∀ (l : List Nat) (err : Int) (buf_out : List Nat) (s : state) (r : Int)
      (o : List Nat) (s' : state), err ≠ 0 →
      decrypt_alternatives buf_in l err buf_out s = some (r, o, s') → r = 0 →
      s'.errno = 0 := by
  intro l
  induction l with
  | nil =>
    intro err buf_out s r o s' herr hcall hr
    simp only [decrypt_alternatives, Option.some.injEq, Prod.mk.injEq] at hcall
    exact absurd (hcall.1.trans hr) herr
  | cons i rest ih =>
    intro err buf_out s r o s' herr hcall hr
    unfold decrypt_alternatives at hcall
    split at hcall
    · exact ih err buf_out s r o s' herr hcall hr
    · split at hcall
      · exact absurd hcall (by simp)
      · exact ih err buf_out s r o s' herr hcall hr
      · split at hcall
        · exact absurd hcall (by simp)
        · simp only at hcall
          split at hcall
          · simp only [Option.some.injEq, Prod.mk.injEq] at hcall
            obtain ⟨_, _, rfl⟩ := hcall
            rfl
          · next hret => exact ih _ _ _ r o s' hret hcall hr

/-- C18 as stated fails: with `errno` 5 before the call, a packet that the
instance in use accepts at the first attempt is returned with 0 while `errno`
is still 5. -/
theorem authenticate_and_decrypt_errno_counterexample :
    occupied state_one.knet_h state_one.knet_h.crypto_in_use_config = true ∧
    crypto_authenticate_and_decrypt 2 { state_one with errno := 5 } [7, 72, 105] =
      some (0, [72, 105],
        { state_one with errno := 5,
                         calls := state_one.calls ++
                           [call_t.decrypt 1 log_level_t.KNET_LOG_ERR] }) ∧
    (5 : Nat) ≠ 0 := by
  refine ⟨by rfl, by rfl, by decide⟩

/-- C18 (amended): on a handle whose slot in use is occupied,
`crypto_authenticate_and_decrypt` returns; when it returns 0 after the
attempt with the instance in use failed, `errno` is 0 on return; when the
instance in use succeeds at the first attempt it returns 0 and `errno` is the
one that `decrypt` left: the value it stored, or the value from before the
call when it stored none. -/
theorem authenticate_and_decrypt_errno (MAX : Nat) (s : state) (buf_in : List Nat)
    (hlen : s.knet_h.crypto_instance.length = MAX + 1)
    (huse : occupied s.knet_h s.knet_h.crypto_in_use_config = true)
    (hops : ∀ (i : Nat) (inst : crypto_instance),
      s.knet_h.crypto_instance[i]? = some (some inst) →
      ∃ ops, instance_ops s.crypto_modules_cmds inst = some ops) :
    ∃ (res0 : crypt_result) (r : Int) (buf_out : List Nat) (s' : state),
      backend_decrypt s.knet_h s.crypto_modules_cmds buf_in
        (s.knet_h.crypto_in_use_config, first_log_level MAX s.knet_h) = some res0 ∧
      crypto_authenticate_and_decrypt MAX s buf_in = some (r, buf_out, s') ∧
      (res0.ret ≠ 0 → r = 0 → s'.errno = 0) ∧
      (res0.ret = 0 → r = 0 ∧ s'.errno = res0.errno.getD s.errno) := by
  have hrange : ∀ i ∈ List.range' 1 MAX, i < s.knet_h.crypto_instance.length := by
    intro i hi
    rw [List.mem_range'_1] at hi
    omega
  obtain ⟨inst, hslot⟩ : ∃ inst,
      s.knet_h.crypto_instance[s.knet_h.crypto_in_use_config]? = some (some inst) := by
    unfold occupied at huse
    split at huse
    · next inst hslot => exact ⟨inst, hslot⟩
    · exact absurd huse (by simp)
  obtain ⟨ops, hopsk⟩ := hops _ inst hslot
  have hcount := count_configs_spec s.knet_h (List.range' 1 MAX) 0 hrange
  rw [Nat.zero_add] at hcount
  have hbd : backend_decrypt s.knet_h s.crypto_modules_cmds buf_in
      (s.knet_h.crypto_in_use_config, first_log_level MAX s.knet_h) =
      some (ops.decrypt s.knet_h inst buf_in (first_log_level MAX s.knet_h)) := by
    simp only [backend_decrypt, hslot, hopsk]
  refine ⟨ops.decrypt s.knet_h inst buf_in (first_log_level MAX s.knet_h), ?_⟩
  unfold crypto_authenticate_and_decrypt
  simp only [hcount, hslot, hopsk]
  have hlvl : (if ((List.range' 1 MAX).filter (occupied s.knet_h)).length > 1
      then log_level_t.KNET_LOG_DEBUG else log_level_t.KNET_LOG_ERR) =
      first_log_level MAX s.knet_h := rfl
  rw [hlvl]
  by_cases hret : (ops.decrypt s.knet_h inst buf_in (first_log_level MAX s.knet_h)).ret = 0
  · rw [if_neg (not_not.mpr hret)]
    exact ⟨_, _, _, hbd, rfl, fun hne => absurd hret hne, fun _ => ⟨hret, rfl⟩⟩
  · rw [if_pos hret]
    obtain ⟨s', hs', _, _⟩ := decrypt_alternatives_refines s.knet_h s.crypto_modules_cmds
      buf_in hops (List.range' 1 MAX)
      (ops.decrypt s.knet_h inst buf_in (first_log_level MAX s.knet_h)).ret
      (ops.decrypt s.knet_h inst buf_in (first_log_level MAX s.knet_h)).buf_out
      { s with errno := (ops.decrypt s.knet_h inst buf_in
                  (first_log_level MAX s.knet_h)).errno.getD s.errno,
               calls := s.calls ++ [call_t.decrypt s.knet_h.crypto_in_use_config
                  (first_log_level MAX s.knet_h)] }
      rfl rfl hrange
    refine ⟨_, _, s', hbd, hs', ?_, fun h0 => absurd h0 hret⟩
    intro _ hr
    exact decrypt_alternatives_errno buf_in _ _ _ _ _ _ s' hret hs' hr

/-- Witness for the amended C18: in `state_two` with `errno` 5 before the
call, a packet made with key 9 is rejected by slot 1, accepted by slot 2, and
returned with 0 and `errno` 0. -/
theorem authenticate_and_decrypt_errno_witness :
    ({ state_two with errno := 5 } : state).knet_h.crypto_instance.length = 2 + 1 ∧
    occupied ({ state_two with errno := 5 } : state).knet_h
      ({ state_two with errno := 5 } : state).knet_h.crypto_in_use_config = true ∧
    (crypto_authenticate_and_decrypt 2 { state_two with errno := 5 } [9, 72, 105]).map
      (fun p => (p.1, p.2.1, p.2.2.errno)) = some (0, [72, 105], 0) ∧
    ∃ (res0 : crypt_result) (r : Int) (buf_out : List Nat) (s' : state),
      backend_decrypt ({ state_two with errno := 5 } : state).knet_h
        ({ state_two with errno := 5 } : state).crypto_modules_cmds [9, 72, 105]
        (({ state_two with errno := 5 } : state).knet_h.crypto_in_use_config,
          first_log_level 2 ({ state_two with errno := 5 } : state).knet_h) = some res0 ∧
      crypto_authenticate_and_decrypt 2 { state_two with errno := 5 } [9, 72, 105] =
        some (r, buf_out, s') ∧
      (res0.ret ≠ 0 → r = 0 → s'.errno = 0) ∧
      (res0.ret = 0 → r = 0 ∧
        s'.errno = res0.errno.getD ({ state_two with errno := 5 } : state).errno) :=
  ⟨by rfl, by rfl, by rfl,
    authenticate_and_decrypt_errno 2 { state_two with errno := 5 } [9, 72, 105] (by rfl)
      (by rfl) state_two_ops⟩

/-! ## End-to-end scenario 4 -/

/-- The handle after two successful `crypto_init` calls, into slot 1 and then
slot 2, starting from the initial state: slot 1 and slot 2 hold instances,
every other entry is empty, and slot 1 is in use. -/
lemma two_inits_handle {MAX ABI NSS OPENSSL errno0 : Nat}
    {cfg1 cfg2 : knet_handle_crypto_cfg} {env1 env2 : crypto_init_env} {s1 s2 : state}
    (hinit1 : crypto_init ABI (initial_state MAX NSS OPENSSL errno0) cfg1 1 env1 = some (0, s1))
    (hinit2 : crypto_init ABI s1 cfg2 2 env2 = some (0, s2)) :
    2 ≤ MAX ∧ s2.knet_h.crypto_instance.length = MAX + 1 ∧
    (∃ inst1, s2.knet_h.crypto_instance[1]? = some (some inst1)) ∧
    (∃ inst2, s2.knet_h.crypto_instance[2]? = some (some inst2)) ∧
    (∀ j : Nat, j ≠ 1 → j ≠ 2 → j ≤ MAX → s2.knet_h.crypto_instance[j]? = some none) := by
  have hlt1 := crypto_init_in_range hinit1
  have hlt2 := crypto_init_in_range hinit2
  rcases crypto_init_spec hinit1 with ⟨hr, _⟩ | ⟨_, _, m1, _, o1, _, _, _, _, _, hh1⟩
  · exact absurd hr (by decide)
  rcases crypto_init_spec hinit2 with ⟨hr, _⟩ | ⟨_, _, m2, _, o2, _, _, _, _, _, hh2⟩
  · exact absurd hr (by decide)
  have hs1 : s1.knet_h.crypto_instance =
      (List.replicate (MAX + 1) (none : Option crypto_instance)).set 1
        (some (instance_of_init m1 (o1.init (initial_state MAX NSS OPENSSL errno0).knet_h cfg1))) := by
    rw [hh1, crypto_init_publish_slots]
    rfl
  have hlen1 : s1.knet_h.crypto_instance.length = MAX + 1 := by
    rw [hs1, List.length_set, List.length_replicate]
  rw [hlen1] at hlt2
  have hs2 : s2.knet_h.crypto_instance = s1.knet_h.crypto_instance.set 2
      (some (instance_of_init m2 (o2.init s1.knet_h cfg2))) := by
    rw [hh2, crypto_init_publish_slots]
  refine ⟨by omega, by rw [hs2, List.length_set, hlen1],
    ⟨instance_of_init m1 (o1.init (initial_state MAX NSS OPENSSL errno0).knet_h cfg1), ?_⟩,
    ⟨instance_of_init m2 (o2.init s1.knet_h cfg2), ?_⟩, ?_⟩
  · rw [hs2, List.getElem?_set_ne (by decide), hs1,
      List.getElem?_set_self (by rw [List.length_replicate]; omega)]
  · rw [hs2, List.getElem?_set_self (by rw [hlen1]; omega)]
  · intro j hj1 hj2 hjmax
    rw [hs2, List.getElem?_set_ne (Ne.symm hj2), hs1, List.getElem?_set_ne (Ne.symm hj1),
      List.getElem?_replicate_of_lt (by omega)]

/-- When slot 2 is the slot in use and the only occupied slot in `1..MAX`,
there is no alternative slot and the first attempt is made at ERR. -/
lemma only_slot_two {MAX : Nat} {h : knet_handle} (hmax : 2 ≤ MAX)
    (huse : h.crypto_in_use_config = 2)
    (hocc : occupied h 2 = true)
    (hemp : ∀ j : Nat, j ≠ 2 → 1 ≤ j → j ≤ MAX → h.crypto_instance[j]? = some none) :
    alternative_slots MAX h = [] ∧ first_log_level MAX h = log_level_t.KNET_LOG_ERR := by
  constructor
  · unfold alternative_slots
    rw [List.filter_eq_nil_iff]
    intro j hj
    rw [List.mem_range'_1] at hj
    by_cases hj2 : j = 2
    · simp [is_alternative, hj2, huse]
    · simp [is_alternative, occupied_of_slot.2 (hemp j hj2 hj.1 (by omega))]
  · obtain ⟨n, rfl⟩ : ∃ n, MAX = n + 2 := ⟨MAX - 2, by omega⟩
    have hsplit : List.range' 1 (n + 2) = 1 :: 2 :: List.range' 3 n := by
      rw [List.range'_succ, List.range'_succ]
    have h1 : occupied h 1 = false :=
      occupied_of_slot.2 (hemp 1 (by decide) (by decide) (by omega))
    have htail : (List.range' 3 n).filter (occupied h) = [] := by
      rw [List.filter_eq_nil_iff]
      intro j hj
      rw [List.mem_range'_1] at hj
      rw [occupied_of_slot.2 (hemp j (by omega) (by omega) (by omega))]
      simp
    unfold first_log_level installed_count
    rw [hsplit, List.filter_cons_of_neg (by simp [h1]), List.filter_cons_of_pos hocc, htail]
    rfl

/-- C19: from the initial state, after `crypto_init` has succeeded into
slot 1 and then into slot 2, `crypto_use_config(2)` returns 0 with slots 1
and 2 installed and slot 2 in use; `crypto_fini(1)`, once the write lock is
acquired, then leaves slot 1 empty, slot 2 still holding its instance, slot 2
in use and the handle-wide sizes those of the instance in slot 2; and on
every input that the backend `decrypt` of slot 2 rejects,
`crypto_authenticate_and_decrypt` returns exactly the value that `decrypt`
returned. -/
theorem scenario_fini_old_slot (MAX ABI NSS OPENSSL errno0 : Nat)
    (cfg1 cfg2 : knet_handle_crypto_cfg) (env1 env2 : crypto_init_env) (s1 s2 : state)
    (hinit1 : crypto_init ABI (initial_state MAX NSS OPENSSL errno0) cfg1 1 env1 = some (0, s1))
    (hinit2 : crypto_init ABI s1 cfg2 2 env2 = some (0, s2)) :
    ∃ (s3 s4 : state) (inst2 : crypto_instance) (ops2 : crypto_ops_t),
      crypto_use_config s2 2 = some (0, s3) ∧
      s3.knet_h.crypto_in_use_config = 2 ∧
      (∃ inst1, s3.knet_h.crypto_instance[1]? = some (some inst1)) ∧
      s3.knet_h.crypto_instance[2]? = some (some inst2) ∧
      crypto_fini MAX s3 1 0 = some s4 ∧
      s4.knet_h.crypto_instance[1]? = some none ∧
      s4.knet_h.crypto_instance[2]? = some (some inst2) ∧
      s4.knet_h.crypto_in_use_config = 2 ∧
      s4.knet_h.sec_block_size = inst2.sec_block_size ∧
      s4.knet_h.sec_hash_size = inst2.sec_hash_size ∧
      s4.knet_h.sec_salt_size = inst2.sec_salt_size ∧
      instance_ops s4.crypto_modules_cmds inst2 = some ops2 ∧
      ∀ buf_in : List Nat,
        (ops2.decrypt s4.knet_h inst2 buf_in log_level_t.KNET_LOG_ERR).ret ≠ 0 →
        ∃ (buf_out : List Nat) (s5 : state),
          crypto_authenticate_and_decrypt MAX s4 buf_in =
            some ((ops2.decrypt s4.knet_h inst2 buf_in log_level_t.KNET_LOG_ERR).ret,
              buf_out, s5) := by
  obtain ⟨hmax, hlen2, ⟨inst1, hslot1⟩, ⟨inst2, hslot2⟩, hrest⟩ :=
    two_inits_handle hinit1 hinit2
  have hreach2 : reachable MAX ABI NSS OPENSSL s2 :=
    reachable.init cfg2 2 env2
      (reachable.init cfg1 1 env1 (reachable.initial errno0) (by decide) (by omega) hinit1)
      (by decide) hmax hinit2
  have huc : crypto_use_config s2 2 = some (0,
      { s2 with knet_h :=
        { s2.knet_h with crypto_in_use_config := 2,
                         sec_block_size := inst2.sec_block_size,
                         sec_hash_size := inst2.sec_hash_size,
                         sec_salt_size := inst2.sec_salt_size } }) := by
    simp only [crypto_use_config, hslot2]
  have hreach3 := reachable.use_config 2 hreach2 (by decide) hmax huc
  obtain ⟨_, htbl3, hinst3⟩ := reachable_state_inv hreach3
  obtain ⟨s4, hfini, _, hslots4, _, hkeep, _⟩ :=
    crypto_fini_slot_spec MAX (s := { s2 with knet_h :=
        { s2.knet_h with crypto_in_use_config := 2,
                         sec_block_size := inst2.sec_block_size,
                         sec_hash_size := inst2.sec_hash_size,
                         sec_salt_size := inst2.sec_salt_size } })
      (k := 1) (by decide) (show 1 < s2.knet_h.crypto_instance.length by omega)
      (fun inst hocc => instance_ops_defined htbl3 hinst3 hocc)
  have h21 : (2 : Nat) ≠ 1 := by decide
  have h20 : (2 : Nat) ≠ 0 := by decide
  obtain ⟨huse4, hb4, hh4, hs4⟩ := hkeep h21
  have hreach4 := reachable.fini 1 0 hreach3 (by omega) hfini
  have hslot4_1 : s4.knet_h.crypto_instance[1]? = some none := by
    rw [hslots4]
    exact List.getElem?_set_self (show 1 < s2.knet_h.crypto_instance.length by omega)
  have hslot4_2 : s4.knet_h.crypto_instance[2]? = some (some inst2) := by
    rw [hslots4, List.getElem?_set_ne (by decide)]
    exact hslot2
  have hready := reachable_receive_ready hreach4
    (show s4.knet_h.crypto_in_use_config ≠ 0 by rw [huse4]; exact h20)
  obtain ⟨hlen4, _, hocc4, hops4⟩ := hready
  obtain ⟨ops2, hops2⟩ := hops4 2 inst2 hslot4_2
  have huse4' : s4.knet_h.crypto_in_use_config = 2 := huse4
  have hemp4 : ∀ j : Nat, j ≠ 2 → 1 ≤ j → j ≤ MAX →
      s4.knet_h.crypto_instance[j]? = some none := by
    intro j hj2 hj1 hjmax
    by_cases h1 : j = 1
    · rw [h1]; exact hslot4_1
    · rw [hslots4, List.getElem?_set_ne (Ne.symm h1)]
      exact hrest j h1 hj2 hjmax
  obtain ⟨halts, hlvl⟩ := only_slot_two hmax huse4'
    (occupied_of_slot.1 inst2 hslot4_2) hemp4
  refine ⟨_, s4, inst2, ops2, huc, rfl, ⟨inst1, hslot1⟩, hslot2, hfini, hslot4_1, hslot4_2,
    huse4', hb4, hh4, hs4, hops2, ?_⟩
  intro buf_in hrej
  obtain ⟨res0, r, buf_out, s5, hbd0, hcall, _, _, _, hfail⟩ :=
    authenticate_and_decrypt_outcome MAX s4 buf_in hlen4 hocc4 hops4
  have hres0 : res0 = ops2.decrypt s4.knet_h inst2 buf_in log_level_t.KNET_LOG_ERR := by
    rw [huse4', hlvl] at hbd0
    simp only [backend_decrypt, hslot4_2, hops2, Option.some.injEq] at hbd0
    exact hbd0.symm
  subst hres0
  have htry := hfail hrej
  rw [halts] at htry
  simp only [try_alternatives, Prod.mk.injEq] at htry
  refine ⟨buf_out, s5, ?_⟩
  rw [hcall, htry.1]

/-- Witness for C19 with the concrete backend: keys 7 and 9 installed into
slots 1 and 2 of a handle with two slots. -/
theorem scenario_fini_old_slot_witness :
    crypto_init 1 (initial_state 2 1 1 0) (tag_cfg "nss" "sha1" [7]) 1 env_ok =
      some (0, state_one) ∧
    crypto_init 1 state_one (tag_cfg "nss" "sha256" [9]) 2 env_ok = some (0, state_two) ∧
    ∃ (s3 s4 : state) (inst2 : crypto_instance) (ops2 : crypto_ops_t),
      crypto_use_config state_two 2 = some (0, s3) ∧
      s3.knet_h.crypto_in_use_config = 2 ∧
      (∃ inst1, s3.knet_h.crypto_instance[1]? = some (some inst1)) ∧
      s3.knet_h.crypto_instance[2]? = some (some inst2) ∧
      crypto_fini 2 s3 1 0 = some s4 ∧
      s4.knet_h.crypto_instance[1]? = some none ∧
      s4.knet_h.crypto_instance[2]? = some (some inst2) ∧
      s4.knet_h.crypto_in_use_config = 2 ∧
      s4.knet_h.sec_block_size = inst2.sec_block_size ∧
      s4.knet_h.sec_hash_size = inst2.sec_hash_size ∧
      s4.knet_h.sec_salt_size = inst2.sec_salt_size ∧
      instance_ops s4.crypto_modules_cmds inst2 = some ops2 ∧
      ∀ buf_in : List Nat,
        (ops2.decrypt s4.knet_h inst2 buf_in log_level_t.KNET_LOG_ERR).ret ≠ 0 →
        ∃ (buf_out : List Nat) (s5 : state),
          crypto_authenticate_and_decrypt 2 s4 buf_in =
            some ((ops2.decrypt s4.knet_h inst2 buf_in log_level_t.KNET_LOG_ERR).ret,
              buf_out, s5) :=
  ⟨by rfl, by rfl,
    scenario_fini_old_slot 2 1 1 1 0 (tag_cfg "nss" "sha1" [7]) (tag_cfg "nss" "sha256" [9])
      env_ok env_ok state_one state_two (by rfl) (by rfl)⟩

/-! ## Link ACL -/

/-- The scan returns the action of the first matching entry, and rejects
when there is none. -/
lemma check_validate_scan_first (checkip : sockaddr_storage) :
    ∀ L : List acl_entry,
      check_validate_scan L checkip =
        match L.find? (fun e => acl_match e checkip) with
        | some e => e.acceptreject
        | none => check_acceptreject_t.CHECK_REJECT := by
  intro L
  induction L with
  | nil => rfl
  | cons e rest ih =>
    unfold check_validate_scan
    by_cases hm : acl_match e checkip = true
    · rw [if_pos hm, List.find?_cons_of_pos rest
        (show (fun e => acl_match e checkip) e = true from hm)]
    · rw [if_neg hm, List.find?_cons_of_neg rest
        (show ¬ (fun e => acl_match e checkip) e = true from hm)]
      exact ih

/-- After `check_add` of each entry in turn, the list of (sock, transport)
is the old list followed by the entries, in order. -/
lemma check_add_all_lists (sock : Int) (transport : Nat) :
    ∀ (L : List acl_entry) (st : acl_store),
      (check_add_all st sock transport L).lists sock transport =
        st.lists sock transport ++ L := by
  intro L
  induction L with
  | nil => intro st; simp [check_add_all]
  | cons e rest ih =>
    intro st
    unfold check_add_all
    rw [ih]
    simp [check_add]

/-- C20: for every list of entries added by `check_add` to the ACL of a
(socket, transport) pair of a new handle, and every address,
`check_validate` returns the action of the first entry, in the order of
addition, that matches the address under the predicate of its kind, and
`CHECK_REJECT` when no entry matches; and this holds for the list of any
store. -/
theorem check_validate_first_match (L : List acl_entry) (sock : Int) (transport : Nat)
    (checkip : sockaddr_storage) :
    (check_validate (check_add_all acl_empty sock transport L) sock transport checkip =
      match L.find? (fun e => acl_match e checkip) with
      | some e => e.acceptreject
      | none => check_acceptreject_t.CHECK_REJECT) ∧
    (∀ st : acl_store, check_validate st sock transport checkip =
      match (st.lists sock transport).find? (fun e => acl_match e checkip) with
      | some e => e.acceptreject
      | none => check_acceptreject_t.CHECK_REJECT) := by
  constructor
  · unfold check_validate
    rw [check_add_all_lists, check_validate_scan_first]
    simp [acl_empty]
  · intro st
    exact check_validate_scan_first checkip _

/-- End-to-end scenario 5 on the modelled ACL: an ADDRESS entry accepting
10.0.0.1 followed by a RANGE entry rejecting 10.0.0.0..10.0.0.255. -/
lemma check_validate_scenario_five :
    check_validate
      (check_add_all acl_empty 3 1
        [{ check_type := check_type_t.CHECK_TYPE_ADDRESS, ip1 := ipv4 10 0 0 1,
           ip2 := ipv4 10 0 0 1, acceptreject := check_acceptreject_t.CHECK_ACCEPT },
         { check_type := check_type_t.CHECK_TYPE_RANGE, ip1 := ipv4 10 0 0 0,
           ip2 := ipv4 10 0 0 255, acceptreject := check_acceptreject_t.CHECK_REJECT }])
      3 1 (ipv4 10 0 0 1) = check_acceptreject_t.CHECK_ACCEPT ∧
    check_validate
      (check_add_all acl_empty 3 1
        [{ check_type := check_type_t.CHECK_TYPE_ADDRESS, ip1 := ipv4 10 0 0 1,
           ip2 := ipv4 10 0 0 1, acceptreject := check_acceptreject_t.CHECK_ACCEPT },
         { check_type := check_type_t.CHECK_TYPE_RANGE, ip1 := ipv4 10 0 0 0,
           ip2 := ipv4 10 0 0 255, acceptreject := check_acceptreject_t.CHECK_REJECT }])
      3 1 (ipv4 10 0 0 2) = check_acceptreject_t.CHECK_REJECT ∧
    check_validate
      (check_add_all acl_empty 3 1
        [{ check_type := check_type_t.CHECK_TYPE_ADDRESS, ip1 := ipv4 10 0 0 1,
           ip2 := ipv4 10 0 0 1, acceptreject := check_acceptreject_t.CHECK_ACCEPT },
         { check_type := check_type_t.CHECK_TYPE_RANGE, ip1 := ipv4 10 0 0 0,
           ip2 := ipv4 10 0 0 255, acceptreject := check_acceptreject_t.CHECK_REJECT }])
      3 1 (ipv4 192 168 0 1) = check_acceptreject_t.CHECK_REJECT := by
  refine ⟨by decide, by decide, by decide⟩

/-- End-to-end scenario 6 on the modelled ACL: a MASK entry accepting
10.0.0.0 under 255.255.255.0. -/
lemma check_validate_scenario_six :
    check_validate
      (check_add_all acl_empty 3 1
        [{ check_type := check_type_t.CHECK_TYPE_MASK, ip1 := ipv4 10 0 0 0,
           ip2 := ipv4 255 255 255 0, acceptreject := check_acceptreject_t.CHECK_ACCEPT }])
      3 1 (ipv4 10 0 0 99) = check_acceptreject_t.CHECK_ACCEPT ∧
    check_validate
      (check_add_all acl_empty 3 1
        [{ check_type := check_type_t.CHECK_TYPE_MASK, ip1 := ipv4 10 0 0 0,
           ip2 := ipv4 255 255 255 0, acceptreject := check_acceptreject_t.CHECK_ACCEPT }])
      3 1 (ipv4 10 0 1 1) = check_acceptreject_t.CHECK_REJECT := by
  refine ⟨by decide, by decide⟩

/-! ## crypto_get_model -/

/-- The loop of `crypto_get_model` either finds no row with the name and
returns -1, or returns the index (counted from `idx`) of the first row with
the name. -/
lemma crypto_get_model_loop_first (model : String) :
    ∀ (tbl : List crypto_model_t) (idx : Nat),
      (crypto_get_model_loop tbl model idx = -1 ∧ ∀ row ∈ tbl, row.model_name ≠ model) ∨
      (∃ (i : Nat) (row : crypto_model_t), tbl[i]? = some row ∧ row.model_name = model ∧
        (∀ (j : Nat) (row' : crypto_model_t), j < i → tbl[j]? = some row' →
          row'.model_name ≠ model) ∧
        crypto_get_model_loop tbl model idx = ((idx + i : Nat) : Int)) := by
  intro tbl
  induction tbl with
  | nil =>
    intro idx
    exact Or.inl ⟨rfl, fun row hrow => absurd hrow (List.not_mem_nil row)⟩
  | cons row rest ih =>
    intro idx
    unfold crypto_get_model_loop
    by_cases hname : row.model_name = model
    · rw [if_pos hname]
      refine Or.inr ⟨0, row, by simp, hname, ?_, by simp⟩
      intro j row' hj
      exact absurd hj (Nat.not_lt_zero j)
    · rw [if_neg hname]
      rcases ih (idx + 1) with ⟨hneg, hall⟩ | ⟨i, row1, hrow1, hname1, hfirst, hres⟩
      · refine Or.inl ⟨hneg, ?_⟩
        intro r hr
        rcases List.mem_cons.mp hr with rfl | hr
        · exact hname
        · exact hall r hr
      · refine Or.inr ⟨i + 1, row1, by simpa using hrow1, hname1, ?_, ?_⟩
        · intro j row' hj hrow'
          cases j with
          | zero =>
            simp only [List.getElem?_cons_zero, Option.some.injEq] at hrow'
            rw [← hrow']
            exact hname
          | succ j' =>
            simp only [List.getElem?_cons_succ] at hrow'
            exact hfirst j' row' (by omega) hrow'
        · rw [hres]
          congr 1
          omega

/-- C24: `crypto_get_model` returns index `i` exactly when row `i` is the
first row of the backend table whose `model_name` equals the string; it
returns -1 exactly when no row has that name, and nothing else; and for the
table as compiled "nss" maps to 0, "openssl" to 1 and every other string to
-1. -/
theorem crypto_get_model_first (tbl : List crypto_model_t) (model : String) :
    (∀ i : Nat, crypto_get_model tbl model = (i : Int) ↔
      ((∃ row, tbl[i]? = some row ∧ row.model_name = model) ∧
       ∀ (j : Nat) (row' : crypto_model_t), j < i → tbl[j]? = some row' →
         row'.model_name ≠ model)) ∧
    (crypto_get_model tbl model = -1 ↔ ∀ row ∈ tbl, row.model_name ≠ model) ∧
    (crypto_get_model tbl model = -1 ∨ ∃ i : Nat, crypto_get_model tbl model = (i : Int)) ∧
    (∀ NSS OPENSSL : Nat,
      crypto_get_model (crypto_modules_cmds NSS OPENSSL) "nss" = 0 ∧
      crypto_get_model (crypto_modules_cmds NSS OPENSSL) "openssl" = 1 ∧
      (model ≠ "nss" → model ≠ "openssl" →
        crypto_get_model (crypto_modules_cmds NSS OPENSSL) model = -1)) := by
  have hloop := crypto_get_model_loop_first model tbl 0
  simp only [Nat.zero_add] at hloop
  refine ⟨?_, ?_, ?_, ?_⟩
  · intro i
    constructor
    · intro hi
      rcases hloop with ⟨hneg, _⟩ | ⟨i', row, hrow, hname, hfirst, hres⟩
      · unfold crypto_get_model at hi
        rw [hneg] at hi
        omega
      · unfold crypto_get_model at hi
        rw [hres] at hi
        have hii : i' = i := by omega
        subst hii
        exact ⟨⟨row, hrow, hname⟩, hfirst⟩
    · rintro ⟨⟨row, hrow, hname⟩, hfirst⟩
      rcases hloop with ⟨_, hall⟩ | ⟨i', row1, hrow1, hname1, hfirst1, hres⟩
      · exact absurd hname (hall row (List.getElem?_mem hrow))
      · unfold crypto_get_model
        rw [hres]
        have hii : i' = i := by
          rcases Nat.lt_trichotomy i' i with hlt | heq | hgt
          · exact absurd hname1 (hfirst i' row1 hlt hrow1)
          · exact heq
          · exact absurd hname (hfirst1 i row hgt hrow)
        rw [hii]
  · constructor
    · intro hneg
      rcases hloop with ⟨_, hall⟩ | ⟨i', _, _, _, _, hres⟩
      · exact hall
      · unfold crypto_get_model at hneg
        rw [hres] at hneg
        omega
    · intro hall
      exact crypto_get_model_loop_unknown model tbl 0 hall
  · rcases hloop with ⟨hneg, _⟩ | ⟨i', _, _, _, _, hres⟩
    · exact Or.inl hneg
    · exact Or.inr ⟨i', hres⟩
  · intro NSS OPENSSL
    refine ⟨by rfl, by rfl, ?_⟩
    intro h1 h2
    apply crypto_get_model_loop_unknown
    intro row hrow
    simp only [crypto_modules_cmds, List.mem_cons, List.mem_singleton,
      List.not_mem_nil, or_false] at hrow
    rcases hrow with rfl | rfl
    · exact fun h => h1 h.symm
    · exact fun h => h2 h.symm

/-- Witness for C24: "openssl" in `table_loaded`. -/
theorem crypto_get_model_first_witness :
    crypto_get_model table_loaded "openssl" = ((1 : Nat) : Int) ∧
    ((∃ row, table_loaded[1]? = some row ∧ row.model_name = "openssl") ∧
      ∀ (j : Nat) (row' : crypto_model_t), j < 1 → table_loaded[j]? = some row' →
        row'.model_name ≠ "openssl") ∧
    crypto_get_model table_loaded "unknown" = -1 :=
  ⟨by rfl,
    ((crypto_get_model_first table_loaded "openssl").1 1).mp (by rfl),
    (crypto_get_model_first table_loaded "unknown").2.1.mpr (by
      intro row hrow
      simp only [table_loaded, List.mem_cons, List.mem_singleton,
        List.not_mem_nil, or_false] at hrow
      rcases hrow with rfl | rfl <;> decide)⟩

/-! ## The instance lookups of the data path are defined -/

/-- C25: in every reachable state with a non-zero slot in use, the slot at
that index holds an instance, and `crypto_encrypt_and_sign`,
`crypto_encrypt_and_signv` and `crypto_authenticate_and_decrypt` are
defined: their lookups `crypto_instance[in_use]` and
`crypto_modules_cmds[model].ops` find an instance and an operation table. -/
theorem in_use_lookup_defined (MAX ABI NSS OPENSSL : Nat) (s : state)
    (hreach : reachable MAX ABI NSS OPENSSL s)
    (huse : s.knet_h.crypto_in_use_config ≠ 0) :
    (∃ inst ops,
      s.knet_h.crypto_instance[s.knet_h.crypto_in_use_config]? = some (some inst) ∧
      instance_ops s.crypto_modules_cmds inst = some ops) ∧
    1 ≤ s.knet_h.crypto_in_use_config ∧ s.knet_h.crypto_in_use_config ≤ MAX ∧
    (∀ buf_in, ∃ res, crypto_encrypt_and_sign s buf_in = some res) ∧
    (∀ iov_in, ∃ res, crypto_encrypt_and_signv s iov_in = some res) ∧
    (∀ buf_in, ∃ res, crypto_authenticate_and_decrypt MAX s buf_in = some res) := by
  obtain ⟨hlen, h1, hocc, hops⟩ := reachable_receive_ready hreach huse
  obtain ⟨inst, hslot⟩ : ∃ inst,
      s.knet_h.crypto_instance[s.knet_h.crypto_in_use_config]? = some (some inst) := by
    unfold occupied at hocc
    split at hocc
    · next inst hslot => exact ⟨inst, hslot⟩
    · exact absurd hocc (by simp)
  obtain ⟨ops, hopsk⟩ := hops _ inst hslot
  have hlt := (List.getElem?_eq_some_iff.mp hslot).1
  refine ⟨⟨inst, ops, hslot, hopsk⟩, h1, by omega, ?_, ?_, ?_⟩
  · intro buf_in
    simp only [crypto_encrypt_and_sign, hslot, hopsk]
    exact ⟨_, rfl⟩
  · intro iov_in
    simp only [crypto_encrypt_and_signv, hslot, hopsk]
    exact ⟨_, rfl⟩
  · intro buf_in
    obtain ⟨_, r, buf_out, s', _, hcall, _⟩ :=
      authenticate_and_decrypt_outcome MAX s buf_in hlen hocc hops
    exact ⟨_, hcall⟩

/-- Witness for C25 on `state_two` (slot 1 in use). -/
theorem in_use_lookup_defined_witness :
    reachable 2 1 1 1 state_two ∧ state_two.knet_h.crypto_in_use_config ≠ 0 ∧
    (∃ inst ops,
      state_two.knet_h.crypto_instance[state_two.knet_h.crypto_in_use_config]?
        = some (some inst) ∧
      instance_ops state_two.crypto_modules_cmds inst = some ops) ∧
    1 ≤ state_two.knet_h.crypto_in_use_config ∧ state_two.knet_h.crypto_in_use_config ≤ 2 ∧
    (∀ buf_in, ∃ res, crypto_encrypt_and_sign state_two buf_in = some res) ∧
    (∀ iov_in, ∃ res, crypto_encrypt_and_signv state_two iov_in = some res) ∧
    (∀ buf_in, ∃ res, crypto_authenticate_and_decrypt 2 state_two buf_in = some res) :=
  ⟨reachable_state_two, by decide,
    in_use_lookup_defined 2 1 1 1 state_two reachable_state_two (by decide)⟩

/-! ## Port of the local test address -/

/-- C26, the code at the failing inputs: with pid 32767 and offset 32769 the
port is 65536, which is not a 16-bit port; with pid 32767 and offset 32770
the sum 65537 is masked to the privileged port 1. -/
theorem make_local_sockaddr_port_out_of_range :
    _make_local_sockaddr 32767 32769 AF_INET = ("127.0.0.1", 65536) ∧
    _make_local_sockaddr 32767 32770 AF_INET = ("127.0.0.1", 1) ∧
    ¬ (1024 ≤ (_make_local_sockaddr 32767 32769 AF_INET).2 ∧
        (_make_local_sockaddr 32767 32769 AF_INET).2 ≤ 65535) ∧
    ¬ (1024 ≤ (_make_local_sockaddr 32767 32770 AF_INET).2 ∧
        (_make_local_sockaddr 32767 32770 AF_INET).2 ≤ 65535) := by
  refine ⟨by decide, by decide, by decide, by decide⟩

/-- Where the derived port is in range: when pid plus offset is below 65536
the port is at least 1024 and at most 65535. -/
lemma make_local_sockaddr_port_small (pid offset family : Nat)
    (hsum : pid + offset < 65536) :
    1024 ≤ (_make_local_sockaddr pid offset family).2 ∧
    (_make_local_sockaddr pid offset family).2 ≤ 65535 := by
  have hp : pid % 2 ^ 32 = pid := Nat.mod_eq_of_lt (by omega)
  have ho : offset % 2 ^ 16 = offset := Nat.mod_eq_of_lt (by omega)
  have hs : (pid + offset) % 2 ^ 32 = pid + offset := Nat.mod_eq_of_lt (by omega)
  unfold _make_local_sockaddr
  simp only [hp, ho, hs]
  by_cases hlow : pid + offset < 1024
  · have h1 : (pid + offset + 1024) % 2 ^ 32 = pid + offset + 1024 :=
      Nat.mod_eq_of_lt (by omega)
    have h2 : ¬ pid + offset + 1024 > 65536 := by omega
    simp only [hlow, if_true, h1, h2, if_false]
    split <;> exact ⟨by omega, by omega⟩
  · have h2 : ¬ pid + offset > 65536 := by omega
    simp only [hlow, if_false, h2]
    split <;> exact ⟨by omega, by omega⟩

/-! ## crypto_init: the calls it makes -/

/-- The calls made by the succeeding half of `out:`: none when the slot was
empty, and otherwise the `fini` hook of the replaced instance, once, when
its backend has one. -/
lemma crypto_init_success_calls {s s' : state} {config_num : Nat}
    {current : Option crypto_instance} {new : crypto_instance} {r : Int}
    (hcall : crypto_init_success s config_num current new = some (r, s')) :
    (current = none ∧ s'.calls = s.calls) ∨
    (∃ cur ops, current = some cur ∧ instance_ops s.crypto_modules_cmds cur = some ops ∧
      s'.calls = s.calls ++
        (if ops.fini.isSome then [call_t.fini cur.model cur] else [])) := by
  unfold crypto_init_success at hcall
  split at hcall
  · simp only [Option.some.injEq, Prod.mk.injEq] at hcall
    obtain ⟨_, rfl⟩ := hcall
    exact Or.inl ⟨rfl, rfl⟩
  · next cur =>
    split at hcall
    · exact absurd hcall (by simp)
    · next ops hops =>
      split at hcall
      · next hfini =>
        simp only [Option.some.injEq, Prod.mk.injEq] at hcall
        obtain ⟨_, rfl⟩ := hcall
        refine Or.inr ⟨cur, ops, rfl, hops, ?_⟩
        simp [hfini]
      · next f hfini =>
        simp only [Option.some.injEq, Prod.mk.injEq] at hcall
        obtain ⟨_, rfl⟩ := hcall
        refine Or.inr ⟨cur, ops, rfl, hops, ?_⟩
        simp [hfini]

/-- The calls made by the part of `crypto_init` after the lazy load. -/
lemma crypto_init_instance_calls {s s' : state} {cfg : knet_handle_crypto_cfg}
    {config_num model : Nat} {env : crypto_init_env} {current : Option crypto_instance}
    {r : Int} (hcall : crypto_init_instance s cfg config_num env current model = some (r, s')) :
    ∃ ip finis : List call_t, s'.calls = s.calls ++ ip ++ finis ∧
      (ip = [] ∨ ip = [call_t.init model]) ∧
      (r ≠ 0 → finis = []) ∧
      (r = 0 →
        (current = none ∧ finis = []) ∨
        (∃ cur ops, current = some cur ∧ instance_ops s'.crypto_modules_cmds cur = some ops ∧
          finis = if ops.fini.isSome then [call_t.fini cur.model cur] else [])) := by
  unfold crypto_init_instance at hcall
  split at hcall
  · simp only [crypto_init_fail, Option.some.injEq, Prod.mk.injEq] at hcall
    obtain ⟨rfl, rfl⟩ := hcall
    exact ⟨[], [], by simp, Or.inl rfl, fun _ => rfl, fun h => absurd h (by decide)⟩
  · split at hcall
    · exact absurd hcall (by simp)
    · split at hcall
      · exact absurd hcall (by simp)
      · next ops hops =>
        simp only at hcall
        split at hcall
        · simp only [crypto_init_fail, Option.some.injEq, Prod.mk.injEq] at hcall
          obtain ⟨rfl, rfl⟩ := hcall
          exact ⟨[call_t.init model], [], by simp, Or.inr rfl, fun _ => rfl,
            fun h => absurd h (by decide)⟩
        · obtain ⟨hr, _, ht, _⟩ := crypto_init_success_spec hcall
          rcases crypto_init_success_calls hcall with ⟨hnone, hc⟩ | ⟨cur, o, hcur, ho, hc⟩
          · exact ⟨[call_t.init model], [], by rw [hc]; simp, Or.inr rfl, fun _ => rfl,
              fun _ => Or.inl ⟨hnone, rfl⟩⟩
          · refine ⟨[call_t.init model], _, hc, Or.inr rfl, fun hne => absurd hr hne,
              fun _ => Or.inr ⟨cur, o, hcur, ?_, rfl⟩⟩
            rw [ht]
            exact ho

/-- The calls made by a returning `crypto_init`, in order: the module loader
at most once, and only when the row of the requested backend is not marked
loaded; then the backend `init` hook at most once; then, only on success into
an occupied slot, the `fini` hook of the replaced instance when its backend
has one. -/
lemma crypto_init_calls {ABI : Nat} {s s' : state} {cfg : knet_handle_crypto_cfg}
    {config_num : Nat} {env : crypto_init_env} {r : Int}
    (hcall : crypto_init ABI s cfg config_num env = some (r, s')) :
    ∃ lp ip finis : List call_t, s'.calls = s.calls ++ lp ++ ip ++ finis ∧
      (lp = [] ∨ ∃ (model : Nat) (row : crypto_model_t),
        crypto_get_model s.crypto_modules_cmds cfg.crypto_model = (model : Int) ∧
        s.crypto_modules_cmds[model]? = some row ∧ row.loaded = 0 ∧
        lp = [call_t.load_module row.model_name]) ∧
      (ip = [] ∨ ∃ model : Nat, ip = [call_t.init model]) ∧
      (r ≠ 0 → finis = []) ∧
      (r = 0 → ∃ current, s.knet_h.crypto_instance[config_num]? = some current ∧
        ((current = none ∧ finis = []) ∨
         (∃ cur ops, current = some cur ∧
            instance_ops s'.crypto_modules_cmds cur = some ops ∧
            finis = if ops.fini.isSome then [call_t.fini cur.model cur] else []))) := by
  unfold crypto_init at hcall
  split at hcall
  · exact absurd hcall (by simp)
  · next current hcurrent =>
    simp only at hcall
    split at hcall
    · simp only [Option.some.injEq, Prod.mk.injEq] at hcall
      obtain ⟨rfl, rfl⟩ := hcall
      exact ⟨[], [], [], by simp, Or.inl rfl, Or.inl rfl, fun _ => rfl,
        fun h => absurd h (by decide)⟩
    · next hmodel =>
      split at hcall
      · exact absurd hcall (by simp)
      · next row hrow =>
        split at hcall
        · simp only [Option.some.injEq, Prod.mk.injEq] at hcall
          obtain ⟨rfl, rfl⟩ := hcall
          exact ⟨[], [], [], by simp, Or.inl rfl, Or.inl rfl, fun _ => rfl,
            fun h => absurd h (by decide)⟩
        · split at hcall
          · simp only [Option.some.injEq, Prod.mk.injEq] at hcall
            obtain ⟨rfl, rfl⟩ := hcall
            exact ⟨[], [], [], by simp, Or.inl rfl, Or.inl rfl, fun _ => rfl,
              fun h => absurd h (by decide)⟩
          · have hm : crypto_get_model s.crypto_modules_cmds cfg.crypto_model =
                (((crypto_get_model s.crypto_modules_cmds cfg.crypto_model).toNat : Nat) : Int) :=
              (Int.toNat_of_nonneg (not_lt.mp hmodel)).symm
            unfold crypto_init_locked at hcall
            split at hcall
            · next hl =>
              have hlp : ∃ (model : Nat) (row0 : crypto_model_t),
                  crypto_get_model s.crypto_modules_cmds cfg.crypto_model = (model : Int) ∧
                  s.crypto_modules_cmds[model]? = some row0 ∧ row0.loaded = 0 ∧
                  [call_t.load_module row.model_name] =
                    [call_t.load_module row0.model_name] :=
                ⟨_, row, hm, hrow, hl, rfl⟩
              simp only at hcall
              split at hcall
              · simp only [crypto_init_fail, Option.some.injEq, Prod.mk.injEq] at hcall
                obtain ⟨rfl, rfl⟩ := hcall
                exact ⟨[call_t.load_module row.model_name], [], [], by simp, Or.inr hlp,
                  Or.inl rfl, fun _ => rfl, fun h => absurd h (by decide)⟩
              · split at hcall
                · simp only [crypto_init_fail, Option.some.injEq, Prod.mk.injEq] at hcall
                  obtain ⟨rfl, rfl⟩ := hcall
                  exact ⟨[call_t.load_module row.model_name], [], [], by simp, Or.inr hlp,
                    Or.inl rfl, fun _ => rfl, fun h => absurd h (by decide)⟩
                · obtain ⟨ip, finis, hc, hip, hfail, hok⟩ := crypto_init_instance_calls hcall
                  refine ⟨[call_t.load_module row.model_name], ip, finis, ?_, Or.inr hlp,
                    ?_, hfail, fun h0 => ⟨current, hcurrent, hok h0⟩⟩
                  · rw [hc]
                  · rcases hip with h | h
                    · exact Or.inl h
                    · exact Or.inr ⟨_, h⟩
            · obtain ⟨ip, finis, hc, hip, hfail, hok⟩ := crypto_init_instance_calls hcall
              refine ⟨[], ip, finis, by rw [hc]; simp, Or.inl rfl, ?_, hfail,
                fun h0 => ⟨current, hcurrent, hok h0⟩⟩
              rcases hip with h | h
              · exact Or.inl h
              · exact Or.inr ⟨_, h⟩

/-- Loader and `init` calls are not `fini` calls; the `fini` calls of a
`crypto_init` are its last part. -/
lemma fini_calls_of_parts {lp ip finis : List call_t}
    (hlp : lp = [] ∨ ∃ name : String, lp = [call_t.load_module name])
    (hip : ip = [] ∨ ∃ model : Nat, ip = [call_t.init model])
    (hfinis : finis = [] ∨ ∃ (m : Nat) (inst : crypto_instance), finis = [call_t.fini m inst]) :
    (lp ++ ip ++ finis).filter is_fini_call = finis := by
  rcases hlp with rfl | ⟨name, rfl⟩ <;> rcases hip with rfl | ⟨model, rfl⟩ <;>
    rcases hfinis with rfl | ⟨m, inst, rfl⟩ <;> simp [is_fini_call]

/-- C22: the calls a returning `crypto_init` adds to the record contain no
`fini` call when it fails (whatever the cause, the `init` hook included) and
none when it succeeds into an empty slot; when it succeeds into an occupied
slot the only `fini` call is one call on the instance that was in the slot
before, made exactly when the backend of that instance has a `fini` hook.  So
the `fini` hook is never run on the new instance. -/
theorem crypto_init_fini_calls (ABI : Nat) (s s' : state) (cfg : knet_handle_crypto_cfg)
    (config_num : Nat) (env : crypto_init_env) (r : Int)
    (hcall : crypto_init ABI s cfg config_num env = some (r, s')) :
    ∃ added : List call_t, s'.calls = s.calls ++ added ∧
      (r ≠ 0 → added.filter is_fini_call = []) ∧
      (r = 0 → s.knet_h.crypto_instance[config_num]? = some none →
        added.filter is_fini_call = []) ∧
      (∀ cur, r = 0 → s.knet_h.crypto_instance[config_num]? = some (some cur) →
        ∃ ops, instance_ops s'.crypto_modules_cmds cur = some ops ∧
          added.filter is_fini_call =
            if ops.fini.isSome then [call_t.fini cur.model cur] else []) := by
  obtain ⟨lp, ip, finis, hc, hlp, hip, hfail, hok⟩ := crypto_init_calls hcall
  have hlp' : lp = [] ∨ ∃ name : String, lp = [call_t.load_module name] := by
    rcases hlp with h | ⟨_, row, _, _, _, h⟩
    · exact Or.inl h
    · exact Or.inr ⟨row.model_name, h⟩
  refine ⟨lp ++ ip ++ finis, by rw [hc]; simp, ?_, ?_, ?_⟩
  · intro hne
    rw [fini_calls_of_parts hlp' hip (Or.inl (hfail hne))]
    exact hfail hne
  · intro h0 hemp
    obtain ⟨current, hcur, hres⟩ := hok h0
    rw [hemp] at hcur
    simp only [Option.some.injEq] at hcur
    rcases hres with ⟨_, hf⟩ | ⟨cur, _, hc', _, _⟩
    · rw [fini_calls_of_parts hlp' hip (Or.inl hf)]
      exact hf
    · rw [hc'] at hcur
      exact absurd hcur (by simp)
  · intro cur h0 hocc
    obtain ⟨current, hcur, hres⟩ := hok h0
    rw [hocc] at hcur
    simp only [Option.some.injEq] at hcur
    rcases hres with ⟨hnone, _⟩ | ⟨cur', ops, hc', hops, hf⟩
    · rw [hnone] at hcur
      exact absurd hcur (by simp)
    · rw [hc'] at hcur
      simp only [Option.some.injEq] at hcur
      subst hcur
      refine ⟨ops, hops, ?_⟩
      have hshape : finis = [] ∨
          ∃ (m : Nat) (inst : crypto_instance), finis = [call_t.fini m inst] := by
        rw [hf]
        split
        · exact Or.inr ⟨_, _, rfl⟩
        · exact Or.inl rfl
      rw [fini_calls_of_parts hlp' hip hshape]
      exact hf

/-- Witness for C22: replacing the instance in slot 1 of `state_one` runs
the `fini` hook once, on the instance that was there (key 7), not on the new
one (key 9). -/
theorem crypto_init_fini_calls_witness :
    crypto_init 1 state_one (tag_cfg "nss" "sha256" [9]) 1 env_ok =
      some (0, { state_one with
        knet_h := { state_one.knet_h with
          crypto_instance := [none, some (tag_instance 9 32), none],
          sec_hash_size := 32 },
        calls := state_one.calls ++ [call_t.init 0, call_t.fini 0 (tag_instance 7 20)] }) ∧
    ∃ added : List call_t,
      ({ state_one with
        knet_h := { state_one.knet_h with
          crypto_instance := [none, some (tag_instance 9 32), none],
          sec_hash_size := 32 },
        calls := state_one.calls ++ [call_t.init 0, call_t.fini 0 (tag_instance 7 20)] }
        : state).calls = state_one.calls ++ added ∧
      ((0 : Int) ≠ 0 → added.filter is_fini_call = []) ∧
      ((0 : Int) = 0 → state_one.knet_h.crypto_instance[1]? = some none →
        added.filter is_fini_call = []) ∧
      (∀ cur, (0 : Int) = 0 → state_one.knet_h.crypto_instance[1]? = some (some cur) →
        ∃ ops, instance_ops state_one.crypto_modules_cmds cur = some ops ∧
          added.filter is_fini_call =
            if ops.fini.isSome then [call_t.fini cur.model cur] else []) :=
  ⟨by rfl,
    crypto_init_fini_calls 1 state_one _ (tag_cfg "nss" "sha256" [9]) 1 env_ok 0 (by rfl)⟩

/-! ## Receive path: the decrypt calls it makes -/

/-- The attempts made are among the attempts, in the same order. -/
lemma attempts_made_sublist {α : Type} (ok : α → Bool) :
    ∀ l : List α, (attempts_made ok l).Sublist l := by
  intro l
  induction l with
  | nil => exact List.Sublist.slnil
  | cons a rest ih =>
    unfold attempts_made
    split
    · exact List.Sublist.cons₂ a (List.nil_sublist rest)
    · exact List.Sublist.cons₂ a ih

/-- The attempts made on a mapped list. -/
lemma attempts_made_map {α β : Type} (f : α → β) (ok : β → Bool) :
    ∀ l : List α, attempts_made ok (l.map f) = (attempts_made (fun a => ok (f a)) l).map f := by
  intro l
  induction l with
  | nil => rfl
  | cons a rest ih =>
    simp only [List.map_cons, attempts_made]
    split
    · rfl
    · rw [List.map_cons, ih]

/-- The calls the fallback loop adds are the `decrypt` calls, at ERR, on the
alternatives among the slots it visits, in order, up to and including the
first that accepts. -/
lemma decrypt_alternatives_calls (buf_in : List Nat) :
    ∀ (l : List Nat) (err : Int) (buf_out : List Nat) (s : state) (r : Int)
      (o : List Nat) (s' : state),
      decrypt_alternatives buf_in l err buf_out s = some (r, o, s') →
      s'.calls = s.calls ++
        (attempts_made
          (fun j => accepted s.knet_h s.crypto_modules_cmds buf_in
            (j, log_level_t.KNET_LOG_ERR))
          (l.filter (is_alternative s.knet_h))).map
          (fun j => call_t.decrypt j log_level_t.KNET_LOG_ERR) := by
  intro l
  induction l with
  | nil =>
    intro err buf_out s r o s' hcall
    simp only [decrypt_alternatives, Option.some.injEq, Prod.mk.injEq] at hcall
    obtain ⟨_, _, rfl⟩ := hcall
    simp [attempts_made]
  | cons i rest ih =>
    intro err buf_out s r o s' hcall
    unfold decrypt_alternatives at hcall
    split at hcall
    · next hk =>
      have hna : is_alternative s.knet_h i = false := by
        simp [is_alternative, hk]
      rw [List.filter_cons_of_neg (by simp [hna])]
      exact ih err buf_out s r o s' hcall
    · next hk =>
      split at hcall
      · exact absurd hcall (by simp)
      · next hslot =>
        have hna : is_alternative s.knet_h i = false := by
          simp [is_alternative, occupied_of_slot.2 hslot]
        rw [List.filter_cons_of_neg (by simp [hna])]
        exact ih err buf_out s r o s' hcall
      · next inst hslot =>
        have hya : is_alternative s.knet_h i = true := by
          simp [is_alternative, occupied_of_slot.1 inst hslot, hk]
        rw [List.filter_cons_of_pos hya]
        split at hcall
        · exact absurd hcall (by simp)
        · next ops hopsi =>
          have hacc : accepted s.knet_h s.crypto_modules_cmds buf_in
              (i, log_level_t.KNET_LOG_ERR) =
              decide ((ops.decrypt s.knet_h inst buf_in log_level_t.KNET_LOG_ERR).ret = 0) := by
            simp only [accepted, backend_decrypt, hslot, hopsi]
          simp only at hcall
          unfold attempts_made
          split at hcall
          · next hret =>
            simp only [Option.some.injEq, Prod.mk.injEq] at hcall
            obtain ⟨_, _, rfl⟩ := hcall
            simp [hacc, hret]
          · next hret =>
            have hrec := ih _ _ _ r o s' hcall
            simp only [hacc, hret, decide_False, Bool.false_eq_true, if_false,
              List.map_cons]
            rw [hrec]
            simp

/-- The slot ids of the attempts are pairwise different: the slot in use is
not among the alternatives, and no alternative occurs twice. -/
lemma decrypt_attempts_nodup (MAX : Nat) (h : knet_handle) :
    ((decrypt_attempts MAX h).map Prod.fst).Nodup := by
  have hmap : (decrypt_attempts MAX h).map Prod.fst =
      h.crypto_in_use_config :: alternative_slots MAX h := by
    simp [decrypt_attempts, List.map_map, Function.comp_def]
  rw [hmap, List.nodup_cons]
  constructor
  · intro hmem
    unfold alternative_slots at hmem
    rw [List.mem_filter] at hmem
    simp [is_alternative] at hmem
  · exact (List.nodup_range' 1 MAX).filter _

/-- C23: on a handle whose slot in use is occupied,
`crypto_authenticate_and_decrypt` returns, and the backend `decrypt` calls it
makes are, in order, the attempts of the list (slot in use first, at DEBUG
when more than one slot in `1..MAX` is occupied and at ERR otherwise; then
the other occupied slots in ascending slot id at ERR) up to and including
the first that accepts.  No slot is tried twice, and when the instance in
use accepts, its call is the only one. -/
theorem authenticate_and_decrypt_calls (MAX : Nat) (s : state) (buf_in : List Nat)
    (hlen : s.knet_h.crypto_instance.length = MAX + 1)
    (huse : occupied s.knet_h s.knet_h.crypto_in_use_config = true)
    (hops : ∀ (i : Nat) (inst : crypto_instance),
      s.knet_h.crypto_instance[i]? = some (some inst) →
      ∃ ops, instance_ops s.crypto_modules_cmds inst = some ops) :
    ∃ (r : Int) (buf_out : List Nat) (s' : state),
      crypto_authenticate_and_decrypt MAX s buf_in = some (r, buf_out, s') ∧
      s'.calls = s.calls ++
        (attempts_made (accepted s.knet_h s.crypto_modules_cmds buf_in)
          (decrypt_attempts MAX s.knet_h)).map (fun a => call_t.decrypt a.1 a.2) ∧
      (1 < installed_count MAX s.knet_h →
        first_log_level MAX s.knet_h = log_level_t.KNET_LOG_DEBUG) ∧
      (installed_count MAX s.knet_h ≤ 1 →
        first_log_level MAX s.knet_h = log_level_t.KNET_LOG_ERR) ∧
      ((attempts_made (accepted s.knet_h s.crypto_modules_cmds buf_in)
          (decrypt_attempts MAX s.knet_h)).map Prod.fst).Nodup ∧
      (accepted s.knet_h s.crypto_modules_cmds buf_in
          (s.knet_h.crypto_in_use_config, first_log_level MAX s.knet_h) = true →
        s'.calls = s.calls ++
          [call_t.decrypt s.knet_h.crypto_in_use_config (first_log_level MAX s.knet_h)]) := by
  have hrange : ∀ i ∈ List.range' 1 MAX, i < s.knet_h.crypto_instance.length := by
    intro i hi
    rw [List.mem_range'_1] at hi
    omega
  obtain ⟨inst, hslot⟩ : ∃ inst,
      s.knet_h.crypto_instance[s.knet_h.crypto_in_use_config]? = some (some inst) := by
    unfold occupied at huse
    split at huse
    · next inst hslot => exact ⟨inst, hslot⟩
    · exact absurd huse (by simp)
  obtain ⟨ops, hopsk⟩ := hops _ inst hslot
  have hcount := count_configs_spec s.knet_h (List.range' 1 MAX) 0 hrange
  rw [Nat.zero_add] at hcount
  have hacc0 : accepted s.knet_h s.crypto_modules_cmds buf_in
      (s.knet_h.crypto_in_use_config, first_log_level MAX s.knet_h) =
      decide ((ops.decrypt s.knet_h inst buf_in (first_log_level MAX s.knet_h)).ret = 0) := by
    simp only [accepted, backend_decrypt, hslot, hopsk]
  have hlvl1 : 1 < installed_count MAX s.knet_h →
      first_log_level MAX s.knet_h = log_level_t.KNET_LOG_DEBUG := by
    intro h
    simp only [first_log_level, gt_iff_lt, h, if_true]
  have hlvl2 : installed_count MAX s.knet_h ≤ 1 →
      first_log_level MAX s.knet_h = log_level_t.KNET_LOG_ERR := by
    intro h
    have hn : ¬ 1 < installed_count MAX s.knet_h := by omega
    simp only [first_log_level, gt_iff_lt, hn, if_false]
  have hnodup : ((attempts_made (accepted s.knet_h s.crypto_modules_cmds buf_in)
      (decrypt_attempts MAX s.knet_h)).map Prod.fst).Nodup :=
    List.Nodup.sublist ((attempts_made_sublist _ _).map Prod.fst)
      (decrypt_attempts_nodup MAX s.knet_h)
  have hlvl : (if ((List.range' 1 MAX).filter (occupied s.knet_h)).length > 1
      then log_level_t.KNET_LOG_DEBUG else log_level_t.KNET_LOG_ERR) =
      first_log_level MAX s.knet_h := rfl
  by_cases hret : (ops.decrypt s.knet_h inst buf_in (first_log_level MAX s.knet_h)).ret = 0
  · have hmade : attempts_made (accepted s.knet_h s.crypto_modules_cmds buf_in)
        (decrypt_attempts MAX s.knet_h) =
        [(s.knet_h.crypto_in_use_config, first_log_level MAX s.knet_h)] := by
      simp only [decrypt_attempts, attempts_made, hacc0, hret, decide_True, if_true]
    have hcall : crypto_authenticate_and_decrypt MAX s buf_in = some
        ((ops.decrypt s.knet_h inst buf_in (first_log_level MAX s.knet_h)).ret,
         (ops.decrypt s.knet_h inst buf_in (first_log_level MAX s.knet_h)).buf_out,
         { s with errno := (ops.decrypt s.knet_h inst buf_in
                     (first_log_level MAX s.knet_h)).errno.getD s.errno,
                  calls := s.calls ++ [call_t.decrypt s.knet_h.crypto_in_use_config
                     (first_log_level MAX s.knet_h)] }) := by
      unfold crypto_authenticate_and_decrypt
      simp only [hcount, hslot, hopsk]
      rw [hlvl, if_neg (not_not.mpr hret)]
    refine ⟨_, _, _, hcall, ?_, hlvl1, hlvl2, hnodup, fun _ => rfl⟩
    rw [hmade]
    rfl
  · obtain ⟨s', hs', _, _⟩ := decrypt_alternatives_refines s.knet_h s.crypto_modules_cmds
      buf_in hops (List.range' 1 MAX)
      (ops.decrypt s.knet_h inst buf_in (first_log_level MAX s.knet_h)).ret
      (ops.decrypt s.knet_h inst buf_in (first_log_level MAX s.knet_h)).buf_out
      { s with errno := (ops.decrypt s.knet_h inst buf_in
                  (first_log_level MAX s.knet_h)).errno.getD s.errno,
               calls := s.calls ++ [call_t.decrypt s.knet_h.crypto_in_use_config
                  (first_log_level MAX s.knet_h)] }
      rfl rfl hrange
    obtain ⟨r, o, hs'⟩ : ∃ r o, decrypt_alternatives buf_in (List.range' 1 MAX)
        (ops.decrypt s.knet_h inst buf_in (first_log_level MAX s.knet_h)).ret
        (ops.decrypt s.knet_h inst buf_in (first_log_level MAX s.knet_h)).buf_out
        { s with errno := (ops.decrypt s.knet_h inst buf_in
                    (first_log_level MAX s.knet_h)).errno.getD s.errno,
                 calls := s.calls ++ [call_t.decrypt s.knet_h.crypto_in_use_config
                    (first_log_level MAX s.knet_h)] } = some (r, o, s') := ⟨_, _, hs'⟩
    have hcalls := decrypt_alternatives_calls buf_in _ _ _ _ r o s' hs'
    have hmade : attempts_made (accepted s.knet_h s.crypto_modules_cmds buf_in)
        (decrypt_attempts MAX s.knet_h) =
        (s.knet_h.crypto_in_use_config, first_log_level MAX s.knet_h) ::
          (attempts_made
            (fun j => accepted s.knet_h s.crypto_modules_cmds buf_in
              (j, log_level_t.KNET_LOG_ERR))
            (alternative_slots MAX s.knet_h)).map (fun j => (j, log_level_t.KNET_LOG_ERR)) := by
      simp only [decrypt_attempts, attempts_made, hacc0, hret, decide_False,
        Bool.false_eq_true, if_false]
      rw [attempts_made_map]
    refine ⟨r, o, s', ?_, ?_, hlvl1, hlvl2, hnodup, ?_⟩
    · unfold crypto_authenticate_and_decrypt
      simp only [hcount, hslot, hopsk]
      rw [hlvl, if_pos hret]
      exact hs'
    · rw [hcalls, hmade]
      simp [alternative_slots, List.map_map, Function.comp_def]
    · intro hacc
      rw [hacc0, decide_eq_true_eq] at hacc
      exact absurd hacc hret

/-- Witness for C23: in `state_two` a packet made with key 9 is tried on
slot 1 at DEBUG, rejected, tried on slot 2 at ERR and accepted. -/
theorem authenticate_and_decrypt_calls_witness :
    state_two.knet_h.crypto_instance.length = 2 + 1 ∧
    occupied state_two.knet_h state_two.knet_h.crypto_in_use_config = true ∧
    (crypto_authenticate_and_decrypt 2 state_two [9, 72, 105]).map (fun p => p.2.2.calls) =
      some (state_two.calls ++
        [call_t.decrypt 1 log_level_t.KNET_LOG_DEBUG,
         call_t.decrypt 2 log_level_t.KNET_LOG_ERR]) ∧
    ∃ (r : Int) (buf_out : List Nat) (s' : state),
      crypto_authenticate_and_decrypt 2 state_two [9, 72, 105] = some (r, buf_out, s') ∧
      s'.calls = state_two.calls ++
        (attempts_made (accepted state_two.knet_h state_two.crypto_modules_cmds [9, 72, 105])
          (decrypt_attempts 2 state_two.knet_h)).map (fun a => call_t.decrypt a.1 a.2) ∧
      (1 < installed_count 2 state_two.knet_h →
        first_log_level 2 state_two.knet_h = log_level_t.KNET_LOG_DEBUG) ∧
      (installed_count 2 state_two.knet_h ≤ 1 →
        first_log_level 2 state_two.knet_h = log_level_t.KNET_LOG_ERR) ∧
      ((attempts_made (accepted state_two.knet_h state_two.crypto_modules_cmds [9, 72, 105])
          (decrypt_attempts 2 state_two.knet_h)).map Prod.fst).Nodup ∧
      (accepted state_two.knet_h state_two.crypto_modules_cmds [9, 72, 105]
          (state_two.knet_h.crypto_in_use_config, first_log_level 2 state_two.knet_h) = true →
        s'.calls = state_two.calls ++
          [call_t.decrypt state_two.knet_h.crypto_in_use_config
            (first_log_level 2 state_two.knet_h)]) :=
  ⟨by rfl, by rfl, by rfl,
    authenticate_and_decrypt_calls 2 state_two [9, 72, 105] (by rfl) (by rfl) state_two_ops⟩

/-! ## The module loader across crypto_init calls -/

/-- Rewriting a row without touching its name keeps the names of the
table. -/
lemma names_set_same {tbl : List crypto_model_t} {model : Nat} {row row' : crypto_model_t}
    (hrow : tbl[model]? = some row) (hname : row'.model_name = row.model_name) :
    (tbl.set model row').map (fun r => r.model_name) = tbl.map (fun r => r.model_name) := by
  apply List.ext_getElem?
  intro n
  rw [List.getElem?_map, List.getElem?_map]
  by_cases hmn : model = n
  · subst hmn
    rw [List.getElem?_set_self (List.getElem?_eq_some_iff.mp hrow).1, hrow]
    simp [hname]
  · rw [List.getElem?_set_ne hmn]

/-- A returning `crypto_init` keeps the names of the backend table. -/
lemma crypto_init_table_names {ABI : Nat} {s s' : state} {cfg : knet_handle_crypto_cfg}
    {config_num : Nat} {env : crypto_init_env} {r : Int}
    (hcall : crypto_init ABI s cfg config_num env = some (r, s')) :
    s'.crypto_modules_cmds.map (fun r => r.model_name) =
      s.crypto_modules_cmds.map (fun r => r.model_name) := by
  unfold crypto_init at hcall
  split at hcall
  · exact absurd hcall (by simp)
  · simp only at hcall
    split at hcall
    · simp only [Option.some.injEq, Prod.mk.injEq] at hcall
      rw [← hcall.2]
    · split at hcall
      · exact absurd hcall (by simp)
      · next row hrow =>
        split at hcall
        · simp only [Option.some.injEq, Prod.mk.injEq] at hcall
          rw [← hcall.2]
        · split at hcall
          · simp only [Option.some.injEq, Prod.mk.injEq] at hcall
            rw [← hcall.2]
          · unfold crypto_init_locked at hcall
            split at hcall
            · simp only at hcall
              split at hcall
              · simp only [crypto_init_fail, Option.some.injEq, Prod.mk.injEq] at hcall
                rw [← hcall.2]
                exact names_set_same hrow rfl
              · split at hcall
                · simp only [crypto_init_fail, Option.some.injEq, Prod.mk.injEq] at hcall
                  rw [← hcall.2]
                  exact names_set_same hrow rfl
                · rw [(crypto_init_instance_spec hcall).1]
                  exact names_set_same hrow rfl
            · rw [(crypto_init_instance_spec hcall).1]

/-- The loop of `crypto_get_model` looks at the names only. -/
lemma crypto_get_model_loop_names (model : String) :
    ∀ (tbl tbl' : List crypto_model_t) (idx : Nat),
      tbl.map (fun r => r.model_name) = tbl'.map (fun r => r.model_name) →
      crypto_get_model_loop tbl model idx = crypto_get_model_loop tbl' model idx := by
  intro tbl
  induction tbl with
  | nil =>
    intro tbl' idx hnames
    cases tbl' with
    | nil => rfl
    | cons row' rest' => simp at hnames
  | cons row rest ih =>
    intro tbl' idx hnames
    cases tbl' with
    | nil => simp at hnames
    | cons row' rest' =>
      simp only [List.map_cons, List.cons.injEq] at hnames
      unfold crypto_get_model_loop
      rw [hnames.1, ih rest' (idx + 1) hnames.2]

/-- The row that `crypto_get_model` answers with carries the name asked
for. -/
lemma crypto_get_model_row_name {tbl : List crypto_model_t} {model : String} {i : Nat}
    {row : crypto_model_t} (hlookup : crypto_get_model tbl model = (i : Int))
    (hrow : tbl[i]? = some row) : row.model_name = model := by
  rcases crypto_get_model_loop_first model tbl 0 with ⟨hneg, _⟩ | ⟨i', row1, hrow1, hname1, _, hres⟩
  · unfold crypto_get_model at hlookup
    rw [hneg] at hlookup
    omega
  · unfold crypto_get_model at hlookup
    rw [hres] at hlookup
    have hii : i' = i := by omega
    subst hii
    rw [hrow] at hrow1
    simp only [Option.some.injEq] at hrow1
    rw [hrow1]
    exact hname1

/-- The loader calls among the calls of one `crypto_init`. -/
lemma load_calls_of_parts {lp ip finis : List call_t}
    (hip : ip = [] ∨ ∃ model : Nat, ip = [call_t.init model])
    (hfinis : finis = [] ∨ ∃ (m : Nat) (inst : crypto_instance), finis = [call_t.fini m inst]) :
    (∀ c, c ∈ lp ++ ip ++ finis → is_load_module_call c = true → c ∈ lp) := by
  intro c hc hload
  rcases hip with rfl | ⟨model, rfl⟩ <;> rcases hfinis with rfl | ⟨m, inst, rfl⟩ <;>
    simp only [List.append_nil, List.mem_append, List.mem_singleton] at hc
  · exact hc
  · rcases hc with hc | rfl
    · exact hc
    · simp [is_load_module_call] at hload
  · rcases hc with hc | rfl
    · exact hc
    · simp [is_load_module_call] at hload
  · rcases hc with (hc | rfl) | rfl
    · exact hc
    · simp [is_load_module_call] at hload
    · simp [is_load_module_call] at hload

/-- One `crypto_init` on a state in which the row of backend `name` is
marked loaded: the loader is not called for `name`, the row is kept and the
lookup of `name` still answers with it. -/
lemma crypto_init_keeps_loaded {ABI : Nat} {s s' : state} {cfg : knet_handle_crypto_cfg}
    {config_num : Nat} {env : crypto_init_env} {r : Int} {name : String} {i : Nat}
    {row : crypto_model_t}
    (hlookup : crypto_get_model s.crypto_modules_cmds name = (i : Int))
    (hrow : s.crypto_modules_cmds[i]? = some row) (hloaded : row.loaded ≠ 0)
    (hcall : crypto_init ABI s cfg config_num env = some (r, s')) :
    crypto_get_model s'.crypto_modules_cmds name = (i : Int) ∧
    s'.crypto_modules_cmds[i]? = some row ∧
    ∃ added : List call_t, s'.calls = s.calls ++ added ∧
      call_t.load_module name ∉ added := by
  obtain ⟨lp, ip, finis, hc, hlp, hip, hfail, hok⟩ := crypto_init_calls hcall
  have hfinis : finis = [] ∨
      ∃ (m : Nat) (inst : crypto_instance), finis = [call_t.fini m inst] := by
    by_cases hr : r = 0
    · obtain ⟨_, _, hres⟩ := hok hr
      rcases hres with ⟨_, hf⟩ | ⟨cur, ops, _, _, hf⟩
      · exact Or.inl hf
      · rw [hf]
        split
        · exact Or.inr ⟨_, _, rfl⟩
        · exact Or.inl rfl
    · exact Or.inl (hfail hr)
  refine ⟨?_, (table_inv_init hcall).2 i row hrow hloaded, lp ++ ip ++ finis,
    by rw [hc]; simp, ?_⟩
  · unfold crypto_get_model at hlookup ⊢
    rw [crypto_get_model_loop_names name _ _ 0 (crypto_init_table_names hcall)]
    exact hlookup
  · intro hmem
    have hin := load_calls_of_parts hip hfinis _ hmem rfl
    rcases hlp with rfl | ⟨model0, row0, hlookup0, hrow0, hl0, rfl⟩
    · simp at hin
    · simp only [List.mem_singleton, call_t.load_module.injEq] at hin
      have hname0 := crypto_get_model_row_name hlookup0 hrow0
      rw [← hname0, ← hin] at hlookup0
      rw [hlookup0] at hlookup
      have hii : model0 = i := by omega
      subst hii
      rw [hrow] at hrow0
      simp only [Option.some.injEq] at hrow0
      rw [← hrow0] at hl0
      exact hloaded hl0

/-- A sequence of `crypto_init` calls on a state in which the row of backend
`name` is marked loaded never calls the loader for `name`. -/
lemma crypto_init_seq_keeps_loaded (ABI : Nat) (name : String) (i : Nat)
    (row : crypto_model_t) (hloaded : row.loaded ≠ 0) :
    ∀ (seq : List (knet_handle_crypto_cfg × Nat × crypto_init_env)) (s s' : state),
      crypto_get_model s.crypto_modules_cmds name = (i : Int) →
      s.crypto_modules_cmds[i]? = some row →
      crypto_init_seq ABI s seq = some s' →
      s'.crypto_modules_cmds[i]? = some row ∧
      ∃ added : List call_t, s'.calls = s.calls ++ added ∧
        call_t.load_module name ∉ added := by
  intro seq
  induction seq with
  | nil =>
    intro s s' _ hrow hseq
    simp only [crypto_init_seq, Option.some.injEq] at hseq
    subst hseq
    exact ⟨hrow, [], by simp, by simp⟩
  | cons call rest ih =>
    intro s s' hlookup hrow hseq
    obtain ⟨cfg, config_num, env⟩ := call
    unfold crypto_init_seq at hseq
    split at hseq
    · exact absurd hseq (by simp)
    · next r s1 hcall =>
      obtain ⟨hlookup1, hrow1, added1, hc1, hno1⟩ :=
        crypto_init_keeps_loaded hlookup hrow hloaded hcall
      obtain ⟨hrow', added2, hc2, hno2⟩ := ih s1 s' hlookup1 hrow1 hseq
      refine ⟨hrow', added1 ++ added2, by rw [hc2, hc1]; simp, ?_⟩
      intro hmem
      rcases List.mem_append.mp hmem with h | h
      · exact hno1 h
      · exact hno2 h

/-- C21 as stated fails: two `crypto_init` calls on "nss" whose loader
returns a module of the wrong ABI version call the loader twice, and so do
two calls whose loader fails. -/
theorem loader_at_most_once_counterexample :
    (crypto_init_seq 2 state_initial
      [(tag_cfg "nss" "sha1" [7], 1, env_ok), (tag_cfg "nss" "sha1" [7], 1, env_ok)]).map
        (fun s => s.calls) =
      some [call_t.load_module "nss", call_t.load_module "nss"] ∧
    (crypto_init_seq 1 state_initial
      [(tag_cfg "nss" "sha1" [7], 1, env_load_fails),
       (tag_cfg "nss" "sha1" [7], 1, env_load_fails)]).map (fun s => s.calls) =
      some [call_t.load_module "nss", call_t.load_module "nss"] ∧
    ¬ (List.count (call_t.load_module "nss")
        [call_t.load_module "nss", call_t.load_module "nss"] ≤ 1) := by
  refine ⟨by rfl, by rfl, by decide⟩

/-- C21 (amended): every `crypto_init` call invokes the module loader at most
once, and only for the backend asked for when its row is not marked loaded;
and from a state in which the row of a backend is marked loaded, no sequence
of `crypto_init` calls invokes the loader for that backend again, and the row
stays as it is. -/
theorem loader_not_called_once_loaded (ABI : Nat) (s s' : state) (name : String) (i : Nat)
    (row : crypto_model_t) (seq : List (knet_handle_crypto_cfg × Nat × crypto_init_env))
    (hlookup : crypto_get_model s.crypto_modules_cmds name = (i : Int))
    (hrow : s.crypto_modules_cmds[i]? = some row) (hloaded : row.loaded ≠ 0)
    (hseq : crypto_init_seq ABI s seq = some s') :
    (s'.crypto_modules_cmds[i]? = some row ∧
      ∃ added : List call_t, s'.calls = s.calls ++ added ∧
        call_t.load_module name ∉ added) ∧
    (∀ (t t' : state) (cfg : knet_handle_crypto_cfg) (config_num : Nat)
      (env : crypto_init_env) (r : Int),
      crypto_init ABI t cfg config_num env = some (r, t') →
      ∃ added : List call_t, t'.calls = t.calls ++ added ∧
        (added.filter is_load_module_call = [] ∨
          ∃ (model : Nat) (row0 : crypto_model_t),
            crypto_get_model t.crypto_modules_cmds cfg.crypto_model = (model : Int) ∧
            t.crypto_modules_cmds[model]? = some row0 ∧ row0.loaded = 0 ∧
            added.filter is_load_module_call = [call_t.load_module cfg.crypto_model])) := by
  refine ⟨crypto_init_seq_keeps_loaded ABI name i row hloaded seq s s' hlookup hrow hseq, ?_⟩
  intro t t' cfg config_num env r hcall
  obtain ⟨lp, ip, finis, hc, hlp, hip, hfail, hok⟩ := crypto_init_calls hcall
  have hfinis : finis = [] ∨
      ∃ (m : Nat) (inst : crypto_instance), finis = [call_t.fini m inst] := by
    by_cases hr : r = 0
    · obtain ⟨_, _, hres⟩ := hok hr
      rcases hres with ⟨_, hf⟩ | ⟨cur, ops, _, _, hf⟩
      · exact Or.inl hf
      · rw [hf]
        split
        · exact Or.inr ⟨_, _, rfl⟩
        · exact Or.inl rfl
    · exact Or.inl (hfail hr)
  refine ⟨lp ++ ip ++ finis, by rw [hc]; simp, ?_⟩
  have hfilter : (lp ++ ip ++ finis).filter is_load_module_call =
      lp.filter is_load_module_call := by
    rcases hip with rfl | ⟨model, rfl⟩ <;> rcases hfinis with rfl | ⟨m, inst, rfl⟩ <;>
      simp [is_load_module_call]
  rw [hfilter]
  rcases hlp with rfl | ⟨model0, row0, hlookup0, hrow0, hl0, rfl⟩
  · exact Or.inl rfl
  · refine Or.inr ⟨model0, row0, hlookup0, hrow0, hl0, ?_⟩
    rw [crypto_get_model_row_name hlookup0 hrow0]
    simp [is_load_module_call]

/-- Witness for the amended C21: from `state_one`, where "nss" is loaded, a
`crypto_init` into slot 2 and a `crypto_init` into slot 1 whose `init` hook
fails make no loader call. -/
theorem loader_not_called_once_loaded_witness :
    crypto_get_model state_one.crypto_modules_cmds "nss" = ((0 : Nat) : Int) ∧
    state_one.crypto_modules_cmds[0]? =
      some { model_name := "nss", built_in := 1, loaded := 1, ops := some tag_ops } ∧
    crypto_init_seq 1 state_one
      [(tag_cfg "nss" "sha256" [9], 2, env_ok), (tag_cfg "nss" "sha1" [], 1, env_ok)] =
      some { state_two with errno := EINVAL, calls := state_two.calls ++ [call_t.init 0] } ∧
    (({ state_two with errno := EINVAL, calls := state_two.calls ++ [call_t.init 0] }
        : state).crypto_modules_cmds[0]? =
        some { model_name := "nss", built_in := 1, loaded := 1, ops := some tag_ops } ∧
      ∃ added : List call_t,
        ({ state_two with errno := EINVAL, calls := state_two.calls ++ [call_t.init 0] }
          : state).calls = state_one.calls ++ added ∧
        call_t.load_module "nss" ∉ added) :=
  ⟨by rfl, by rfl, by rfl,
    (loader_not_called_once_loaded 1 state_one
      { state_two with errno := EINVAL, calls := state_two.calls ++ [call_t.init 0] } "nss" 0
      { model_name := "nss", built_in := 1, loaded := 1, ops := some tag_ops }
      [(tag_cfg "nss" "sha256" [9], 2, env_ok), (tag_cfg "nss" "sha1" [], 1, env_ok)]
      (by rfl) (by rfl) (by decide) (by rfl)).1⟩

end Knet
